import Mathlib

/-! Wildfire simulation: cell state machine and lattice update

A shallow embedding of `Cell.cpp` and `Grid.cpp`.

Modelling conventions.

* A C++ `double` is an exact rational (`ℚ`): no rounding, no NaN, no infinity. The one
  place where rounding decides a result, the accumulation `burn_time += dt` over many
  updates, is modelled with the rounding explicit (`Cell.updateR`, `roundDouble`).
* The `<cmath>` functions `sqrt`, `cos`, `atan2` and the constant `M_PI` are not
  part of the repository; they are bundled in `Libm` and passed as a parameter.
  A theorem that needs a fact about them states it as a hypothesis.
* `std::vector<std::vector<T>>` indexed as `v[y][x]` is a total map
  `Int → Int → T`, read as `v y x`; the code only touches positions that pass
  `isValidPosition` or come out of the `0 ≤ y < height`, `0 ≤ x < width` loops.
* `dist(gen)` is a draw from an explicit sample stream (`Rng`). `Grid::update`
  owns two function-local static generators, hence two streams. The code seeds them
  from `std::random_device` and takes no seed, so the streams of a run are an input
  that no caller chooses.
* An `int` is an unbounded `Int`: overflow is not modelled.
* The `while (true)` loop of `Grid::createFirebreak` is a recursion on a bound for the
  number of iterations and returns an `Option`; `firebreakLine_spec` shows that the
  bound `|x2 - x1| + |y2 - y1| + 1` is always enough, so the method always returns.
* A sequence of calls on one grid is a list of `Op` run by `Sim.run`.
-/

namespace Wildfire

/-! ## Cell.h -/

inductive CellState where
  | EMPTY
  | FUEL
  | BURNING
  | BURNED
  deriving DecidableEq, Repr

inductive FuelType where
  | GRASS
  | SHRUB
  | TREE
  | WATER
  | ROCK
  deriving DecidableEq, Repr

structure Cell where
  state : CellState
  fuel_type : FuelType
  fuel_density : ℚ
  moisture : ℚ
  temperature : ℚ
  burn_time : ℚ
  deriving DecidableEq

namespace Cell

/-- Constructor `Cell::Cell(type, density, moisture_level)`. -/
def ctor (type : FuelType) (density moisture_level : ℚ) : Cell :=
  if type = FuelType.WATER ∨ type = FuelType.ROCK then
    { state := CellState.EMPTY, fuel_type := type, fuel_density := 0,
      moisture := moisture_level, temperature := 20, burn_time := 0 }
  else
    { state := CellState.FUEL, fuel_type := type, fuel_density := density,
      moisture := moisture_level, temperature := 20, burn_time := 0 }

/-- Method `Cell::canBurn`. -/
def canBurn (c : Cell) : Bool :=
  decide (c.state = CellState.FUEL) &&
  decide (c.fuel_type ≠ FuelType.WATER) &&
  decide (c.fuel_type ≠ FuelType.ROCK) &&
  decide (c.fuel_density > 0.1)

/-- Method `Cell::ignite`. -/
def ignite (c : Cell) : Cell :=
  if c.canBurn then
    { c with state := CellState.BURNING, burn_time := 0, temperature := 300 }
  else c

/-- The `switch (fuel_type)` of `Cell::update` that picks the burn duration. -/
def baseDuration : FuelType → ℚ
  | FuelType.GRASS => 30
  | FuelType.SHRUB => 120
  | FuelType.TREE => 300
  | _ => 30

/-- Method `Cell::update`. -/
def update (c : Cell) (dt : ℚ) : Cell :=
  if c.state = CellState.BURNING then
    let burn_time := c.burn_time + dt
    let burn_duration := baseDuration c.fuel_type
    let burn_duration := burn_duration * c.fuel_density
    let burn_duration := burn_duration * (1 + c.moisture)
    let burn_progress := burn_time / burn_duration
    let temperature := 300 * (1 - burn_progress) + 20
    if burn_time ≥ burn_duration then
      { c with burn_time := burn_time, state := CellState.BURNED,
               temperature := 20, fuel_density := 0 }
    else
      { c with burn_time := burn_time, temperature := temperature }
  else c

/-- Method `Cell::getIgnitionProbability`. -/
def getIgnitionProbability (c : Cell) : ℚ :=
  if !c.canBurn then 0
  else
    let base_prob := c.fuel_density
    let base_prob :=
      match c.fuel_type with
      | FuelType.GRASS => base_prob * 1.2
      | FuelType.SHRUB => base_prob * 1.0
      | FuelType.TREE => base_prob * 0.8
      | _ => base_prob
    let base_prob := base_prob * (1 - c.moisture * 0.8)
    let base_prob :=
      if c.temperature > 50 then base_prob * (1 + (c.temperature - 50) / 100)
      else base_prob
    min 1 (max 0 base_prob)

/-- Method `Cell::update` with the rounding of each `double` operation made explicit:
`rnd` is applied to the result of every addition, subtraction, multiplication and
division. With `rnd = id` this is `Cell.update`. -/
def updateR (rnd : ℚ → ℚ) (c : Cell) (dt : ℚ) : Cell :=
  if c.state = CellState.BURNING then
    let burn_time := rnd (c.burn_time + dt)
    let burn_duration := baseDuration c.fuel_type
    let burn_duration := rnd (burn_duration * c.fuel_density)
    let burn_duration := rnd (burn_duration * rnd (1 + c.moisture))
    let burn_progress := rnd (burn_time / burn_duration)
    let temperature := rnd (rnd (300 * rnd (1 - burn_progress)) + 20)
    if burn_time ≥ burn_duration then
      { c with burn_time := burn_time, state := CellState.BURNED,
               temperature := 20, fuel_density := 0 }
    else
      { c with burn_time := burn_time, temperature := temperature }
  else c

/-- The cell after `k` successive calls `update(dt)`, each operation rounded by `rnd`. -/
def updateRN (rnd : ℚ → ℚ) (c : Cell) (dt : ℚ) : Nat → Cell
  | 0 => c
  | k + 1 => (updateRN rnd c dt k).updateR rnd dt

/-- The value of `burn_time` after `k` executions of `burn_time += dt` from 0. -/
def burnClock (rnd : ℚ → ℚ) (dt : ℚ) : Nat → ℚ
  | 0 => 0
  | k + 1 => rnd (burnClock rnd dt k + dt)

/-- The value of `burn_duration` computed by `Cell::update`, each product and sum
rounded by `rnd`. -/
def burnDuration (rnd : ℚ → ℚ) (ft : FuelType) (d m : ℚ) : ℚ :=
  rnd (rnd (baseDuration ft * d) * rnd (1 + m))

/-- Method `Cell::getDisplayChar` (the `default: return '?'` of the outer switch is
unreachable: the four states are covered). -/
def getDisplayChar (c : Cell) : Char :=
  match c.state with
  | CellState.EMPTY =>
    if c.fuel_type = FuelType.WATER then '~'
    else if c.fuel_type = FuelType.ROCK then '#'
    else ' '
  | CellState.FUEL =>
    match c.fuel_type with
    | FuelType.GRASS => '.'
    | FuelType.SHRUB => 'o'
    | FuelType.TREE => 'T'
    | _ => '.'
  | CellState.BURNING => '*'
  | CellState.BURNED => 'x'

end Cell

/-- Rounding of a real value to the nearest `double` (IEEE 754 binary64, round to
nearest, ties to even), the result of every arithmetic operation on `double`s:
`e` is the binary exponent (at least −1022, below which the spacing is constant),
`ulp` the spacing `2^(e − 52)` of the doubles around `q`. Overflow to infinity
(`|q| ≥ 2^1024`) is not modelled. -/
def roundDouble (q : ℚ) : ℚ :=
  if q = 0 then 0
  else
    let e : ℤ := max (Int.log 2 |q|) (-1022)
    let ulp : ℚ := 2 ^ (e - 52)
    let t : ℚ := q / ulp
    let f : ℤ := ⌊t⌋
    let r : ℚ := t - f
    if r < 1 / 2 then f * ulp
    else if r > 1 / 2 then (f + 1) * ulp
    else if f % 2 = 0 then f * ulp else (f + 1) * ulp

/-- The `double` nearest to 10/3, written `3.3333333333333335`. -/
def tenThirds : ℚ := 7505999378950827 / 2251799813685248

/-- A call of one of the two mutating fire methods of `Cell`. -/
inductive CellOp where
  | ignite
  | update (dt : ℚ)

/-- One call on a cell. -/
def Cell.apply (c : Cell) : CellOp → Cell
  | CellOp.ignite => c.ignite
  | CellOp.update dt => c.update dt

/-- A sequence of calls on a cell, in order. -/
def Cell.applyAll (c : Cell) (ops : List CellOp) : Cell :=
  ops.foldl Cell.apply c

/-! ## Grid.h -/

structure SuppressionEffect where
  water_level : ℚ
  retardant_level : ℚ
  remaining_time : ℚ
  is_firebreak : Bool
  deriving DecidableEq

/-- The `<cmath>` names used by `Grid.cpp`. -/
structure Libm where
  sqrt : ℚ → ℚ
  cos : ℚ → ℚ
  atan2 : ℚ → ℚ → ℚ
  pi : ℚ

/-- A stream of samples standing for one `std::mt19937` generator read through
`std::uniform_real_distribution<> dist(0.0, 1.0)`. -/
structure Rng where
  samples : Nat → ℚ
  pos : Nat

/-- One call `dist(gen)`: the sample and the advanced generator. -/
def Rng.draw (r : Rng) : ℚ × Rng :=
  (r.samples r.pos, { r with pos := r.pos + 1 })

structure Grid where
  width : Int
  height : Int
  cells : Int → Int → Cell
  suppression_effects : Int → Int → SuppressionEffect
  wind_speed : ℚ
  wind_direction : ℚ
  ambient_temp : ℚ
  humidity : ℚ

namespace Grid

/-- Constructor `Grid::Grid(w, h)`; each cell is the default `Cell()`. -/
def ctor (w h : Int) : Grid :=
  { width := w, height := h,
    cells := fun _ _ => Cell.ctor FuelType.GRASS 0.8 0.3,
    suppression_effects := fun _ _ =>
      { water_level := 0, retardant_level := 0, remaining_time := 0, is_firebreak := false },
    wind_speed := 5, wind_direction := 90, ambient_temp := 25, humidity := 0.4 }

/-- Assignment `cells[y][x] = c`. -/
def setCell (g : Grid) (y x : Int) (c : Cell) : Grid :=
  { g with cells := fun y' x' => if y' = y ∧ x' = x then c else g.cells y' x' }

/-- Assignment `suppression_effects[y][x] = e`. -/
def setEffect (g : Grid) (y x : Int) (e : SuppressionEffect) : Grid :=
  { g with suppression_effects :=
      fun y' x' => if y' = y ∧ x' = x then e else g.suppression_effects y' x' }

/-- Method `Grid::isValidPosition`. -/
def isValidPosition (g : Grid) (x y : Int) : Bool :=
  decide (x ≥ 0) && decide (x < g.width) && decide (y ≥ 0) && decide (y < g.height)

/-- Method `Grid::igniteCell`. -/
def igniteCell (g : Grid) (x y : Int) : Grid :=
  if g.isValidPosition x y then g.setCell y x (g.cells y x).ignite else g

/-- Method `Grid::getNeighbors`: `dy` outer, `dx` inner, centre skipped. -/
def getNeighbors (g : Grid) (x y : Int) : List (Int × Int) :=
  ([-1, 0, 1] : List Int).flatMap fun dy =>
    ([-1, 0, 1] : List Int).flatMap fun dx =>
      if dx = 0 ∧ dy = 0 then []
      else
        let nx := x + dx
        let ny := y + dy
        if g.isValidPosition nx ny then [(nx, ny)] else []

/-- Method `Grid::getSuppressionModifier`. -/
def getSuppressionModifier (g : Grid) (x y : Int) : ℚ :=
  if !g.isValidPosition x y then 0
  else
    let effect := g.suppression_effects y x
    min 1 (effect.water_level * 0.8 + effect.retardant_level * 0.9)

/-- Method `Grid::calculateSpreadProbability`. -/
def calculateSpreadProbability (m : Libm) (g : Grid) (from_x from_y to_x to_y : Int) : ℚ :=
  let from_cell := g.cells from_y from_x
  let to_cell := g.cells to_y to_x
  if from_cell.state ≠ CellState.BURNING ∨ !to_cell.canBurn then 0
  else
    let to_suppression := g.suppression_effects to_y to_x
    if to_suppression.is_firebreak then 0
    else
      let base_prob := to_cell.getIgnitionProbability * 0.1
      let dx : ℚ := ((to_x - from_x : Int) : ℚ)
      let dy : ℚ := ((to_y - from_y : Int) : ℚ)
      let spread_angle := m.atan2 dy dx * 180 / m.pi
      let wind_effect := m.cos ((spread_angle - g.wind_direction) * m.pi / 180)
      let base_prob :=
        if wind_effect > 0 then base_prob * (1 + g.wind_speed * wind_effect * 0.1)
        else base_prob
      let distance := m.sqrt (dx * dx + dy * dy)
      let base_prob := base_prob / distance
      let temp_effect := (from_cell.temperature - g.ambient_temp) / 100
      let base_prob := base_prob * (1 + temp_effect * 0.2)
      let suppression_modifier := g.getSuppressionModifier to_x to_y
      let base_prob := base_prob * (1 - suppression_modifier)
      min 1 (max 0 base_prob)

/-- The positions in the scan order of `for y … for x …`. -/
def positions (g : Grid) : List (Int × Int) :=
  (List.range g.height.toNat).flatMap fun (y : Nat) =>
    (List.range g.width.toNat).map fun (x : Nat) => ((x : Int), (y : Int))

/-- Assignment `will_ignite[y][x] = true`. -/
def setMark (w : Int → Int → Bool) (y x : Int) : Int → Int → Bool :=
  fun y' x' => if y' = y ∧ x' = x then true else w y' x'

/-- First pass of `Grid::update`, body of `for (auto& [nx, ny] : neighbors)`
for the burning source `(x, y)`. -/
def spreadNeighbor (m : Libm) (g : Grid) (dt : ℚ) (x y : Int)
    (st : (Int → Int → Bool) × Rng) (n : Int × Int) : (Int → Int → Bool) × Rng :=
  let nx := n.1
  let ny := n.2
  if (g.cells ny nx).canBurn then
    let prob := g.calculateSpreadProbability m x y nx ny
    let d := st.2.draw
    if d.1 < prob * dt then (setMark st.1 ny nx, d.2) else (st.1, d.2)
  else st

/-- First pass of `Grid::update`, body of the `x` loop at position `p = (x, y)`. -/
def spreadCell (m : Libm) (g : Grid) (dt : ℚ)
    (st : (Int → Int → Bool) × Rng) (p : Int × Int) : (Int → Int → Bool) × Rng :=
  let x := p.1
  let y := p.2
  if (g.cells y x).state = CellState.BURNING then
    (g.getNeighbors x y).foldl (spreadNeighbor m g dt x y) st
  else st

/-- First pass of `Grid::update`: the `will_ignite` marks and the advanced generator.
Every read goes to the grid `g` as it was before the tick. -/
def spreadPass (m : Libm) (g : Grid) (dt : ℚ) (gen : Rng) : (Int → Int → Bool) × Rng :=
  g.positions.foldl (spreadCell m g dt) (fun _ _ => false, gen)

/-- The block of `Grid::update` under `// Update suppression effects`. -/
def decay (effect : SuppressionEffect) (dt : ℚ) : SuppressionEffect :=
  if effect.remaining_time > 0 then
    let remaining_time := effect.remaining_time - dt
    if remaining_time ≤ 0 then
      { effect with remaining_time := remaining_time, water_level := 0, retardant_level := 0 }
    else
      { effect with remaining_time := remaining_time }
  else effect

/-- Second pass of `Grid::update`, body of the `x` loop at position `p = (x, y)`. -/
def updateCell (dt : ℚ) (will_ignite : Int → Int → Bool)
    (st : Grid × Rng) (p : Int × Int) : Grid × Rng :=
  let x := p.1
  let y := p.2
  let g := st.1
  let g := if will_ignite y x then g.setCell y x (g.cells y x).ignite else g
  let g := g.setCell y x ((g.cells y x).update dt)
  let g := g.setEffect y x (decay (g.suppression_effects y x) dt)
  if (g.cells y x).state = CellState.BURNING then
    let suppression := g.getSuppressionModifier x y
    if suppression > 0.5 then
      let d := st.2.draw
      if d.1 < suppression * dt * 2.0 then
        (g.setCell y x { g.cells y x with state := CellState.BURNED }, d.2)
      else (g, d.2)
    else (g, st.2)
  else (g, st.2)

/-- Second pass of `Grid::update`. -/
def writePass (g : Grid) (dt : ℚ) (will_ignite : Int → Int → Bool) (gen : Rng) : Grid × Rng :=
  g.positions.foldl (updateCell dt will_ignite) (g, gen)

/-- Method `Grid::update`: `gen1` feeds the ignition draws of the first pass,
`gen2` the extinguishing draws of the second. Returns the grid and both generators. -/
def update (m : Libm) (g : Grid) (dt : ℚ) (gen1 gen2 : Rng) : Grid × Rng × Rng :=
  let r1 := g.spreadPass m dt gen1
  let r2 := g.writePass dt r1.1 gen2
  (r2.1, r1.2, r2.2)

/-- The grid after the ticks `update(dt)` for the `dt` of the list, in order; the two
generators are carried from tick to tick. -/
def ticks (m : Libm) : List ℚ → Grid × Rng × Rng → Grid × Rng × Rng
  | [], s => s
  | dt :: dts, s => ticks m dts (update m s.1 dt s.2.1 s.2.2)

/-- The values taken by a loop `for (int d = -radius; d <= radius; ++d)`. -/
def offsets (radius : Int) : List Int :=
  (List.range (2 * radius + 1).toNat).map fun (i : Nat) => (i : Int) - radius

/-- Body of the inner loop of `Grid::applyWaterDrop` at the offset `(dx, dy)`. -/
def waterDropAt (m : Libm) (x y radius : Int) (effectiveness duration : ℚ) (dy : Int)
    (g : Grid) (dx : Int) : Grid :=
  let target_x := x + dx
  let target_y := y + dy
  if g.isValidPosition target_x target_y then
    let distance := m.sqrt ((dx * dx + dy * dy : Int) : ℚ)
    if distance ≤ (radius : ℚ) then
      let effect := g.suppression_effects target_y target_x
      let distance_factor := 1 - distance / (radius : ℚ)
      g.setEffect target_y target_x
        { effect with
          water_level := max effect.water_level (effectiveness * distance_factor),
          remaining_time := max effect.remaining_time duration }
    else g
  else g

/-- Method `Grid::applyWaterDrop`. -/
def applyWaterDrop (m : Libm) (g : Grid) (x y radius : Int) (effectiveness duration : ℚ) :
    Grid :=
  (offsets radius).foldl
    (fun g dy => (offsets radius).foldl (waterDropAt m x y radius effectiveness duration dy) g) g

/-- Body of the inner loop of `Grid::applyRetardant` at the offset `(dx, dy)`. -/
def retardantAt (m : Libm) (x y radius : Int) (effectiveness duration : ℚ) (dy : Int)
    (g : Grid) (dx : Int) : Grid :=
  let target_x := x + dx
  let target_y := y + dy
  if g.isValidPosition target_x target_y then
    let distance := m.sqrt ((dx * dx + dy * dy : Int) : ℚ)
    if distance ≤ (radius : ℚ) then
      let effect := g.suppression_effects target_y target_x
      let distance_factor := 1 - distance / (radius : ℚ)
      g.setEffect target_y target_x
        { effect with
          retardant_level := max effect.retardant_level (effectiveness * distance_factor),
          remaining_time := max effect.remaining_time duration }
    else g
  else g

/-- Method `Grid::applyRetardant`. -/
def applyRetardant (m : Libm) (g : Grid) (x y radius : Int) (effectiveness duration : ℚ) :
    Grid :=
  (offsets radius).foldl
    (fun g dy => (offsets radius).foldl (retardantAt m x y radius effectiveness duration dy) g) g

/-- The block `if (isValidPosition(x, y)) { … }` of `Grid::createFirebreak`. -/
def markFirebreak (g : Grid) (x y : Int) : Grid :=
  if g.isValidPosition x y then
    (g.setEffect y x { g.suppression_effects y x with is_firebreak := true }).setCell y x
      (Cell.ctor FuelType.ROCK 0 0)
  else g

/-- The loop `while (true)` of `Grid::createFirebreak`, from the position `(x, y)` with
the running `error`; `dx`, `dy` are the doubled distances. The first argument bounds
the number of iterations: `none` when it is used up before the `break`. -/
def firebreakLoop (x2 y2 x_inc y_inc dx dy : Int) :
    Nat → Grid → Int → Int → Int → Option Grid
  | 0, _, _, _, _ => none
  | fuel + 1, g, x, y, error =>
    let g := g.markFirebreak x y
    if x = x2 ∧ y = y2 then some g
    else if error > 0 then
      firebreakLoop x2 y2 x_inc y_inc dx dy fuel g (x + x_inc) y (error - dy)
    else
      firebreakLoop x2 y2 x_inc y_inc dx dy fuel g x (y + y_inc) (error + dx)

/-- The positions the loop of `Grid::createFirebreak` visits, in order: the control
flow of `firebreakLoop` without the writes. -/
def firebreakTrace (x2 y2 x_inc y_inc dx dy : Int) :
    Nat → Int → Int → Int → Option (List (Int × Int))
  | 0, _, _, _ => none
  | fuel + 1, x, y, error =>
    if x = x2 ∧ y = y2 then some [(x, y)]
    else if error > 0 then
      (firebreakTrace x2 y2 x_inc y_inc dx dy fuel (x + x_inc) y (error - dy)).map
        fun ps => (x, y) :: ps
    else
      (firebreakTrace x2 y2 x_inc y_inc dx dy fuel x (y + y_inc) (error + dx)).map
        fun ps => (x, y) :: ps

/-- Iterations granted to the loop of `createFirebreak`: one per visited position,
`|x2 - x1| + |y2 - y1| + 1` (shown to suffice in `firebreakTrace_from`). -/
def firebreakFuel (x1 y1 x2 y2 : Int) : Nat :=
  (|x2 - x1| + |y2 - y1|).toNat + 1

/-- Method `Grid::createFirebreak`. -/
def createFirebreak (g : Grid) (x1 y1 x2 y2 : Int) : Option Grid :=
  let dx := |x2 - x1|
  let dy := |y2 - y1|
  let x := x1
  let y := y1
  let x_inc : Int := if x1 < x2 then 1 else -1
  let y_inc : Int := if y1 < y2 then 1 else -1
  let error := dx - dy
  let dx := dx * 2
  let dy := dy * 2
  firebreakLoop x2 y2 x_inc y_inc dx dy (firebreakFuel x1 y1 x2 y2) g x y error

/-- The line traversed by `createFirebreak(x1, y1, x2, y2)`. -/
def firebreakLine (x1 y1 x2 y2 : Int) : Option (List (Int × Int)) :=
  let dx := |x2 - x1|
  let dy := |y2 - y1|
  let x_inc : Int := if x1 < x2 then 1 else -1
  let y_inc : Int := if y1 < y2 then 1 else -1
  firebreakTrace x2 y2 x_inc y_inc (dx * 2) (dy * 2) (firebreakFuel x1 y1 x2 y2) x1 y1 (dx - dy)

/-- The value of `base_prob` in `Grid::calculateSpreadProbability` when the final
`std::min(1.0, std::max(0.0, base_prob))` is reached: the function past its two early
returns and without the clamp. -/
def spreadBase (m : Libm) (g : Grid) (from_x from_y to_x to_y : Int) : ℚ :=
  let from_cell := g.cells from_y from_x
  let to_cell := g.cells to_y to_x
  let base_prob := to_cell.getIgnitionProbability * 0.1
  let dx : ℚ := ((to_x - from_x : Int) : ℚ)
  let dy : ℚ := ((to_y - from_y : Int) : ℚ)
  let spread_angle := m.atan2 dy dx * 180 / m.pi
  let wind_effect := m.cos ((spread_angle - g.wind_direction) * m.pi / 180)
  let base_prob :=
    if wind_effect > 0 then base_prob * (1 + g.wind_speed * wind_effect * 0.1)
    else base_prob
  let distance := m.sqrt (dx * dx + dy * dy)
  let base_prob := base_prob / distance
  let temp_effect := (from_cell.temperature - g.ambient_temp) / 100
  let base_prob := base_prob * (1 + temp_effect * 0.2)
  let suppression_modifier := g.getSuppressionModifier to_x to_y
  base_prob * (1 - suppression_modifier)

/-- The body of `for (auto& [nx, ny] : neighbors)` of the first pass, as in
`spreadNeighbor`, with a log of the argument tuples `(x, y, nx, ny)` of its calls of
`calculateSpreadProbability`. -/
def spreadNeighborLog (m : Libm) (g : Grid) (dt : ℚ) (x y : Int)
    (st : ((Int → Int → Bool) × Rng) × List (Int × Int × Int × Int)) (n : Int × Int) :
    ((Int → Int → Bool) × Rng) × List (Int × Int × Int × Int) :=
  let nx := n.1
  let ny := n.2
  if (g.cells ny nx).canBurn then
    let prob := g.calculateSpreadProbability m x y nx ny
    let log := st.2 ++ [(x, y, nx, ny)]
    let d := st.1.2.draw
    if d.1 < prob * dt then ((setMark st.1.1 ny nx, d.2), log) else ((st.1.1, d.2), log)
  else st

/-- The body of the `x` loop of the first pass, as in `spreadCell`, with the log. -/
def spreadCellLog (m : Libm) (g : Grid) (dt : ℚ)
    (st : ((Int → Int → Bool) × Rng) × List (Int × Int × Int × Int)) (p : Int × Int) :
    ((Int → Int → Bool) × Rng) × List (Int × Int × Int × Int) :=
  let x := p.1
  let y := p.2
  if (g.cells y x).state = CellState.BURNING then
    (g.getNeighbors x y).foldl (spreadNeighborLog m g dt x y) st
  else st

/-- The first pass of `Grid::update`, as in `spreadPass`, with the log of all calls of
`calculateSpreadProbability` made during the tick, in order. -/
def spreadPassLog (m : Libm) (g : Grid) (dt : ℚ) (gen : Rng) :
    ((Int → Int → Bool) × Rng) × List (Int × Int × Int × Int) :=
  g.positions.foldl (spreadCellLog m g dt) ((fun _ _ => false, gen), [])

end Grid

/-- Two generators deliver the same sequence of samples from where they stand. -/
def Rng.agree (r r' : Rng) : Prop :=
  ∀ i : Nat, r.samples (r.pos + i) = r'.samples (r'.pos + i)

/-- The eight offsets `(dx, dy)` tried by `Grid::getNeighbors`, in loop order. -/
def Grid.neighborOffsets : List (Int × Int) :=
  [(-1, -1), (0, -1), (1, -1), (-1, 0), (1, 0), (-1, 1), (0, 1), (1, 1)]

/-- The grid after the body of the loop of `createFirebreak` has run at each position
of the list, in order. -/
def Grid.markAll (g : Grid) (ps : List (Int × Int)) : Grid :=
  ps.foldl (fun g p => g.markFirebreak p.1 p.2) g

/-- The entry after the decay steps of successive ticks with the given `dt`. -/
def Grid.decays (effect : SuppressionEffect) (dts : List ℚ) : SuppressionEffect :=
  dts.foldl Grid.decay effect

/-- The grids `g` and `g'` agree on everything but the suppression field. -/
def Grid.sameButEffects (g g' : Grid) : Prop :=
  g'.width = g.width ∧ g'.height = g.height ∧ g'.cells = g.cells ∧
  g'.wind_speed = g.wind_speed ∧ g'.wind_direction = g.wind_direction ∧
  g'.ambient_temp = g.ambient_temp ∧ g'.humidity = g.humidity

/-- The two field writes of `applyWaterDrop`: `v` is `effectiveness * distance_factor`,
`t` the duration. -/
def mergeWater (v t : ℚ) (e : SuppressionEffect) : SuppressionEffect :=
  { e with water_level := max e.water_level v, remaining_time := max e.remaining_time t }

/-- The two field writes of `applyRetardant`. -/
def mergeRetardant (v t : ℚ) (e : SuppressionEffect) : SuppressionEffect :=
  { e with retardant_level := max e.retardant_level v, remaining_time := max e.remaining_time t }

/-- The common shape of `waterDropAt` and `retardantAt`, with the field writes as the
parameter `merge`. -/
def Grid.depositAt (merge : ℚ → ℚ → SuppressionEffect → SuppressionEffect) (m : Libm)
    (x y radius : Int) (effectiveness duration : ℚ) (dy : Int) (g : Grid) (dx : Int) : Grid :=
  if g.isValidPosition (x + dx) (y + dy) then
    if m.sqrt ((dx * dx + dy * dy : Int) : ℚ) ≤ (radius : ℚ) then
      g.setEffect (y + dy) (x + dx)
        (merge (effectiveness * (1 - m.sqrt ((dx * dx + dy * dy : Int) : ℚ) / (radius : ℚ)))
          duration (g.suppression_effects (y + dy) (x + dx)))
    else g
  else g

/-- The common shape of `applyWaterDrop` and `applyRetardant`. -/
def Grid.deposit (merge : ℚ → ℚ → SuppressionEffect → SuppressionEffect) (m : Libm)
    (g : Grid) (x y radius : Int) (effectiveness duration : ℚ) : Grid :=
  (Grid.offsets radius).foldl
    (fun g dy =>
      (Grid.offsets radius).foldl (Grid.depositAt merge m x y radius effectiveness duration dy) g)
    g

/-- The guard under which the deposit loops write the entry at offset `(dx, dy)` from
the centre `(x, y)`: the target is in the grid, both offsets are in the loop range,
and `distance <= radius`. -/
def Grid.depositFires (m : Libm) (g : Grid) (x y radius dx dy : Int) : Prop :=
  g.isValidPosition (x + dx) (y + dy) = true ∧ (-radius ≤ dx ∧ dx ≤ radius) ∧
    (-radius ≤ dy ∧ dy ≤ radius) ∧ m.sqrt ((dx * dx + dy * dy : Int) : ℚ) ≤ (radius : ℚ)

/-- The value `effectiveness * distance_factor` at offset `(dx, dy)`. -/
def Grid.depositValue (m : Libm) (radius : Int) (effectiveness : ℚ) (dx dy : Int) : ℚ :=
  effectiveness * (1 - m.sqrt ((dx * dx + dy * dy : Int) : ℚ) / (radius : ℚ))

/-! ## FirefightingCrew.h -/

inductive CrewType where
  | GROUND_CREW
  | WATER_TANKER
  | AIR_TANKER
  | HELICOPTER
  deriving DecidableEq, Repr

inductive SuppressionType where
  | WATER
  | RETARDANT
  | FIREBREAK
  | EVACUATION
  deriving DecidableEq, Repr

structure SuppressionAction where
  type : SuppressionType
  x : Int
  y : Int
  radius : Int
  effectiveness : ℚ
  duration : ℚ
  cost : ℚ

structure FirefightingCrew where
  id : Int
  name : String
  type : CrewType
  x : Int
  y : Int
  water_capacity : ℚ
  retardant_capacity : ℚ
  current_water : ℚ
  current_retardant : ℚ
  effectiveness : ℚ
  fatigue : ℚ
  available : Bool
  speed : ℚ

/-- Constructor `FirefightingCrew::FirefightingCrew`. -/
def FirefightingCrew.ctor (crew_id : Int) (crew_name : String) (crew_type : CrewType)
    (start_x start_y : Int) : FirefightingCrew :=
  match crew_type with
  | CrewType.GROUND_CREW =>
    { id := crew_id, name := crew_name, type := crew_type, x := start_x, y := start_y,
      water_capacity := 500, retardant_capacity := 0, current_water := 500,
      current_retardant := 0, effectiveness := 0.6, fatigue := 0, available := true,
      speed := 2 }
  | CrewType.WATER_TANKER =>
    { id := crew_id, name := crew_name, type := crew_type, x := start_x, y := start_y,
      water_capacity := 3000, retardant_capacity := 0, current_water := 3000,
      current_retardant := 0, effectiveness := 0.8, fatigue := 0, available := true,
      speed := 4 }
  | CrewType.AIR_TANKER =>
    { id := crew_id, name := crew_name, type := crew_type, x := start_x, y := start_y,
      water_capacity := 1000, retardant_capacity := 2000, current_water := 1000,
      current_retardant := 2000, effectiveness := 0.9, fatigue := 0, available := true,
      speed := 8 }
  | CrewType.HELICOPTER =>
    { id := crew_id, name := crew_name, type := crew_type, x := start_x, y := start_y,
      water_capacity := 1500, retardant_capacity := 500, current_water := 1500,
      current_retardant := 500, effectiveness := 0.7, fatigue := 0, available := true,
      speed := 6 }

/-- Getter `FirefightingCrew::getEffectiveness`. -/
def FirefightingCrew.getEffectiveness (c : FirefightingCrew) : ℚ :=
  c.effectiveness * (1 - c.fatigue)

/-- Method `FirefightingCrew::deployWater`: the action and the crew after the call. -/
def FirefightingCrew.deployWater (c : FirefightingCrew) (target_x target_y radius : Int) :
    SuppressionAction × FirefightingCrew :=
  let action : SuppressionAction :=
    { type := SuppressionType.WATER, x := target_x, y := target_y, radius := radius,
      effectiveness := c.getEffectiveness * 0.8, duration := 300, cost := 500 }
  let water_used := min c.current_water (c.water_capacity * 0.3)
  let current_water := c.current_water - water_used
  let fatigue := c.fatigue + 0.1
  let fatigue := min fatigue 1
  (action, { c with current_water := current_water, fatigue := fatigue })

/-- Method `FirefightingCrew::deployRetardant`. -/
def FirefightingCrew.deployRetardant (c : FirefightingCrew) (target_x target_y radius : Int) :
    SuppressionAction × FirefightingCrew :=
  let action : SuppressionAction :=
    { type := SuppressionType.RETARDANT, x := target_x, y := target_y, radius := radius,
      effectiveness := c.getEffectiveness * 0.9, duration := 1800, cost := 2000 }
  let retardant_used := min c.current_retardant (c.retardant_capacity * 0.4)
  let current_retardant := c.current_retardant - retardant_used
  let fatigue := c.fatigue + 0.15
  let fatigue := min fatigue 1
  (action, { c with current_retardant := current_retardant, fatigue := fatigue })

/-- Method `FirefightingCrew::createFirebreak`. -/
def FirefightingCrew.createFirebreak (c : FirefightingCrew) (start_x start_y end_x end_y : Int) :
    SuppressionAction × FirefightingCrew :=
  let action : SuppressionAction :=
    { type := SuppressionType.FIREBREAK, x := start_x, y := start_y,
      radius := |end_x - start_x| + |end_y - start_y|,
      effectiveness := c.getEffectiveness * 0.7, duration := -1, cost := 1000 }
  let fatigue := c.fatigue + 0.2
  let fatigue := min fatigue 1
  (action, { c with fatigue := fatigue })

/-- Method `FirefightingCrew::canDeploy`. -/
def FirefightingCrew.canDeploy (c : FirefightingCrew) (type : SuppressionType) : Bool :=
  if !c.available then false
  else
    match type with
    | SuppressionType.WATER => decide (c.current_water > c.water_capacity * 0.1)
    | SuppressionType.RETARDANT => decide (c.current_retardant > c.retardant_capacity * 0.1)
    | SuppressionType.FIREBREAK => decide (c.fatigue < 0.7)
    | SuppressionType.EVACUATION => decide (c.fatigue < 0.5)

structure EvacuationZone where
  x : Int
  y : Int
  radius : Int
  population : Int
  evacuated : Int
  evacuation_ordered : Bool
  danger_level : ℚ
  name : String

structure HumanFactorManager where
  crews : List FirefightingCrew
  evacuation_zones : List EvacuationZone
  total_budget : ℚ
  spent_budget : ℚ
  next_crew_id : Int

/-- Constructor `HumanFactorManager::HumanFactorManager(initial_budget)`. -/
def HumanFactorManager.ctor (initial_budget : ℚ) : HumanFactorManager :=
  { crews := [], evacuation_zones := [], total_budget := initial_budget, spent_budget := 0,
    next_crew_id := 1 }

/-- Method `HumanFactorManager::addCrew`. -/
def HumanFactorManager.addCrew (mgr : HumanFactorManager) (name : String) (type : CrewType)
    (x y : Int) : HumanFactorManager :=
  { mgr with
    crews := mgr.crews ++ [FirefightingCrew.ctor mgr.next_crew_id name type x y],
    next_crew_id := mgr.next_crew_id + 1 }

/-- Method `HumanFactorManager::canAfford`. -/
def HumanFactorManager.canAfford (mgr : HumanFactorManager) (cost : ℚ) : Bool :=
  decide (mgr.spent_budget + cost ≤ mgr.total_budget)

/-- Method `HumanFactorManager::spendBudget`. -/
def HumanFactorManager.spendBudget (mgr : HumanFactorManager) (amount : ℚ) :
    HumanFactorManager :=
  { mgr with spent_budget := mgr.spent_budget + amount }

/-- The `switch (type)` of `HumanFactorManager::orderSuppression`: the action and the
crew after the deploy call. `uninit` stands for the contents of the uninitialised local
`SuppressionAction action;`, of which the `default` branch sets two fields. -/
def HumanFactorManager.deploy (crew : FirefightingCrew) (type : SuppressionType)
    (x y radius : Int) (uninit : SuppressionAction) : SuppressionAction × FirefightingCrew :=
  match type with
  | SuppressionType.WATER => crew.deployWater x y radius
  | SuppressionType.RETARDANT => crew.deployRetardant x y radius
  | SuppressionType.FIREBREAK => crew.createFirebreak x y (x + radius) y
  | SuppressionType.EVACUATION => ({ uninit with effectiveness := 0, cost := 0 }, crew)

/-- The loop `for (auto& crew : crews)` of `HumanFactorManager::orderSuppression`:
`done` are the crews already visited, as the loop left them, the last argument the
crews still to visit. Returns the manager, and the action when the loop returned one. -/
def HumanFactorManager.orderLoop (mgr : HumanFactorManager) (crew_id : Int)
    (type : SuppressionType) (x y radius : Int) (uninit : SuppressionAction) :
    List FirefightingCrew → List FirefightingCrew → HumanFactorManager × Option SuppressionAction
  | done, [] => ({ mgr with crews := done }, none)
  | done, crew :: rest =>
    if crew.id = crew_id ∧ crew.canDeploy type = true then
      let r := HumanFactorManager.deploy crew type x y radius uninit
      if mgr.canAfford r.1.cost then
        ({ mgr.spendBudget r.1.cost with crews := done ++ r.2 :: rest }, some r.1)
      else
        HumanFactorManager.orderLoop mgr crew_id type x y radius uninit (done ++ [r.2]) rest
    else
      HumanFactorManager.orderLoop mgr crew_id type x y radius uninit (done ++ [crew]) rest

/-- Method `HumanFactorManager::orderSuppression`: the manager after the call and the
returned action. `uninit` stands for the contents of an uninitialised
`SuppressionAction`; the failed action sets its effectiveness and cost to 0. -/
def HumanFactorManager.orderSuppression (mgr : HumanFactorManager) (crew_id : Int)
    (type : SuppressionType) (x y radius : Int) (uninit : SuppressionAction) :
    HumanFactorManager × SuppressionAction :=
  match HumanFactorManager.orderLoop mgr crew_id type x y radius uninit [] mgr.crews with
  | (mgr', some action) => (mgr', action)
  | (mgr', none) => (mgr', { uninit with effectiveness := 0, cost := 0 })

/-! ## FireSimulation.h -/

structure FireSimulation where
  grid : Grid
  human_manager : HumanFactorManager
  time_step : ℚ
  total_time : ℚ
  running : Bool
  cells_burning : Int
  cells_burned : Int
  total_fuel_cells : Int

/-- The block `if (grid.isValidPosition(x, y)) { … }` of `FireSimulation::addFirebreak`. -/
def Grid.placeRock (g : Grid) (x y : Int) : Grid :=
  if g.isValidPosition x y then g.setCell y x (Cell.ctor FuelType.ROCK 0 0) else g

/-- The loop `while (true)` of `FireSimulation::addFirebreak` on the grid, from the
position `(x, y)` with the running `error`. The first argument bounds the number of
iterations: `none` when it is used up before the `break`. -/
def FireSimulation.addFirebreakLoop (x2 y2 x_inc y_inc dx dy : Int) :
    Nat → Grid → Int → Int → Int → Option Grid
  | 0, _, _, _, _ => none
  | fuel + 1, g, x, y, error =>
    let g := g.placeRock x y
    if x = x2 ∧ y = y2 then some g
    else if error > 0 then
      FireSimulation.addFirebreakLoop x2 y2 x_inc y_inc dx dy fuel g (x + x_inc) y (error - dy)
    else
      FireSimulation.addFirebreakLoop x2 y2 x_inc y_inc dx dy fuel g x (y + y_inc) (error + dx)

/-- The positions the loop of `FireSimulation::addFirebreak` visits, in order: the
control flow of `addFirebreakLoop` without the writes. -/
def FireSimulation.addFirebreakTrace (x2 y2 x_inc y_inc dx dy : Int) :
    Nat → Int → Int → Int → Option (List (Int × Int))
  | 0, _, _, _ => none
  | fuel + 1, x, y, error =>
    if x = x2 ∧ y = y2 then some [(x, y)]
    else if error > 0 then
      (FireSimulation.addFirebreakTrace x2 y2 x_inc y_inc dx dy fuel (x + x_inc) y
        (error - dy)).map fun ps => (x, y) :: ps
    else
      (FireSimulation.addFirebreakTrace x2 y2 x_inc y_inc dx dy fuel x (y + y_inc)
        (error + dx)).map fun ps => (x, y) :: ps

/-- Method `FireSimulation::addFirebreak`, with the iterations of `Grid.firebreakFuel`. -/
def FireSimulation.addFirebreak (s : FireSimulation) (x1 y1 x2 y2 : Int) :
    Option FireSimulation :=
  let dx := |x2 - x1|
  let dy := |y2 - y1|
  let x := x1
  let y := y1
  let x_inc : Int := if x1 < x2 then 1 else -1
  let y_inc : Int := if y1 < y2 then 1 else -1
  let error := dx - dy
  let dx := dx * 2
  let dy := dy * 2
  (FireSimulation.addFirebreakLoop x2 y2 x_inc y_inc dx dy (Grid.firebreakFuel x1 y1 x2 y2)
    s.grid x y error).map fun g => { s with grid := g }

/-- The line traversed by `FireSimulation::addFirebreak(x1, y1, x2, y2)`. -/
def FireSimulation.addFirebreakLine (x1 y1 x2 y2 : Int) : Option (List (Int × Int)) :=
  let dx := |x2 - x1|
  let dy := |y2 - y1|
  let x_inc : Int := if x1 < x2 then 1 else -1
  let y_inc : Int := if y1 < y2 then 1 else -1
  FireSimulation.addFirebreakTrace x2 y2 x_inc y_inc (dx * 2) (dy * 2)
    (Grid.firebreakFuel x1 y1 x2 y2) x1 y1 (dx - dy)

/-- The grid after the body of the loop of `addFirebreak` has run at each position of
the list, in order. -/
def Grid.rockAll (g : Grid) (ps : List (Int × Int)) : Grid :=
  ps.foldl (fun g p => g.placeRock p.1 p.2) g

/-- A manager with a budget of 100 and one water tanker, which gets the id 1. -/
def smallBudgetManager : HumanFactorManager :=
  (HumanFactorManager.ctor 100).addCrew "Tanker" CrewType.WATER_TANKER 0 0

/-- An arbitrary content for an uninitialised `SuppressionAction`. -/
def staleAction : SuppressionAction :=
  { type := SuppressionType.EVACUATION, x := 7, y := 7, radius := 7, effectiveness := 7,
    duration := 7, cost := 7 }

/-- What holds of every cell of a grid built from constructed cells by the methods of
`Grid`: a burning cell has a density above 0.1; a burned cell either burned out
(temperature 20, density 0) or has the values of a burning cell after an update. -/
def Cell.burnInvariant (c : Cell) : Prop :=
  (c.state = CellState.BURNING → c.fuel_density > 0.1) ∧
  (c.state = CellState.BURNED →
    (c.temperature = 20 ∧ c.fuel_density = 0) ∨
    (c.fuel_density > 0.1 ∧
      c.burn_time < Cell.baseDuration c.fuel_type * c.fuel_density * (1 + c.moisture) ∧
      c.temperature = 300 * (1 - c.burn_time /
        (Cell.baseDuration c.fuel_type * c.fuel_density * (1 + c.moisture))) + 20))

/-- A call of one of the mutating methods of `Grid`. -/
inductive Op where
  | igniteCell (x y : Int)
  | update (dt : ℚ)
  | applyWaterDrop (x y radius : Int) (effectiveness duration : ℚ)
  | applyRetardant (x y radius : Int) (effectiveness duration : ℚ)
  | createFirebreak (x1 y1 x2 y2 : Int)

/-- A grid together with the two generators of `Grid::update`. -/
structure Sim where
  grid : Grid
  gen1 : Rng
  gen2 : Rng

/-- One call on the grid. -/
def Sim.step (m : Libm) (s : Sim) : Op → Option Sim
  | Op.igniteCell x y => some { s with grid := s.grid.igniteCell x y }
  | Op.update dt =>
    some { grid := (s.grid.update m dt s.gen1 s.gen2).1,
           gen1 := (s.grid.update m dt s.gen1 s.gen2).2.1,
           gen2 := (s.grid.update m dt s.gen1 s.gen2).2.2 }
  | Op.applyWaterDrop x y radius effectiveness duration =>
    some { s with grid := s.grid.applyWaterDrop m x y radius effectiveness duration }
  | Op.applyRetardant x y radius effectiveness duration =>
    some { s with grid := s.grid.applyRetardant m x y radius effectiveness duration }
  | Op.createFirebreak x1 y1 x2 y2 =>
    (s.grid.createFirebreak x1 y1 x2 y2).map fun g => { s with grid := g }

/-- A sequence of calls, in order. -/
def Sim.run (m : Libm) : Sim → List Op → Option Sim
  | s, [] => some s
  | s, op :: ops => (s.step m op).bind fun s' => Sim.run m s' ops

/-- Whether the call is `applyWaterDrop` or `applyRetardant`. -/
def Op.isDeposit : Op → Bool
  | Op.applyWaterDrop _ _ _ _ _ => true
  | Op.applyRetardant _ _ _ _ _ => true
  | _ => false

/-- The effectiveness passed by the call, 0 for a call without one. -/
def Op.effectiveness : Op → ℚ
  | Op.applyWaterDrop _ _ _ e _ => e
  | Op.applyRetardant _ _ _ e _ => e
  | _ => 0

/-- Whether a deposit call passes a positive duration (true for the other calls). -/
def Op.positiveDuration : Op → Prop
  | Op.applyWaterDrop _ _ _ _ t => 0 < t
  | Op.applyRetardant _ _ _ _ t => 0 < t
  | _ => True

/-- A rational stand-in for `<cmath>`, used to instantiate theorems at concrete
inputs: one Heron step for `sqrt`, the fourth-order Taylor polynomial for `cos`,
axis values for `atan2`, and 355/113 for `M_PI`. -/
def Libm.standIn : Libm :=
  { sqrt := fun x => (1 + x) / 2,
    cos := fun x => 1 - x ^ 2 / 2 + x ^ 4 / 24,
    atan2 := fun y x =>
      if y = 0 then (if x < 0 then 355 / 113 else 0)
      else if y > 0 then 355 / 226 else -(355 / 226),
    pi := 355 / 113 }

/-- The stand-in `Libm.standIn` with the sixth-order Taylor polynomial for `cos`, which
is 1 at 0 and negative at `M_PI`. -/
def Libm.taylor6 : Libm :=
  { Libm.standIn with cos := fun x => 1 - x ^ 2 / 2 + x ^ 4 / 24 - x ^ 6 / 720 }

/-- The 3×3 lattice of the wind-bias scenario: every cell `Cell(GRASS, d, 0.0)`,
`setWindDirection(90)`, `setWindSpeed(10)`, then `igniteCell(1, 1)`. -/
def windBiasGrid (d : ℚ) : Grid :=
  Grid.igniteCell
    { Grid.ctor 3 3 with
      cells := fun _ _ => Cell.ctor FuelType.GRASS d 0,
      wind_direction := 90,
      wind_speed := 10 } 1 1

/-- A 3×3 grassland with a firebreak flag at `(2, 1)` and the centre burning. -/
def firebreakGrid : Grid :=
  Grid.setEffect (windBiasGrid 0.8) 1 2
    { water_level := 0, retardant_level := 0, remaining_time := 0, is_firebreak := true }

/-- The 3×3 wind-bias lattice with a burned-out cell at `(0, 0)` next to the burning
centre. -/
def burnedGrid : Grid :=
  Grid.setCell (windBiasGrid 0.8) 0 0
    { state := CellState.BURNED, fuel_type := FuelType.GRASS, fuel_density := 0,
      moisture := 0, temperature := 20, burn_time := 24 }

/-- A generator whose every draw is 0, the lowest value of `dist(gen)`. -/
def Rng.zeros : Rng := { samples := fun _ => 0, pos := 0 }

/-- A 2×1 lattice: `(0, 0)` burning at ignition temperature, `(1, 0)` fresh grass. -/
def twoCellGrid : Grid :=
  { width := 2, height := 1,
    cells := fun _ x =>
      if x = 0 then
        { state := CellState.BURNING, fuel_type := FuelType.GRASS, fuel_density := 0.8,
          moisture := 0, temperature := 300, burn_time := 0 }
      else Cell.ctor FuelType.GRASS 0.8 0,
    suppression_effects := fun _ _ =>
      { water_level := 0, retardant_level := 0, remaining_time := 0, is_firebreak := false },
    wind_speed := 5, wind_direction := 90, ambient_temp := 25, humidity := 0.4 }

/-- A generator that has delivered three samples 1/2 and delivers 0 from now on. -/
def Rng.used : Rng := { samples := fun i => if i < 3 then 1 / 2 else 0, pos := 3 }

/-- A generator whose every draw is 1/2. -/
def Rng.halves : Rng := { samples := fun _ => 1 / 2, pos := 0 }

/-- The least natural number whose square is at least `n`. -/
def ceilSqrt (n : Nat) : Nat :=
  if Nat.sqrt n * Nat.sqrt n = n then Nat.sqrt n else Nat.sqrt n + 1

/-- A stand-in for `<cmath>` whose `sqrt` is the integer ceiling of the square root:
exact on perfect squares, and `sqrt n ≤ r` holds exactly when `n ≤ r²` for integers. -/
def Libm.ceil : Libm :=
  { Libm.standIn with sqrt := fun x => ((ceilSqrt ⌊x⌋.toNat : Nat) : ℚ) }

/-! ## Cell: canBurn, ignite -/

/-- C5: `canBurn()` holds exactly when the state is `FUEL`, the fuel type is
neither `WATER` nor `ROCK`, and the fuel density exceeds 0.1. -/
theorem canBurn_iff (c : Cell) :
    c.canBurn = true ↔
      c.state = CellState.FUEL ∧ c.fuel_type ≠ FuelType.WATER ∧
        c.fuel_type ≠ FuelType.ROCK ∧ c.fuel_density > 0.1 := by
  simp [Cell.canBurn, and_assoc]

/-- C6: `ignite()` changes the cell exactly when `canBurn()` held before the call;
then the state is `BURNING`, the burn time 0 and the temperature 300, and fuel type,
fuel density and moisture are kept; otherwise every field is kept. -/
theorem ignite_spec (c : Cell) :
    (c.ignite ≠ c ↔ c.canBurn = true) ∧
    (c.canBurn = true →
      c.ignite.state = CellState.BURNING ∧ c.ignite.burn_time = 0 ∧
      c.ignite.temperature = 300 ∧ c.ignite.fuel_type = c.fuel_type ∧
      c.ignite.fuel_density = c.fuel_density ∧ c.ignite.moisture = c.moisture) ∧
    (c.canBurn = false → c.ignite = c) := by
  refine ⟨?_, ?_, ?_⟩
  · constructor
    · intro h
      by_contra hc
      exact h (by simp [Cell.ignite, hc])
    · intro hc h
      have hs : c.state = CellState.FUEL := by
        simp only [Cell.canBurn, Bool.and_eq_true, decide_eq_true_eq] at hc
        exact hc.1.1.1
      have h2 : c.ignite.state = CellState.BURNING := by simp [Cell.ignite, hc]
      rw [h, hs] at h2
      exact absurd h2 (by decide)
  · intro hc
    simp [Cell.ignite, hc]
  · intro hc
    simp [Cell.ignite, hc]

/-! ## Cell: update -/

theorem baseDuration_pos (ft : FuelType) : 0 < Cell.baseDuration ft := by
  cases ft <;> norm_num [Cell.baseDuration]

theorem ignite_ctor (ft : FuelType) (d m : ℚ)
    (hft : ft ≠ FuelType.WATER ∧ ft ≠ FuelType.ROCK) (hd : d > 0.1) :
    (Cell.ctor ft d m).ignite =
      { state := CellState.BURNING, fuel_type := ft, fuel_density := d, moisture := m,
        temperature := 300, burn_time := 0 } := by
  have hc : (Cell.ctor ft d m).canBurn = true := by
    simp [Cell.ctor, Cell.canBurn, hft.1, hft.2]
    simpa using hd
  simp [Cell.ignite, hc]
  simp [Cell.ctor, hft.1, hft.2]

theorem updateR_id (c : Cell) (dt : ℚ) : c.updateR id dt = c.update dt := rfl

/-- The state of an ignited fresh cell after `k` rounded updates: `BURNING`, with its
fuel fields intact and the burn time of the clock, while the clock has stayed below the
burn duration; `BURNED` once the clock has reached it. -/
theorem updateRN_ignite_ctor (rnd : ℚ → ℚ) (ft : FuelType) (d m dt : ℚ)
    (hft : ft ≠ FuelType.WATER ∧ ft ≠ FuelType.ROCK) (hd : d > 0.1) (k : Nat) :
    ((∀ j : Nat, 1 ≤ j → j ≤ k → Cell.burnClock rnd dt j < Cell.burnDuration rnd ft d m) →
      (((Cell.ctor ft d m).ignite).updateRN rnd dt k).state = CellState.BURNING ∧
      (((Cell.ctor ft d m).ignite).updateRN rnd dt k).fuel_type = ft ∧
      (((Cell.ctor ft d m).ignite).updateRN rnd dt k).fuel_density = d ∧
      (((Cell.ctor ft d m).ignite).updateRN rnd dt k).moisture = m ∧
      (((Cell.ctor ft d m).ignite).updateRN rnd dt k).burn_time = Cell.burnClock rnd dt k) ∧
    ((∃ j : Nat, 1 ≤ j ∧ j ≤ k ∧ Cell.burnClock rnd dt j ≥ Cell.burnDuration rnd ft d m) →
      (((Cell.ctor ft d m).ignite).updateRN rnd dt k).state = CellState.BURNED) := by
  induction k with
  | zero =>
    constructor
    · intro _
      simp [Cell.updateRN, Cell.burnClock, ignite_ctor ft d m hft hd]
    · rintro ⟨j, h1, h2, _⟩
      omega
  | succ k ih =>
    obtain ⟨ih1, ih2⟩ := ih
    constructor
    · intro h
      obtain ⟨h1, h2, h3, h4, h5⟩ := ih1 (fun j hj1 hj2 => h j hj1 (by omega))
      have hlt := h (k + 1) (by omega) (le_refl _)
      simp only [Cell.burnClock, Cell.burnDuration] at hlt
      simp only [Cell.updateRN]
      simp only [Cell.updateR, h1, if_true, h2, h3, h4, h5, if_neg (not_le.2 hlt)]
      exact ⟨trivial, trivial, trivial, trivial, by simp only [Cell.burnClock]⟩
    · rintro ⟨j, hj1, hj2, hj⟩
      simp only [Cell.updateRN]
      by_cases hprev : ∃ j : Nat, 1 ≤ j ∧ j ≤ k ∧
          Cell.burnClock rnd dt j ≥ Cell.burnDuration rnd ft d m
      · have hb := ih2 hprev
        simp [Cell.updateR, hb]
      · have hall : ∀ j : Nat, 1 ≤ j → j ≤ k →
            Cell.burnClock rnd dt j < Cell.burnDuration rnd ft d m := by
          intro i hi1 hi2
          by_contra hc
          exact hprev ⟨i, hi1, hi2, not_lt.1 hc⟩
        obtain ⟨h1, h2, h3, h4, h5⟩ := ih1 hall
        have hjk : j = k + 1 := by
          by_contra hne
          exact absurd hj (not_le.2 (hall j hj1 (by omega)))
        subst hjk
        simp only [Cell.burnClock, Cell.burnDuration] at hj
        simp only [Cell.updateR, h1, if_true, h2, h3, h4, h5, if_pos hj]

/-! ## Rounding to double -/

/-- A value between two neighbouring doubles `f × 2^(e − 52)` and `(f + 1) × 2^(e − 52)`
of the binade `e`: the exponent and the integer part that `roundDouble` computes. -/
theorem roundDouble_frame (q : ℚ) (e f : ℤ) (he : -1022 ≤ e)
    (hf1 : 2 ^ 52 ≤ f) (hf2 : f < 2 ^ 53)
    (h1 : (f : ℚ) * 2 ^ (e - 52) ≤ q) (h2 : q < ((f : ℚ) + 1) * 2 ^ (e - 52)) :
    q ≠ 0 ∧ max (Int.log 2 |q|) (-1022) = e ∧ ⌊q / 2 ^ (e - 52)⌋ = f := by
  have hu : (0 : ℚ) < 2 ^ (e - 52) := zpow_pos (by norm_num) _
  have hfq1 : ((2 : ℚ) ^ (52 : ℕ)) ≤ (f : ℚ) := by exact_mod_cast hf1
  have hfq2 : (f : ℚ) + 1 ≤ (2 : ℚ) ^ (53 : ℕ) := by
    have : f + 1 ≤ 2 ^ 53 := by omega
    exact_mod_cast this
  have he1 : (2 : ℚ) ^ e = 2 ^ (52 : ℕ) * 2 ^ (e - 52) := by
    rw [← zpow_natCast, ← zpow_add₀ (by norm_num : (2 : ℚ) ≠ 0)]
    congr 1
    push_cast
    ring
  have he2 : (2 : ℚ) ^ (e + 1) = 2 ^ (53 : ℕ) * 2 ^ (e - 52) := by
    rw [← zpow_natCast, ← zpow_add₀ (by norm_num : (2 : ℚ) ≠ 0)]
    congr 1
    push_cast
    ring
  have hlo : (2 : ℚ) ^ e ≤ q := by
    rw [he1]
    exact le_trans (mul_le_mul_of_nonneg_right hfq1 hu.le) h1
  have hhi : q < (2 : ℚ) ^ (e + 1) := by
    rw [he2]
    exact lt_of_lt_of_le h2 (mul_le_mul_of_nonneg_right hfq2 hu.le)
  have hq : 0 < q := lt_of_lt_of_le (zpow_pos (by norm_num) _) hlo
  have hlog : Int.log 2 |q| = e := by
    rw [abs_of_pos hq]
    apply le_antisymm
    · have := (Int.lt_zpow_iff_log_lt (b := 2) (by norm_num) hq).1 (by exact_mod_cast hhi)
      omega
    · exact (Int.zpow_le_iff_le_log (b := 2) (by norm_num) hq).1 (by exact_mod_cast hlo)
  refine ⟨hq.ne', ?_, ?_⟩
  · rw [hlog]
    exact max_eq_left he
  · rw [Int.floor_eq_iff]
    constructor
    · rw [le_div_iff₀ hu]
      exact h1
    · rw [div_lt_iff₀ hu]
      exact h2

/-- Below the midpoint of two neighbouring doubles the lower one is the result. -/
theorem roundDouble_down (q : ℚ) (e f : ℤ) (he : -1022 ≤ e)
    (hf1 : 2 ^ 52 ≤ f) (hf2 : f < 2 ^ 53)
    (h1 : (f : ℚ) * 2 ^ (e - 52) ≤ q)
    (h2 : q < ((f : ℚ) + 1 / 2) * 2 ^ (e - 52)) :
    roundDouble q = (f : ℚ) * 2 ^ (e - 52) := by
  have hu : (0 : ℚ) < 2 ^ (e - 52) := zpow_pos (by norm_num) _
  have h2' : q < ((f : ℚ) + 1) * 2 ^ (e - 52) :=
    lt_trans h2 (mul_lt_mul_of_pos_right (by linarith) hu)
  obtain ⟨hq, hexp, hfl⟩ := roundDouble_frame q e f he hf1 hf2 h1 h2'
  have hr : q / 2 ^ (e - 52) - (f : ℚ) < 1 / 2 := by
    rw [sub_lt_iff_lt_add, div_lt_iff₀ hu]
    linarith
  simp only [roundDouble, hq, if_false, hexp, hfl, hr, if_true]

/-- Above the midpoint the upper one is the result. -/
theorem roundDouble_up (q : ℚ) (e f : ℤ) (he : -1022 ≤ e)
    (hf1 : 2 ^ 52 ≤ f) (hf2 : f < 2 ^ 53)
    (h1 : ((f : ℚ) + 1 / 2) * 2 ^ (e - 52) < q)
    (h2 : q < ((f : ℚ) + 1) * 2 ^ (e - 52)) :
    roundDouble q = ((f : ℚ) + 1) * 2 ^ (e - 52) := by
  have hu : (0 : ℚ) < 2 ^ (e - 52) := zpow_pos (by norm_num) _
  have h1' : (f : ℚ) * 2 ^ (e - 52) ≤ q :=
    le_of_lt (lt_trans (mul_lt_mul_of_pos_right (by linarith) hu) h1)
  obtain ⟨hq, hexp, hfl⟩ := roundDouble_frame q e f he hf1 hf2 h1' h2
  have hr : q / 2 ^ (e - 52) - (f : ℚ) > 1 / 2 := by
    rw [gt_iff_lt, lt_sub_iff_add_lt, lt_div_iff₀ hu]
    linarith
  have hr' : ¬ q / 2 ^ (e - 52) - (f : ℚ) < 1 / 2 := not_lt.2 hr.le
  simp only [roundDouble, hq, if_false, hexp, hfl, hr', hr, if_true]

/-- Natural numbers below `2^53` are doubles. -/
theorem roundDouble_natCast (n : ℕ) (hn : n < 2 ^ 53) : roundDouble (n : ℚ) = n := by
  rcases Nat.eq_zero_or_pos n with rfl | hpos
  · simp [roundDouble]
  · have hlog : Nat.log 2 n < 53 := Nat.log_lt_of_lt_pow hpos.ne' hn
    have hlo : 2 ^ Nat.log 2 n ≤ n := Nat.pow_log_le_self 2 hpos.ne'
    have hhi : n < 2 ^ (Nat.log 2 n + 1) := Nat.lt_pow_succ_log_self (by norm_num) n
    have hsplit : 2 ^ 52 = 2 ^ Nat.log 2 n * 2 ^ (52 - Nat.log 2 n) := by
      rw [← pow_add]
      congr 1
      omega
    have hsplit' : 2 ^ 53 = 2 ^ (Nat.log 2 n + 1) * 2 ^ (52 - Nat.log 2 n) := by
      rw [← pow_add]
      congr 1
      omega
    have hf1 : (2 : ℤ) ^ 52 ≤ ((n * 2 ^ (52 - Nat.log 2 n) : ℕ) : ℤ) := by
      have : 2 ^ 52 ≤ n * 2 ^ (52 - Nat.log 2 n) := by
        rw [hsplit]
        exact Nat.mul_le_mul_right _ hlo
      exact_mod_cast this
    have hf2 : ((n * 2 ^ (52 - Nat.log 2 n) : ℕ) : ℤ) < 2 ^ 53 := by
      have : n * 2 ^ (52 - Nat.log 2 n) < 2 ^ 53 := by
        rw [hsplit']
        exact Nat.mul_lt_mul_of_pos_right hhi (by positivity)
      exact_mod_cast this
    have hval : (((n * 2 ^ (52 - Nat.log 2 n) : ℕ) : ℤ) : ℚ) *
        2 ^ (((Nat.log 2 n : ℕ) : ℤ) - 52) = (n : ℚ) := by
      have hz : (((Nat.log 2 n : ℕ) : ℤ) - 52) = -((52 - Nat.log 2 n : ℕ) : ℤ) := by
        omega
      rw [hz, zpow_neg, zpow_natCast]
      push_cast
      field_simp
    have h := roundDouble_down (n : ℚ) (Nat.log 2 n : ℕ) ((n * 2 ^ (52 - Nat.log 2 n) : ℕ) : ℤ)
      (by omega) hf1 hf2 (le_of_eq hval) (by
        rw [add_mul, hval]
        have : (0 : ℚ) < 1 / 2 * 2 ^ (((Nat.log 2 n : ℕ) : ℤ) - 52) :=
          mul_pos (by norm_num) (zpow_pos (by norm_num) _)
        linarith)
    rw [h, hval]

/-- The burn clock of ten additions of the double `3.3333333333333335`, each rounded
to double: after nine it stands at `29.999999999999996`, after ten at
`33.33333333333333`. -/
theorem burnClock_tenThirds :
    Cell.burnClock roundDouble tenThirds 1 = 7505999378950827 / 2251799813685248 ∧
    Cell.burnClock roundDouble tenThirds 2 = 7505999378950827 / 1125899906842624 ∧
    Cell.burnClock roundDouble tenThirds 3 = 10 ∧
    Cell.burnClock roundDouble tenThirds 4 = 7505999378950827 / 562949953421312 ∧
    Cell.burnClock roundDouble tenThirds 5 = 4691249611844267 / 281474976710656 ∧
    Cell.burnClock roundDouble tenThirds 6 = 20 ∧
    Cell.burnClock roundDouble tenThirds 7 = 6567749456581973 / 281474976710656 ∧
    Cell.burnClock roundDouble tenThirds 8 = 3752999689475413 / 140737488355328 ∧
    Cell.burnClock roundDouble tenThirds 9 = 8444249301319679 / 281474976710656 ∧
    Cell.burnClock roundDouble tenThirds 10 = 2345624805922133 / 70368744177664 := by
  have c0 : Cell.burnClock roundDouble tenThirds 0 = 0 := rfl
  have c1 : Cell.burnClock roundDouble tenThirds 1 = 7505999378950827 / 2251799813685248 := by
    have h : Cell.burnClock roundDouble tenThirds 1 =
        roundDouble (Cell.burnClock roundDouble tenThirds 0 + tenThirds) := rfl
    rw [h, c0, roundDouble_down (0 + tenThirds) 1 7505999378950827 (by norm_num) (by norm_num)
      (by norm_num) (by norm_num [tenThirds]) (by norm_num [tenThirds])]
    norm_num
  have c2 : Cell.burnClock roundDouble tenThirds 2 = 7505999378950827 / 1125899906842624 := by
    have h : Cell.burnClock roundDouble tenThirds 2 =
        roundDouble (Cell.burnClock roundDouble tenThirds 1 + tenThirds) := rfl
    rw [h, c1, roundDouble_down ((7505999378950827 / 2251799813685248) + tenThirds) 2 7505999378950827 (by norm_num) (by norm_num)
      (by norm_num) (by norm_num [tenThirds]) (by norm_num [tenThirds])]
    norm_num
  have c3 : Cell.burnClock roundDouble tenThirds 3 = 10 := by
    have h : Cell.burnClock roundDouble tenThirds 3 =
        roundDouble (Cell.burnClock roundDouble tenThirds 2 + tenThirds) := rfl
    rw [h, c2, roundDouble_down ((7505999378950827 / 1125899906842624) + tenThirds) 3 5629499534213120 (by norm_num) (by norm_num)
      (by norm_num) (by norm_num [tenThirds]) (by norm_num [tenThirds])]
    norm_num
  have c4 : Cell.burnClock roundDouble tenThirds 4 = 7505999378950827 / 562949953421312 := by
    have h : Cell.burnClock roundDouble tenThirds 4 =
        roundDouble (Cell.burnClock roundDouble tenThirds 3 + tenThirds) := rfl
    rw [h, c3, roundDouble_up (10 + tenThirds) 3 7505999378950826 (by norm_num) (by norm_num)
      (by norm_num) (by norm_num [tenThirds]) (by norm_num [tenThirds])]
    norm_num
  have c5 : Cell.burnClock roundDouble tenThirds 5 = 4691249611844267 / 281474976710656 := by
    have h : Cell.burnClock roundDouble tenThirds 5 =
        roundDouble (Cell.burnClock roundDouble tenThirds 4 + tenThirds) := rfl
    rw [h, c4, roundDouble_up ((7505999378950827 / 562949953421312) + tenThirds) 4 4691249611844266 (by norm_num) (by norm_num)
      (by norm_num) (by norm_num [tenThirds]) (by norm_num [tenThirds])]
    norm_num
  have c6 : Cell.burnClock roundDouble tenThirds 6 = 20 := by
    have h : Cell.burnClock roundDouble tenThirds 6 =
        roundDouble (Cell.burnClock roundDouble tenThirds 5 + tenThirds) := rfl
    rw [h, c5, roundDouble_down ((4691249611844267 / 281474976710656) + tenThirds) 4 5629499534213120 (by norm_num) (by norm_num)
      (by norm_num) (by norm_num [tenThirds]) (by norm_num [tenThirds])]
    norm_num
  have c7 : Cell.burnClock roundDouble tenThirds 7 = 6567749456581973 / 281474976710656 := by
    have h : Cell.burnClock roundDouble tenThirds 7 =
        roundDouble (Cell.burnClock roundDouble tenThirds 6 + tenThirds) := rfl
    rw [h, c6, roundDouble_down (20 + tenThirds) 4 6567749456581973 (by norm_num) (by norm_num)
      (by norm_num) (by norm_num [tenThirds]) (by norm_num [tenThirds])]
    norm_num
  have c8 : Cell.burnClock roundDouble tenThirds 8 = 3752999689475413 / 140737488355328 := by
    have h : Cell.burnClock roundDouble tenThirds 8 =
        roundDouble (Cell.burnClock roundDouble tenThirds 7 + tenThirds) := rfl
    rw [h, c7, roundDouble_down ((6567749456581973 / 281474976710656) + tenThirds) 4 7505999378950826 (by norm_num) (by norm_num)
      (by norm_num) (by norm_num [tenThirds]) (by norm_num [tenThirds])]
    norm_num
  have c9 : Cell.burnClock roundDouble tenThirds 9 = 8444249301319679 / 281474976710656 := by
    have h : Cell.burnClock roundDouble tenThirds 9 =
        roundDouble (Cell.burnClock roundDouble tenThirds 8 + tenThirds) := rfl
    rw [h, c8, roundDouble_down ((3752999689475413 / 140737488355328) + tenThirds) 4 8444249301319679 (by norm_num) (by norm_num)
      (by norm_num) (by norm_num [tenThirds]) (by norm_num [tenThirds])]
    norm_num
  have c10 : Cell.burnClock roundDouble tenThirds 10 = 2345624805922133 / 70368744177664 := by
    have h : Cell.burnClock roundDouble tenThirds 10 =
        roundDouble (Cell.burnClock roundDouble tenThirds 9 + tenThirds) := rfl
    rw [h, c9, roundDouble_down ((8444249301319679 / 281474976710656) + tenThirds) 5 4691249611844266 (by norm_num) (by norm_num)
      (by norm_num) (by norm_num [tenThirds]) (by norm_num [tenThirds])]
    norm_num
  exact ⟨c1, c2, c3, c4, c5, c6, c7, c8, c9, c10⟩

/-- When the partial sums `j × dt` are left unchanged by the rounding, the burn clock
is `j × dt`. -/
theorem burnClock_exact (rnd : ℚ → ℚ) (dt : ℚ) (k : Nat)
    (hsum : ∀ j : Nat, 1 ≤ j → j ≤ k → rnd ((j : ℚ) * dt) = (j : ℚ) * dt) :
    ∀ j : Nat, j ≤ k → Cell.burnClock rnd dt j = (j : ℚ) * dt := by
  intro j
  induction j with
  | zero =>
    intro _
    simp [Cell.burnClock]
  | succ j ih =>
    intro hj
    have hcast : ((j + 1 : Nat) : ℚ) * dt = (j : ℚ) * dt + dt := by push_cast; ring
    rw [Cell.burnClock, ih (by omega), ← hcast]
    exact hsum (j + 1) (by omega) hj

/-- C8 (the claim fails): a fresh `GRASS` cell with density 1.0 and moisture 0.0 is
ignited and updated 9 times with `dt = 3.3333333333333335`, a `double` above 10/3. Then
`9 × dt ≥ 30 = baseDuration × d × (1 + m)`, but the nine additions `burn_time += dt`,
each rounded to `double`, give `29.999999999999996 < 30`: the cell is still `BURNING`,
and `BURNED` only after the tenth update. -/
theorem burnout_late_in_doubles :
    roundDouble tenThirds = tenThirds ∧ tenThirds > 0 ∧
    (9 : ℚ) * tenThirds ≥ Cell.baseDuration FuelType.GRASS * 1 * (1 + 0) ∧
    (((Cell.ctor FuelType.GRASS 1 0).ignite).updateRN roundDouble tenThirds 9).state =
      CellState.BURNING ∧
    (((Cell.ctor FuelType.GRASS 1 0).ignite).updateRN roundDouble tenThirds 9).burn_time =
      8444249301319679 / 281474976710656 ∧
    (((Cell.ctor FuelType.GRASS 1 0).ignite).updateRN roundDouble tenThirds 10).state =
      CellState.BURNED ∧
    ¬ ((((Cell.ctor FuelType.GRASS 1 0).ignite).updateRN roundDouble tenThirds 9).state =
        CellState.BURNED ↔
      (9 : ℚ) * tenThirds ≥ Cell.baseDuration FuelType.GRASS * 1 * (1 + 0)) := by
  obtain ⟨c1, c2, c3, c4, c5, c6, c7, c8, c9, c10⟩ := burnClock_tenThirds
  have h30 : roundDouble 30 = 30 := by
    have h := roundDouble_natCast 30 (by norm_num)
    simpa using h
  have h1 : roundDouble 1 = 1 := by
    have h := roundDouble_natCast 1 (by norm_num)
    simpa using h
  have hD : Cell.burnDuration roundDouble FuelType.GRASS 1 0 = 30 := by
    simp only [Cell.burnDuration, Cell.baseDuration, mul_one, add_zero, h30, h1]
  have hdt : roundDouble tenThirds = tenThirds := by
    have h : Cell.burnClock roundDouble tenThirds 1 = roundDouble (0 + tenThirds) := rfl
    rw [zero_add] at h
    rw [← h, c1]
    rfl
  have hge : (9 : ℚ) * tenThirds ≥ Cell.baseDuration FuelType.GRASS * 1 * (1 + 0) := by
    norm_num [tenThirds, Cell.baseDuration]
  have hlaw9 := updateRN_ignite_ctor roundDouble FuelType.GRASS 1 0 tenThirds
    (by decide) (by norm_num) 9
  have hlaw10 := updateRN_ignite_ctor roundDouble FuelType.GRASS 1 0 tenThirds
    (by decide) (by norm_num) 10
  have hb9 := hlaw9.1 (by
    intro j hj1 hj2
    rw [hD]
    interval_cases j
    · rw [c1]; norm_num
    · rw [c2]; norm_num
    · rw [c3]; norm_num
    · rw [c4]; norm_num
    · rw [c5]; norm_num
    · rw [c6]; norm_num
    · rw [c7]; norm_num
    · rw [c8]; norm_num
    · rw [c9]; norm_num)
  have hb10 := hlaw10.2 ⟨10, by norm_num, le_refl _, by rw [hD, c10]; norm_num⟩
  refine ⟨hdt, by norm_num [tenThirds], hge, hb9.1, by rw [hb9.2.2.2.2, c9], hb10, ?_⟩
  intro hiff
  have hs := hiff.2 hge
  rw [hb9.1] at hs
  exact absurd hs (by decide)

/-- C8 (amended): a fresh cell of a flammable fuel type with density `d > 0.1` and
moisture `m ≥ 0`, ignited and then updated `k` times with step `dt > 0`, every
operation rounded by `rnd`. When the rounding leaves the partial sums `j × dt`
(`1 ≤ j ≤ k`), the product `baseDuration × d`, the sum `1 + m` and the burn duration
`baseDuration × d × (1 + m)` unchanged, the cell is `BURNED` exactly when
`k × dt ≥ baseDuration × d × (1 + m)` and is `BURNING` otherwise. -/
theorem burnout_timing (rnd : ℚ → ℚ) (ft : FuelType) (d m dt : ℚ) (k : Nat)
    (hft : ft ≠ FuelType.WATER ∧ ft ≠ FuelType.ROCK) (hd : d > 0.1) (hm : m ≥ 0)
    (hdt : dt > 0)
    (hsum : ∀ j : Nat, 1 ≤ j → j ≤ k → rnd ((j : ℚ) * dt) = (j : ℚ) * dt)
    (hbd : rnd (Cell.baseDuration ft * d) = Cell.baseDuration ft * d)
    (hmo : rnd (1 + m) = 1 + m)
    (hD : rnd (Cell.baseDuration ft * d * (1 + m)) = Cell.baseDuration ft * d * (1 + m)) :
    ((((Cell.ctor ft d m).ignite).updateRN rnd dt k).state = CellState.BURNED ↔
      (k : ℚ) * dt ≥ Cell.baseDuration ft * d * (1 + m)) ∧
    (¬ (k : ℚ) * dt ≥ Cell.baseDuration ft * d * (1 + m) →
      (((Cell.ctor ft d m).ignite).updateRN rnd dt k).state = CellState.BURNING) := by
  obtain ⟨h1, h2⟩ := updateRN_ignite_ctor rnd ft d m dt hft hd k
  have hclock := burnClock_exact rnd dt k hsum
  have hdur : Cell.burnDuration rnd ft d m = Cell.baseDuration ft * d * (1 + m) := by
    simp only [Cell.burnDuration, hbd, hmo, hD]
  have hd0 : (0 : ℚ) < d := lt_trans (by norm_num) hd
  have hDpos : 0 < Cell.baseDuration ft * d * (1 + m) :=
    mul_pos (mul_pos (baseDuration_pos ft) hd0) (by linarith)
  have hbelow : ¬ (k : ℚ) * dt ≥ Cell.baseDuration ft * d * (1 + m) →
      (((Cell.ctor ft d m).ignite).updateRN rnd dt k).state = CellState.BURNING := by
    intro hlt
    refine (h1 ?_).1
    intro j _ hj2
    rw [hclock j hj2, hdur]
    have hjk : (j : ℚ) ≤ (k : ℚ) := by exact_mod_cast hj2
    have : (j : ℚ) * dt ≤ (k : ℚ) * dt := mul_le_mul_of_nonneg_right hjk hdt.le
    linarith [not_le.1 hlt]
  refine ⟨⟨?_, ?_⟩, hbelow⟩
  · intro hb
    by_contra hlt
    have hs := hbelow hlt
    rw [hb] at hs
    exact absurd hs (by decide)
  · intro hge
    have hk : 1 ≤ k := by
      rcases Nat.eq_zero_or_pos k with rfl | hpos
      · simp only [Nat.cast_zero, zero_mul] at hge
        exact absurd hge (not_le.2 hDpos)
      · exact hpos
    refine h2 ⟨k, hk, le_refl _, ?_⟩
    rw [hclock k (le_refl _), hdur]
    exact hge

/-- The burn-out scenario in doubles: a `GRASS` cell with density 1.0 and moisture 0.0
stepped with `dt = 1.0`, every operation rounded to `double`, is still `BURNING` after
29 updates and `BURNED` after 30; the sums `1, 2, …, 30` are doubles. -/
theorem burnout_timing_witness :
    (∀ j : Nat, 1 ≤ j → j ≤ 30 → roundDouble ((j : ℚ) * 1) = (j : ℚ) * 1) ∧
    (((Cell.ctor FuelType.GRASS 1 0).ignite).updateRN roundDouble 1 29).state =
      CellState.BURNING ∧
    (((Cell.ctor FuelType.GRASS 1 0).ignite).updateRN roundDouble 1 30).state =
      CellState.BURNED := by
  have hsum : ∀ j : Nat, 1 ≤ j → j ≤ 30 → roundDouble ((j : ℚ) * 1) = (j : ℚ) * 1 := by
    intro j _ hj
    rw [mul_one]
    exact roundDouble_natCast j (lt_of_le_of_lt hj (by norm_num))
  have h30 : roundDouble 30 = 30 := by
    have h := roundDouble_natCast 30 (by norm_num)
    simpa using h
  have h1 : roundDouble 1 = 1 := by
    have h := roundDouble_natCast 1 (by norm_num)
    simpa using h
  have hbd : roundDouble (Cell.baseDuration FuelType.GRASS * 1) =
      Cell.baseDuration FuelType.GRASS * 1 := by
    simp only [Cell.baseDuration, mul_one, h30]
  have hmo : roundDouble (1 + 0) = 1 + 0 := by
    simp only [add_zero, h1]
  have hD : roundDouble (Cell.baseDuration FuelType.GRASS * 1 * (1 + 0)) =
      Cell.baseDuration FuelType.GRASS * 1 * (1 + 0) := by
    simp only [Cell.baseDuration, mul_one, add_zero, h30]
  exact ⟨hsum,
    (burnout_timing roundDouble FuelType.GRASS 1 0 1 29 (by decide) (by norm_num)
      (by norm_num) (by norm_num) (fun j hj1 hj2 => hsum j hj1 (by omega)) hbd hmo hD).2
      (by norm_num [Cell.baseDuration]),
    (burnout_timing roundDouble FuelType.GRASS 1 0 1 30 (by decide) (by norm_num)
      (by norm_num) (by norm_num) hsum hbd hmo hD).1.2 (by norm_num [Cell.baseDuration])⟩

/-! ## Spread probability -/

/-- C1: `calculateSpreadProbability(from, to)` is 0 whenever the suppression entry at
`to` has `is_firebreak = true`, for every grid, wind, temperature and level. -/
theorem spread_zero_of_firebreak (m : Libm) (g : Grid) (from_x from_y to_x to_y : Int)
    (h : (g.suppression_effects to_y to_x).is_firebreak = true) :
    g.calculateSpreadProbability m from_x from_y to_x to_y = 0 := by
  unfold Grid.calculateSpreadProbability
  simp only [h, if_true]
  split <;> rfl

theorem spread_zero_of_firebreak_witness :
    (firebreakGrid.suppression_effects 1 2).is_firebreak = true ∧
    (firebreakGrid.cells 1 1).state = CellState.BURNING ∧
    (firebreakGrid.cells 1 2).canBurn = true ∧
    firebreakGrid.calculateSpreadProbability Libm.standIn 1 1 2 1 = 0 := by
  have hf : (firebreakGrid.suppression_effects 1 2).is_firebreak = true := by
    simp [firebreakGrid, Grid.setEffect]
  refine ⟨hf, ?_, ?_, spread_zero_of_firebreak Libm.standIn firebreakGrid 1 1 2 1 hf⟩
  · simp [firebreakGrid, Grid.setEffect, windBiasGrid, Grid.igniteCell, Grid.ctor,
      Grid.isValidPosition, Grid.setCell, Cell.ignite, Cell.canBurn, Cell.ctor]
    norm_num
  · simp [firebreakGrid, Grid.setEffect, windBiasGrid, Grid.igniteCell, Grid.ctor,
      Grid.isValidPosition, Grid.setCell, Cell.ignite, Cell.canBurn, Cell.ctor]
    norm_num

/-- C2: `calculateSpreadProbability(from, to)` is 0 whenever the `from` cell is not
`BURNING` or the `to` cell does not satisfy `canBurn()`. -/
theorem spread_zero_of_not_burning_or_not_burnable (m : Libm) (g : Grid)
    (from_x from_y to_x to_y : Int)
    (h : (g.cells from_y from_x).state ≠ CellState.BURNING ∨
      (g.cells to_y to_x).canBurn = false) :
    g.calculateSpreadProbability m from_x from_y to_x to_y = 0 := by
  unfold Grid.calculateSpreadProbability
  rw [if_pos]
  rcases h with h | h
  · exact Or.inl h
  · exact Or.inr (by simp [h])

theorem spread_zero_of_not_burning_or_not_burnable_witness :
    ((Grid.ctor 3 3).cells 1 1).state ≠ CellState.BURNING ∧
    (Grid.ctor 3 3).calculateSpreadProbability Libm.standIn 1 1 2 1 = 0 :=
  ⟨by simp [Grid.ctor, Cell.ctor],
   spread_zero_of_not_burning_or_not_burnable Libm.standIn (Grid.ctor 3 3) 1 1 2 1
     (Or.inl (by simp [Grid.ctor, Cell.ctor]))⟩

/-- C3: the value of `calculateSpreadProbability` lies in `[0, 1]` for every grid,
every pair of positions and every wind, temperature and suppression value. -/
theorem spread_in_unit_interval (m : Libm) (g : Grid) (from_x from_y to_x to_y : Int) :
    0 ≤ g.calculateSpreadProbability m from_x from_y to_x to_y ∧
      g.calculateSpreadProbability m from_x from_y to_x to_y ≤ 1 := by
  unfold Grid.calculateSpreadProbability
  dsimp only
  split_ifs
  all_goals first
    | exact ⟨le_refl 0, zero_le_one⟩
    | exact ⟨le_min zero_le_one (le_max_left _ _), min_le_left _ _⟩

/-- C4 (the code at the scenario): on the 3×3 all-`GRASS`, zero-moisture lattice with
the centre burning, wind direction 90 and wind speed 10, the value towards the east
neighbour `(2, 1)` EQUALS the value towards the west neighbour `(0, 1)`, for any fuel
density and any `cos` that is even and `atan2` that maps the positive x axis to 0 and
the negative x axis to `M_PI`: the angle `atan2(dy, dx)` puts 90 degrees on the +y
axis, so neither x direction gets a boost over the other. -/
theorem wind_bias_east_eq_west (m : Libm) (d : ℚ)
    (hcos : ∀ a, m.cos (-a) = m.cos a)
    (hpos : m.atan2 0 1 = 0) (hneg : m.atan2 0 (-1) = m.pi) (hpi : m.pi ≠ 0) :
    (windBiasGrid d).calculateSpreadProbability m 1 1 2 1 =
        (windBiasGrid d).calculateSpreadProbability m 1 1 0 1 ∧
      ¬ ((windBiasGrid d).calculateSpreadProbability m 1 1 2 1 >
        (windBiasGrid d).calculateSpreadProbability m 1 1 0 1) := by
  suffices heq : (windBiasGrid d).calculateSpreadProbability m 1 1 2 1 =
      (windBiasGrid d).calculateSpreadProbability m 1 1 0 1 from
    ⟨heq, by rw [heq]; exact lt_irrefl _⟩
  have hE : (m.atan2 0 1 * 180 / m.pi - 90) * m.pi / 180 = -(90 * m.pi / 180) := by
    rw [hpos]; ring
  have hW : (m.atan2 0 (-1) * 180 / m.pi - 90) * m.pi / 180 = 90 * m.pi / 180 := by
    have h180 : m.pi * 180 / m.pi = 180 := by field_simp
    rw [hneg, h180]; ring
  simp only [Grid.calculateSpreadProbability, windBiasGrid, Grid.igniteCell, Grid.setCell,
    Grid.ctor, Grid.isValidPosition, Grid.getSuppressionModifier]
  norm_num [hE, hW, hcos]

theorem wind_bias_east_eq_west_witness :
    (windBiasGrid 0.8).calculateSpreadProbability Libm.standIn 1 1 2 1 =
        (windBiasGrid 0.8).calculateSpreadProbability Libm.standIn 1 1 0 1 ∧
      ¬ ((windBiasGrid 0.8).calculateSpreadProbability Libm.standIn 1 1 2 1 >
        (windBiasGrid 0.8).calculateSpreadProbability Libm.standIn 1 1 0 1) :=
  wind_bias_east_eq_west Libm.standIn 0.8
    (by intro a; simp only [Libm.standIn]; ring)
    (by simp [Libm.standIn])
    (by norm_num [Libm.standIn])
    (by norm_num [Libm.standIn])

/-! ## Grid::update -/

theorem foldl_preserves {α β : Type} (f : α → β → α) (P : α → Prop) (l : List β)
    (h : ∀ a b, b ∈ l → P a → P (f a b)) (a : α) (ha : P a) : P (l.foldl f a) := by
  induction l generalizing a with
  | nil => exact ha
  | cons b t ih =>
    simp only [List.foldl_cons]
    exact ih (fun a' b' hb' => h a' b' (List.mem_cons_of_mem _ hb')) _
      (h a b (List.mem_cons_self _ _) ha)

theorem ignite_of_not_canBurn (c : Cell) (h : c.canBurn = false) : c.ignite = c := by
  simp [Cell.ignite, h]

theorem update_of_not_burning (c : Cell) (dt : ℚ) (h : c.state ≠ CellState.BURNING) :
    c.update dt = c := by
  simp [Cell.update, h]

theorem setCell_cells_self (g : Grid) (y x : Int) (c : Cell) :
    (g.setCell y x c).cells y x = c := by
  simp [Grid.setCell]

theorem setCell_cells_other (g : Grid) (y x y' x' : Int) (c : Cell)
    (h : ¬ (y' = y ∧ x' = x)) : (g.setCell y x c).cells y' x' = g.cells y' x' := by
  simp [Grid.setCell, h]

theorem setEffect_cells (g : Grid) (y x : Int) (e : SuppressionEffect) :
    (g.setEffect y x e).cells = g.cells := rfl

theorem update_state_ne_fuel (c : Cell) (dt : ℚ) (h : c.state ≠ CellState.FUEL) :
    (c.update dt).state ≠ CellState.FUEL := by
  unfold Cell.update
  dsimp only
  split_ifs
  · simp
  · exact h
  · exact h

/-- A step of the second pass writes no cell but the one at its own position. -/
theorem updateCell_cells_other (dt : ℚ) (will_ignite : Int → Int → Bool)
    (st : Grid × Rng) (p : Int × Int) (y x : Int) (hp : ¬ (y = p.2 ∧ x = p.1)) :
    (Grid.updateCell dt will_ignite st p).1.cells y x = st.1.cells y x := by
  simp only [Grid.updateCell]
  split_ifs <;>
    simp only [setEffect_cells, setCell_cells_other _ _ _ _ _ _ hp]

/-- The second-pass step at a marked position whose cell can burn takes the cell out
of `FUEL`. -/
theorem updateCell_marked (dt : ℚ) (will_ignite : Int → Int → Bool)
    (st : Grid × Rng) (p : Int × Int) (hw : will_ignite p.2 p.1 = true)
    (hc : (st.1.cells p.2 p.1).canBurn = true) :
    ((Grid.updateCell dt will_ignite st p).1.cells p.2 p.1).state ≠ CellState.FUEL := by
  have hb : (st.1.cells p.2 p.1).ignite.state = CellState.BURNING := by
    simp [Cell.ignite, hc]
  have hi : ((st.1.cells p.2 p.1).ignite.update dt).state ≠ CellState.FUEL :=
    update_state_ne_fuel _ dt (by rw [hb]; decide)
  simp only [Grid.updateCell, hw, if_true, setEffect_cells, setCell_cells_self]
  split_ifs <;> simp only [setEffect_cells, setCell_cells_self] <;>
    first
      | exact hi
      | exact (by decide : CellState.BURNED ≠ CellState.FUEL)

/-- One step of the second pass keeps a cell that is not burning and is either
unmarked or unable to burn, wherever the step is applied. -/
theorem updateCell_cell_unchanged (dt : ℚ) (will_ignite : Int → Int → Bool)
    (st : Grid × Rng) (p : Int × Int) (y x : Int)
    (hs : (st.1.cells y x).state ≠ CellState.BURNING)
    (hw : will_ignite y x = false ∨ (st.1.cells y x).canBurn = false) :
    (Grid.updateCell dt will_ignite st p).1.cells y x = st.1.cells y x := by
  by_cases hp : y = p.2 ∧ x = p.1
  · obtain ⟨hy, hx⟩ := hp
    subst hy hx
    have h1 : (if will_ignite p.2 p.1 = true
        then st.1.setCell p.2 p.1 (st.1.cells p.2 p.1).ignite else st.1).cells p.2 p.1 =
        st.1.cells p.2 p.1 := by
      rcases hw with hw | hw
      · simp [hw]
      · split
        · rw [setCell_cells_self, ignite_of_not_canBurn _ hw]
        · rfl
    simp only [Grid.updateCell, setEffect_cells, setCell_cells_self, h1,
      update_of_not_burning _ dt hs, if_neg hs]
  · exact updateCell_cells_other dt will_ignite st p y x hp

/-- The second pass keeps every cell that is not burning and is either unmarked or
unable to burn. -/
theorem writePass_cell_unchanged (g : Grid) (dt : ℚ) (will_ignite : Int → Int → Bool)
    (gen : Rng) (y x : Int) (hs : (g.cells y x).state ≠ CellState.BURNING)
    (hw : will_ignite y x = false ∨ (g.cells y x).canBurn = false) :
    (g.writePass dt will_ignite gen).1.cells y x = g.cells y x := by
  unfold Grid.writePass
  refine foldl_preserves (Grid.updateCell dt will_ignite)
    (fun st => st.1.cells y x = g.cells y x) g.positions ?_ (g, gen) rfl
  intro a b _ ha
  have hs' : (a.1.cells y x).state ≠ CellState.BURNING := by rw [ha]; exact hs
  have hw' : will_ignite y x = false ∨ (a.1.cells y x).canBurn = false := by rw [ha]; exact hw
  show (Grid.updateCell dt will_ignite a b).1.cells y x = g.cells y x
  rw [updateCell_cell_unchanged dt will_ignite a b y x hs' hw', ha]

theorem igniteCell_cell_unchanged (g : Grid) (ix iy y x : Int)
    (h : (g.cells y x).canBurn = false) : (g.igniteCell ix iy).cells y x = g.cells y x := by
  unfold Grid.igniteCell
  split
  · by_cases hp : y = iy ∧ x = ix
    · obtain ⟨rfl, rfl⟩ := hp
      rw [setCell_cells_self, ignite_of_not_canBurn _ h]
    · exact setCell_cells_other _ _ _ _ _ _ hp
  · rfl

/-- C9: a cell that is `BURNED` (or `EMPTY`) before `Grid::update` has the same state
after it, for every `dt` and every sample stream, and `igniteCell` at any position
does not change its state either. -/
theorem burned_and_empty_terminal (m : Libm) (g : Grid) (dt : ℚ) (gen1 gen2 : Rng)
    (x y ix iy : Int)
    (h : (g.cells y x).state = CellState.BURNED ∨ (g.cells y x).state = CellState.EMPTY) :
    ((g.update m dt gen1 gen2).1.cells y x).state = (g.cells y x).state ∧
    ((g.igniteCell ix iy).cells y x).state = (g.cells y x).state := by
  have hs : (g.cells y x).state ≠ CellState.BURNING := by
    rcases h with h | h <;> rw [h] <;> decide
  have hc : (g.cells y x).canBurn = false := by
    rcases h with h | h <;> simp [Cell.canBurn, h]
  constructor
  · show ((g.writePass dt (g.spreadPass m dt gen1).1 gen2).1.cells y x).state = _
    rw [writePass_cell_unchanged g dt _ gen2 y x hs (Or.inr hc)]
  · rw [igniteCell_cell_unchanged g ix iy y x hc]

theorem burned_and_empty_terminal_witness :
    (burnedGrid.cells 0 0).state = CellState.BURNED ∧
    ((burnedGrid.update Libm.standIn 1 Rng.zeros Rng.zeros).1.cells 0 0).state =
      CellState.BURNED ∧
    ((burnedGrid.igniteCell 0 0).cells 0 0).state = CellState.BURNED := by
  have h0 : (burnedGrid.cells 0 0).state = CellState.BURNED := by
    simp [burnedGrid, Grid.setCell]
  have h := burned_and_empty_terminal Libm.standIn burnedGrid 1 Rng.zeros Rng.zeros
    0 0 0 0 (Or.inl h0)
  rw [h0] at h
  exact ⟨h0, h⟩

theorem mem_getNeighbors (g : Grid) (x y nx ny : Int) (h : (nx, ny) ∈ g.getNeighbors x y) :
    g.isValidPosition nx ny = true ∧ max |nx - x| |ny - y| = 1 := by
  simp only [Grid.getNeighbors, List.mem_flatMap, List.mem_cons, List.mem_singleton,
    List.not_mem_nil, or_false] at h
  obtain ⟨dy, hdy, dx, hdx, h⟩ := h
  split_ifs at h with h0 hv
  · simp at h
  · simp only [List.mem_singleton, Prod.mk.injEq] at h
    obtain ⟨rfl, rfl⟩ := h
    refine ⟨hv, ?_⟩
    rcases hdy with rfl | rfl | rfl <;> rcases hdx with rfl | rfl | rfl <;>
      simp at h0 ⊢
  · simp at h

theorem mem_positions (g : Grid) (p : Int × Int) (h : p ∈ g.positions) :
    g.isValidPosition p.1 p.2 = true := by
  simp only [Grid.positions, List.mem_flatMap, List.mem_map, List.mem_range] at h
  obtain ⟨y, hy, x, hx, rfl⟩ := h
  simp only [Grid.isValidPosition, Bool.and_eq_true, decide_eq_true_eq]
  omega

/-- Every mark set by the neighbour loop of a burning in-bounds source is next to
that source. -/
theorem spreadNeighbor_marks (m : Libm) (g : Grid) (dt : ℚ) (x0 y0 : Int)
    (hv : g.isValidPosition x0 y0 = true)
    (hb : (g.cells y0 x0).state = CellState.BURNING)
    (st : (Int → Int → Bool) × Rng) (n : Int × Int) (hn : n ∈ g.getNeighbors x0 y0)
    (hst : ∀ y x, st.1 y x = true → ∃ sx sy, g.isValidPosition sx sy = true ∧
      max |sx - x| |sy - y| = 1 ∧ (g.cells sy sx).state = CellState.BURNING) :
    ∀ y x, (Grid.spreadNeighbor m g dt x0 y0 st n).1 y x = true →
      ∃ sx sy, g.isValidPosition sx sy = true ∧
        max |sx - x| |sy - y| = 1 ∧ (g.cells sy sx).state = CellState.BURNING := by
  intro y x hmark
  unfold Grid.spreadNeighbor at hmark
  dsimp only at hmark
  split_ifs at hmark with h1 h2
  · simp only [Grid.setMark] at hmark
    split_ifs at hmark with h3
    · obtain ⟨rfl, rfl⟩ := h3
      have hmem := (mem_getNeighbors g x0 y0 n.1 n.2 hn).2
      exact ⟨x0, y0, hv, by rw [abs_sub_comm x0, abs_sub_comm y0]; exact hmem, hb⟩
    · exact hst y x hmark
  · exact hst y x hmark
  · exact hst y x hmark

/-- Every mark of the first pass has an in-bounds 8-connected neighbour that is
`BURNING` in the grid as it was before the tick. -/
theorem spreadPass_marks (m : Libm) (g : Grid) (dt : ℚ) (gen : Rng) :
    ∀ y x, (g.spreadPass m dt gen).1 y x = true →
      ∃ sx sy, g.isValidPosition sx sy = true ∧
        max |sx - x| |sy - y| = 1 ∧ (g.cells sy sx).state = CellState.BURNING := by
  unfold Grid.spreadPass
  refine foldl_preserves (Grid.spreadCell m g dt)
    (fun st => ∀ y x, st.1 y x = true → ∃ sx sy, g.isValidPosition sx sy = true ∧
      max |sx - x| |sy - y| = 1 ∧ (g.cells sy sx).state = CellState.BURNING)
    g.positions ?_ _ ?_
  · intro st p hp hst
    unfold Grid.spreadCell
    dsimp only
    split_ifs with hb
    · exact foldl_preserves (Grid.spreadNeighbor m g dt p.1 p.2)
        (fun st => ∀ y x, st.1 y x = true → ∃ sx sy, g.isValidPosition sx sy = true ∧
          max |sx - x| |sy - y| = 1 ∧ (g.cells sy sx).state = CellState.BURNING)
        (g.getNeighbors p.1 p.2)
        (fun a b hbm ha => spreadNeighbor_marks m g dt p.1 p.2 (mem_positions g p hp) hb a b hbm ha)
        st hst
    · exact hst
  · intro y x h
    simp at h

/-- C10: every `will_ignite` mark of a tick is next to a cell that was `BURNING`
before the tick began, so a cell ignited during the tick is never a source in that
tick; and a cell that is `FUEL` before `Grid::update` and not `FUEL` after it was
marked, hence had an in-bounds 8-connected neighbour `BURNING` before the tick,
for every `dt` and every sample stream. -/
theorem ignition_needs_burning_neighbor (m : Libm) (g : Grid) (dt : ℚ) (gen1 gen2 : Rng) :
    (∀ y x, (g.spreadPass m dt gen1).1 y x = true →
      ∃ sx sy, g.isValidPosition sx sy = true ∧
        max |sx - x| |sy - y| = 1 ∧ (g.cells sy sx).state = CellState.BURNING) ∧
    (∀ y x, (g.cells y x).state = CellState.FUEL →
      ((g.update m dt gen1 gen2).1.cells y x).state ≠ CellState.FUEL →
      (g.spreadPass m dt gen1).1 y x = true ∧
      ∃ sx sy, g.isValidPosition sx sy = true ∧
        max |sx - x| |sy - y| = 1 ∧ (g.cells sy sx).state = CellState.BURNING) := by
  refine ⟨spreadPass_marks m g dt gen1, ?_⟩
  intro y x hf hn
  have hmark : (g.spreadPass m dt gen1).1 y x = true := by
    by_contra hc
    have hc' : (g.spreadPass m dt gen1).1 y x = false := by simpa using hc
    apply hn
    show ((g.writePass dt (g.spreadPass m dt gen1).1 gen2).1.cells y x).state = _
    rw [writePass_cell_unchanged g dt _ gen2 y x (by rw [hf]; decide) (Or.inl hc'), hf]
  exact ⟨hmark, spreadPass_marks m g dt gen1 y x hmark⟩

/-- On the 2×1 lattice with every draw 0 and `dt = 1`, the fresh cell `(1, 0)` is
ignited by the tick, and the theorem yields its burning neighbour. -/
theorem ignition_needs_burning_neighbor_witness :
    (twoCellGrid.cells 0 1).state = CellState.FUEL ∧
    ((twoCellGrid.update Libm.standIn 1 Rng.zeros Rng.zeros).1.cells 0 1).state ≠
      CellState.FUEL ∧
    (twoCellGrid.spreadPass Libm.standIn 1 Rng.zeros).1 0 1 = true ∧
    ∃ sx sy, twoCellGrid.isValidPosition sx sy = true ∧
      max |sx - 1| |sy - 0| = 1 ∧ (twoCellGrid.cells sy sx).state = CellState.BURNING := by
  have hpos : twoCellGrid.positions = [(0, 0), (1, 0)] := by
    simp [Grid.positions, twoCellGrid, (by decide : List.range 2 = [0, 1]),
      (by decide : List.range 1 = [0])]
  have hn : twoCellGrid.getNeighbors 0 0 = [(1, 0)] := by
    simp [Grid.getNeighbors, Grid.isValidPosition, twoCellGrid]
  have hn1 : twoCellGrid.getNeighbors 1 0 = [(0, 0)] := by
    simp [Grid.getNeighbors, Grid.isValidPosition, twoCellGrid]
  have hc01 : twoCellGrid.cells 0 1 = Cell.ctor FuelType.GRASS 0.8 0 := by
    simp [twoCellGrid]
  have hcb : (Cell.ctor FuelType.GRASS 0.8 0).canBurn = true := by
    simp [Cell.canBurn, Cell.ctor]; norm_num
  have hp : 0 < twoCellGrid.calculateSpreadProbability Libm.standIn 0 0 1 0 := by
    simp [Grid.calculateSpreadProbability, Grid.getSuppressionModifier, Grid.isValidPosition,
      twoCellGrid, Cell.getIgnitionProbability, hcb, Libm.standIn]
    simp [Cell.ctor]
    norm_num
  have hmark : (twoCellGrid.spreadPass Libm.standIn 1 Rng.zeros).1 0 1 = true := by
    simp [Grid.spreadPass, hpos, Grid.spreadCell, hn, hn1, Grid.spreadNeighbor, hc01, hcb,
      Rng.draw, Rng.zeros, hp, Grid.setMark]
    simp [twoCellGrid, Cell.ctor, Grid.setMark]
  have hf : (twoCellGrid.cells 0 1).state = CellState.FUEL := by
    simp [twoCellGrid, Cell.ctor]
  have hafter : ((twoCellGrid.update Libm.standIn 1 Rng.zeros Rng.zeros).1.cells 0 1).state ≠
      CellState.FUEL := by
    show ((twoCellGrid.writePass 1 (twoCellGrid.spreadPass Libm.standIn 1 Rng.zeros).1
      Rng.zeros).1.cells 0 1).state ≠ _
    simp only [Grid.writePass, hpos, List.foldl_cons, List.foldl_nil]
    refine updateCell_marked 1 _ _ (1, 0) hmark ?_
    rw [updateCell_cells_other 1 _ _ (0, 0) 0 1 (by simp), hc01]
    exact hcb
  exact ⟨hf, hafter,
    (ignition_needs_burning_neighbor Libm.standIn twoCellGrid 1 Rng.zeros Rng.zeros).2
      0 1 hf hafter⟩

/-! ## Suppression deposits -/

theorem foldl_establishes {α β : Type} (f : α → β → α) (I Q : α → Prop) (l : List β) (b0 : β)
    (hmem : b0 ∈ l)
    (hI : ∀ a b, b ∈ l → I a → I (f a b))
    (hQ : ∀ a b, b ∈ l → Q a → Q (f a b))
    (h0 : ∀ a, I a → Q (f a b0)) (a : α) (ha : I a) : Q (l.foldl f a) := by
  induction l generalizing a with
  | nil => simp at hmem
  | cons b t ih =>
    simp only [List.foldl_cons]
    rcases List.mem_cons.1 hmem with h | h
    · subst h
      exact foldl_preserves f Q t (fun a' b' hb' => hQ a' b' (List.mem_cons_of_mem _ hb')) _
        (h0 a ha)
    · exact ih h (fun a' b' hb' => hI a' b' (List.mem_cons_of_mem _ hb'))
        (fun a' b' hb' => hQ a' b' (List.mem_cons_of_mem _ hb')) _
        (hI a b (List.mem_cons_self _ _) ha)

theorem mem_offsets (radius d : Int) : d ∈ Grid.offsets radius ↔ -radius ≤ d ∧ d ≤ radius := by
  simp only [Grid.offsets, List.mem_map, List.mem_range]
  constructor
  · rintro ⟨i, hi, rfl⟩
    omega
  · intro h
    exact ⟨(d + radius).toNat, by omega, by omega⟩

theorem applyWaterDrop_eq_deposit (m : Libm) (g : Grid) (x y radius : Int)
    (effectiveness duration : ℚ) :
    g.applyWaterDrop m x y radius effectiveness duration =
      Grid.deposit mergeWater m g x y radius effectiveness duration := rfl

theorem applyRetardant_eq_deposit (m : Libm) (g : Grid) (x y radius : Int)
    (effectiveness duration : ℚ) :
    g.applyRetardant m x y radius effectiveness duration =
      Grid.deposit mergeRetardant m g x y radius effectiveness duration := rfl

theorem depositAt_effect (merge : ℚ → ℚ → SuppressionEffect → SuppressionEffect) (m : Libm)
    (x y radius : Int) (effectiveness duration : ℚ) (dy : Int) (g : Grid) (dx ty tx : Int) :
    (Grid.depositAt merge m x y radius effectiveness duration dy g dx).suppression_effects ty tx =
      if (ty = y + dy ∧ tx = x + dx) ∧ g.isValidPosition tx ty = true ∧
          m.sqrt ((dx * dx + dy * dy : Int) : ℚ) ≤ (radius : ℚ) then
        merge (effectiveness * (1 - m.sqrt ((dx * dx + dy * dy : Int) : ℚ) / (radius : ℚ)))
          duration (g.suppression_effects ty tx)
      else g.suppression_effects ty tx := by
  unfold Grid.depositAt
  by_cases hp : ty = y + dy ∧ tx = x + dx
  · obtain ⟨rfl, rfl⟩ := hp
    by_cases hv : g.isValidPosition (x + dx) (y + dy) = true
    · by_cases hd : m.sqrt ((dx * dx + dy * dy : Int) : ℚ) ≤ (radius : ℚ)
      · rw [if_pos hv, if_pos hd, if_pos ⟨⟨rfl, rfl⟩, hv, hd⟩]
        simp only [Grid.setEffect, and_self, if_true]
      · rw [if_pos hv, if_neg hd, if_neg (fun h => hd h.2.2)]
    · rw [if_neg hv, if_neg (fun h => hv h.2.1)]
  · have hc : ¬ ((ty = y + dy ∧ tx = x + dx) ∧ g.isValidPosition tx ty = true ∧
        m.sqrt ((dx * dx + dy * dy : Int) : ℚ) ≤ (radius : ℚ)) := fun h => hp h.1
    rw [if_neg hc]
    split_ifs
    · simp only [Grid.setEffect, if_neg hp]
    · rfl
    · rfl

theorem sameButEffects_refl (g : Grid) : g.sameButEffects g :=
  ⟨rfl, rfl, rfl, rfl, rfl, rfl, rfl⟩

theorem sameButEffects_trans (g g' g'' : Grid) (h : g.sameButEffects g')
    (h' : g'.sameButEffects g'') : g.sameButEffects g'' := by
  obtain ⟨h1, h2, h3, h4, h5, h6, h7⟩ := h
  obtain ⟨k1, k2, k3, k4, k5, k6, k7⟩ := h'
  exact ⟨k1.trans h1, k2.trans h2, k3.trans h3, k4.trans h4, k5.trans h5, k6.trans h6,
    k7.trans h7⟩

theorem setEffect_sameButEffects (g : Grid) (y x : Int) (e : SuppressionEffect) :
    g.sameButEffects (g.setEffect y x e) :=
  ⟨rfl, rfl, rfl, rfl, rfl, rfl, rfl⟩

theorem depositAt_frame (merge : ℚ → ℚ → SuppressionEffect → SuppressionEffect) (m : Libm)
    (x y radius : Int) (effectiveness duration : ℚ) (dy : Int) (g : Grid) (dx : Int) :
    g.sameButEffects (Grid.depositAt merge m x y radius effectiveness duration dy g dx) := by
  unfold Grid.depositAt
  split_ifs
  · exact setEffect_sameButEffects _ _ _ _
  · exact sameButEffects_refl g
  · exact sameButEffects_refl g

/-- A deposit writes nothing but the suppression field. -/
theorem deposit_frame (merge : ℚ → ℚ → SuppressionEffect → SuppressionEffect) (m : Libm)
    (g : Grid) (x y radius : Int) (effectiveness duration : ℚ) :
    g.sameButEffects (Grid.deposit merge m g x y radius effectiveness duration) := by
  unfold Grid.deposit
  refine foldl_preserves _ (fun g' => g.sameButEffects g') _ ?_ g (sameButEffects_refl g)
  intro a dy _ ha
  refine foldl_preserves _ (fun g' => g.sameButEffects g') _ ?_ a ha
  intro a' dx _ ha'
  exact sameButEffects_trans _ _ _ ha' (depositAt_frame merge m x y radius effectiveness duration dy a' dx)

theorem isValidPosition_congr (g g' : Grid) (h : g.sameButEffects g') (x y : Int) :
    g'.isValidPosition x y = g.isValidPosition x y := by
  simp only [Grid.isValidPosition, h.1, h.2.1]

/-- One step of a deposit, seen from the entry at offset `(dx0, dy0)`: the entry is
the old one or the merged one, and the merged one only under the guard. -/
theorem depositAt_inv (merge : ℚ → ℚ → SuppressionEffect → SuppressionEffect)
    (hidem : ∀ v t e, merge v t (merge v t e) = merge v t e) (m : Libm) (g : Grid)
    (x y radius : Int) (effectiveness duration : ℚ) (dx0 dy0 : Int) (a : Grid) (dy dx : Int)
    (hdy : dy ∈ Grid.offsets radius) (hdx : dx ∈ Grid.offsets radius)
    (ha : g.sameButEffects a ∧
      (a.suppression_effects (y + dy0) (x + dx0) = g.suppression_effects (y + dy0) (x + dx0) ∨
        (Grid.depositFires m g x y radius dx0 dy0 ∧
          a.suppression_effects (y + dy0) (x + dx0) =
            merge (Grid.depositValue m radius effectiveness dx0 dy0) duration
              (g.suppression_effects (y + dy0) (x + dx0))))) :
    g.sameButEffects (Grid.depositAt merge m x y radius effectiveness duration dy a dx) ∧
      ((Grid.depositAt merge m x y radius effectiveness duration dy a dx).suppression_effects
          (y + dy0) (x + dx0) = g.suppression_effects (y + dy0) (x + dx0) ∨
        (Grid.depositFires m g x y radius dx0 dy0 ∧
          (Grid.depositAt merge m x y radius effectiveness duration dy a dx).suppression_effects
              (y + dy0) (x + dx0) =
            merge (Grid.depositValue m radius effectiveness dx0 dy0) duration
              (g.suppression_effects (y + dy0) (x + dx0)))) := by
  obtain ⟨hf, hcur⟩ := ha
  refine ⟨sameButEffects_trans _ _ _ hf (depositAt_frame merge m x y radius effectiveness duration dy a dx), ?_⟩
  rw [depositAt_effect]
  split_ifs with hc
  · obtain ⟨⟨h1, h2⟩, hv, hd⟩ := hc
    have e1 : dy0 = dy := by omega
    have e2 : dx0 = dx := by omega
    subst e1 e2
    have hfire : Grid.depositFires m g x y radius dx0 dy0 :=
      ⟨by rw [← isValidPosition_congr g a hf]; exact hv, (mem_offsets _ _).1 hdx,
        (mem_offsets _ _).1 hdy, hd⟩
    right
    refine ⟨hfire, ?_⟩
    rcases hcur with h | ⟨_, h⟩
    · rw [h]; rfl
    · rw [h]; exact hidem _ _ _
  · exact hcur

/-- One step of a deposit keeps a merged entry merged. -/
theorem depositAt_keeps (merge : ℚ → ℚ → SuppressionEffect → SuppressionEffect)
    (hidem : ∀ v t e, merge v t (merge v t e) = merge v t e) (m : Libm) (g : Grid)
    (x y radius : Int) (effectiveness duration : ℚ) (dx0 dy0 : Int) (a : Grid) (dy dx : Int)
    (ha : g.sameButEffects a ∧
      a.suppression_effects (y + dy0) (x + dx0) =
        merge (Grid.depositValue m radius effectiveness dx0 dy0) duration
          (g.suppression_effects (y + dy0) (x + dx0))) :
    g.sameButEffects (Grid.depositAt merge m x y radius effectiveness duration dy a dx) ∧
      (Grid.depositAt merge m x y radius effectiveness duration dy a dx).suppression_effects
          (y + dy0) (x + dx0) =
        merge (Grid.depositValue m radius effectiveness dx0 dy0) duration
          (g.suppression_effects (y + dy0) (x + dx0)) := by
  obtain ⟨hf, hcur⟩ := ha
  refine ⟨sameButEffects_trans _ _ _ hf (depositAt_frame merge m x y radius effectiveness duration dy a dx), ?_⟩
  rw [depositAt_effect]
  split_ifs with hc
  · obtain ⟨⟨h1, h2⟩, _, _⟩ := hc
    have e1 : dy0 = dy := by omega
    have e2 : dx0 = dx := by omega
    subst e1 e2
    rw [hcur]; exact hidem _ _ _
  · exact hcur

/-- The step at the offset `(dx0, dy0)` itself merges the entry when the guard holds. -/
theorem depositAt_hits (merge : ℚ → ℚ → SuppressionEffect → SuppressionEffect)
    (hidem : ∀ v t e, merge v t (merge v t e) = merge v t e) (m : Libm) (g : Grid)
    (x y radius : Int) (effectiveness duration : ℚ) (dx0 dy0 : Int) (a : Grid)
    (hfire : Grid.depositFires m g x y radius dx0 dy0)
    (ha : g.sameButEffects a ∧
      (a.suppression_effects (y + dy0) (x + dx0) = g.suppression_effects (y + dy0) (x + dx0) ∨
        (Grid.depositFires m g x y radius dx0 dy0 ∧
          a.suppression_effects (y + dy0) (x + dx0) =
            merge (Grid.depositValue m radius effectiveness dx0 dy0) duration
              (g.suppression_effects (y + dy0) (x + dx0))))) :
    g.sameButEffects (Grid.depositAt merge m x y radius effectiveness duration dy0 a dx0) ∧
      (Grid.depositAt merge m x y radius effectiveness duration dy0 a dx0).suppression_effects
          (y + dy0) (x + dx0) =
        merge (Grid.depositValue m radius effectiveness dx0 dy0) duration
          (g.suppression_effects (y + dy0) (x + dx0)) := by
  obtain ⟨hf, hcur⟩ := ha
  refine ⟨sameButEffects_trans _ _ _ hf (depositAt_frame merge m x y radius effectiveness duration dy0 a dx0), ?_⟩
  rw [depositAt_effect]
  have hc : (y + dy0 = y + dy0 ∧ x + dx0 = x + dx0) ∧
      a.isValidPosition (x + dx0) (y + dy0) = true ∧
      m.sqrt ((dx0 * dx0 + dy0 * dy0 : Int) : ℚ) ≤ (radius : ℚ) :=
    ⟨⟨rfl, rfl⟩, by rw [isValidPosition_congr g a hf]; exact hfire.1, hfire.2.2.2⟩
  rw [if_pos hc]
  rcases hcur with h | ⟨_, h⟩
  · rw [h]; rfl
  · rw [h]; exact hidem _ _ _

/-- The suppression entry at offset `(dx0, dy0)` after a deposit: merged exactly when
the guard holds, and the old entry otherwise. -/
theorem deposit_effect (merge : ℚ → ℚ → SuppressionEffect → SuppressionEffect)
    (hidem : ∀ v t e, merge v t (merge v t e) = merge v t e) (m : Libm) (g : Grid)
    (x y radius : Int) (effectiveness duration : ℚ) (dx0 dy0 : Int) :
    (Grid.depositFires m g x y radius dx0 dy0 →
      (Grid.deposit merge m g x y radius effectiveness duration).suppression_effects
          (y + dy0) (x + dx0) =
        merge (Grid.depositValue m radius effectiveness dx0 dy0) duration
          (g.suppression_effects (y + dy0) (x + dx0))) ∧
    (¬ Grid.depositFires m g x y radius dx0 dy0 →
      (Grid.deposit merge m g x y radius effectiveness duration).suppression_effects
          (y + dy0) (x + dx0) = g.suppression_effects (y + dy0) (x + dx0)) := by
  have hInv : ∀ (a : Grid) (dy : Int), dy ∈ Grid.offsets radius →
      (g.sameButEffects a ∧
        (a.suppression_effects (y + dy0) (x + dx0) = g.suppression_effects (y + dy0) (x + dx0) ∨
          (Grid.depositFires m g x y radius dx0 dy0 ∧
            a.suppression_effects (y + dy0) (x + dx0) =
              merge (Grid.depositValue m radius effectiveness dx0 dy0) duration
                (g.suppression_effects (y + dy0) (x + dx0))))) →
      (fun a' => g.sameButEffects a' ∧
        (a'.suppression_effects (y + dy0) (x + dx0) = g.suppression_effects (y + dy0) (x + dx0) ∨
          (Grid.depositFires m g x y radius dx0 dy0 ∧
            a'.suppression_effects (y + dy0) (x + dx0) =
              merge (Grid.depositValue m radius effectiveness dx0 dy0) duration
                (g.suppression_effects (y + dy0) (x + dx0)))))
        ((Grid.offsets radius).foldl
          (Grid.depositAt merge m x y radius effectiveness duration dy) a) := by
    intro a dy hdy ha
    exact foldl_preserves _ _ _
      (fun a' dx hdx ha' => depositAt_inv merge hidem m g x y radius effectiveness duration
        dx0 dy0 a' dy dx hdy hdx ha') a ha
  have hKeep : ∀ (a : Grid) (dy : Int),
      (g.sameButEffects a ∧
        a.suppression_effects (y + dy0) (x + dx0) =
          merge (Grid.depositValue m radius effectiveness dx0 dy0) duration
            (g.suppression_effects (y + dy0) (x + dx0))) →
      (fun a' => g.sameButEffects a' ∧
        a'.suppression_effects (y + dy0) (x + dx0) =
          merge (Grid.depositValue m radius effectiveness dx0 dy0) duration
            (g.suppression_effects (y + dy0) (x + dx0)))
        ((Grid.offsets radius).foldl
          (Grid.depositAt merge m x y radius effectiveness duration dy) a) := by
    intro a dy ha
    exact foldl_preserves _ _ _
      (fun a' dx _ ha' => depositAt_keeps merge hidem m g x y radius effectiveness duration
        dx0 dy0 a' dy dx ha') a ha
  constructor
  · intro hfire
    unfold Grid.deposit
    refine (foldl_establishes _ _
      (fun a' => g.sameButEffects a' ∧
        a'.suppression_effects (y + dy0) (x + dx0) =
          merge (Grid.depositValue m radius effectiveness dx0 dy0) duration
            (g.suppression_effects (y + dy0) (x + dx0)))
      (Grid.offsets radius) dy0 ((mem_offsets _ _).2 hfire.2.2.1)
      (fun a dy hdy ha => hInv a dy hdy ha) (fun a dy _ ha => hKeep a dy ha) ?_ g
      ⟨sameButEffects_refl g, Or.inl rfl⟩).2
    intro a ha
    exact foldl_establishes _ _ _ (Grid.offsets radius) dx0 ((mem_offsets _ _).2 hfire.2.1)
      (fun a' dx hdx ha' => depositAt_inv merge hidem m g x y radius effectiveness duration
        dx0 dy0 a' dy0 dx ((mem_offsets _ _).2 hfire.2.2.1) hdx ha')
      (fun a' dx _ ha' => depositAt_keeps merge hidem m g x y radius effectiveness duration
        dx0 dy0 a' dy0 dx ha')
      (fun a' ha' => depositAt_hits merge hidem m g x y radius effectiveness duration
        dx0 dy0 a' hfire ha') a ha
  · intro hno
    unfold Grid.deposit
    have h := foldl_preserves _ _ (Grid.offsets radius)
      (fun a dy hdy ha => hInv a dy hdy ha) g ⟨sameButEffects_refl g, Or.inl rfl⟩
    rcases h.2 with h | ⟨hf, _⟩
    · exact h
    · exact absurd hf hno

theorem mergeWater_idem (v t : ℚ) (e : SuppressionEffect) :
    mergeWater v t (mergeWater v t e) = mergeWater v t e := by
  simp [mergeWater, max_assoc]

theorem mergeRetardant_idem (v t : ℚ) (e : SuppressionEffect) :
    mergeRetardant v t (mergeRetardant v t e) = mergeRetardant v t e := by
  simp [mergeRetardant, max_assoc]

/-- With a `sqrt` that decides the disc, the guard of the deposit loops is: the target
is in the grid and within the disc of the radius. -/
theorem depositFires_iff (m : Libm) (g : Grid) (x y radius : Int) (hr : radius ≥ 1)
    (hsqrt : ∀ dx dy : Int,
      m.sqrt ((dx * dx + dy * dy : Int) : ℚ) ≤ (radius : ℚ) ↔ dx * dx + dy * dy ≤ radius * radius)
    (tx ty : Int) :
    Grid.depositFires m g x y radius (tx - x) (ty - y) ↔
      (g.isValidPosition tx ty = true ∧
        (tx - x) * (tx - x) + (ty - y) * (ty - y) ≤ radius * radius) := by
  have hx : x + (tx - x) = tx := by ring
  have hy : y + (ty - y) = ty := by ring
  unfold Grid.depositFires
  rw [hx, hy, hsqrt]
  constructor
  · rintro ⟨hv, _, _, hd⟩
    exact ⟨hv, hd⟩
  · rintro ⟨hv, hd⟩
    refine ⟨hv, ⟨?_, ?_⟩, ⟨?_, ?_⟩, hd⟩ <;> nlinarith [mul_self_nonneg (tx - x),
      mul_self_nonneg (ty - y), mul_self_nonneg (tx - x - radius), mul_self_nonneg (ty - y - radius),
      mul_self_nonneg (tx - x + radius), mul_self_nonneg (ty - y + radius)]

/-- C12: for radius `r ≥ 1` (and a `sqrt` that decides the disc), `applyWaterDrop`
rewrites exactly the suppression entries at in-grid positions `(x+dx, y+dy)` with
`dx² + dy² ≤ r²`: there `water_level` becomes `max(old, e × (1 − sqrt(dx²+dy²)/r))` and
`remaining_time` becomes `max(old, t)`, the other two fields are kept; every other
entry, every cell and the size are unchanged, wherever the centre lies.
`applyRetardant` does the same with `retardant_level` in the place of `water_level`. -/
theorem apply_deposit_spec (m : Libm) (g : Grid) (x y radius : Int) (e t : ℚ)
    (hr : radius ≥ 1)
    (hsqrt : ∀ dx dy : Int,
      m.sqrt ((dx * dx + dy * dy : Int) : ℚ) ≤ (radius : ℚ) ↔
        dx * dx + dy * dy ≤ radius * radius) :
    (∀ tx ty : Int,
      (g.isValidPosition tx ty = true ∧
          (tx - x) * (tx - x) + (ty - y) * (ty - y) ≤ radius * radius →
        (g.applyWaterDrop m x y radius e t).suppression_effects ty tx =
            { g.suppression_effects ty tx with
              water_level := max (g.suppression_effects ty tx).water_level
                (e * (1 - m.sqrt (((tx - x) * (tx - x) + (ty - y) * (ty - y) : Int) : ℚ) /
                  (radius : ℚ))),
              remaining_time := max (g.suppression_effects ty tx).remaining_time t } ∧
        (g.applyRetardant m x y radius e t).suppression_effects ty tx =
            { g.suppression_effects ty tx with
              retardant_level := max (g.suppression_effects ty tx).retardant_level
                (e * (1 - m.sqrt (((tx - x) * (tx - x) + (ty - y) * (ty - y) : Int) : ℚ) /
                  (radius : ℚ))),
              remaining_time := max (g.suppression_effects ty tx).remaining_time t }) ∧
      (¬ (g.isValidPosition tx ty = true ∧
          (tx - x) * (tx - x) + (ty - y) * (ty - y) ≤ radius * radius) →
        (g.applyWaterDrop m x y radius e t).suppression_effects ty tx =
            g.suppression_effects ty tx ∧
        (g.applyRetardant m x y radius e t).suppression_effects ty tx =
            g.suppression_effects ty tx)) ∧
    (g.applyWaterDrop m x y radius e t).cells = g.cells ∧
    (g.applyWaterDrop m x y radius e t).width = g.width ∧
    (g.applyWaterDrop m x y radius e t).height = g.height ∧
    (g.applyRetardant m x y radius e t).cells = g.cells ∧
    (g.applyRetardant m x y radius e t).width = g.width ∧
    (g.applyRetardant m x y radius e t).height = g.height := by
  have hw := deposit_frame mergeWater m g x y radius e t
  have hrt := deposit_frame mergeRetardant m g x y radius e t
  refine ⟨?_, hw.2.2.1, hw.1, hw.2.1, hrt.2.2.1, hrt.1, hrt.2.1⟩
  intro tx ty
  have hx : x + (tx - x) = tx := by ring
  have hy : y + (ty - y) = ty := by ring
  have hiff := depositFires_iff m g x y radius hr hsqrt tx ty
  have h1 := deposit_effect mergeWater mergeWater_idem m g x y radius e t (tx - x) (ty - y)
  have h2 := deposit_effect mergeRetardant mergeRetardant_idem m g x y radius e t (tx - x) (ty - y)
  rw [hx, hy] at h1 h2
  rw [applyWaterDrop_eq_deposit, applyRetardant_eq_deposit]
  constructor
  · intro h
    exact ⟨h1.1 (hiff.2 h), h2.1 (hiff.2 h)⟩
  · intro h
    exact ⟨h1.2 (fun hf => h (hiff.1 hf)), h2.2 (fun hf => h (hiff.1 hf))⟩

theorem ceilSqrt_le (k r : Nat) : ceilSqrt k ≤ r ↔ k ≤ r * r := by
  have h1 := Nat.sqrt_le k
  have h2 := Nat.lt_succ_sqrt k
  unfold ceilSqrt
  split_ifs with h
  · constructor
    · intro hs
      calc k = Nat.sqrt k * Nat.sqrt k := h.symm
        _ ≤ r * r := Nat.mul_le_mul hs hs
    · intro hk
      by_contra hc
      have : r + 1 ≤ Nat.sqrt k := by omega
      have := Nat.mul_le_mul this this
      nlinarith
  · constructor
    · intro hs
      have := Nat.mul_le_mul hs hs
      exact le_of_lt (lt_of_lt_of_le h2 this)
    · intro hk
      by_contra hc
      have : r ≤ Nat.sqrt k := by omega
      have := Nat.mul_le_mul this this
      have : Nat.sqrt k * Nat.sqrt k < k := lt_of_le_of_ne h1 h
      omega

/-- The `sqrt` of `Libm.ceil` decides every disc of non-negative integer radius. -/
theorem ceil_sqrt_disc (radius : Int) (hr : 0 ≤ radius) (dx dy : Int) :
    Libm.ceil.sqrt ((dx * dx + dy * dy : Int) : ℚ) ≤ (radius : ℚ) ↔
      dx * dx + dy * dy ≤ radius * radius := by
  have hn : 0 ≤ dx * dx + dy * dy := add_nonneg (mul_self_nonneg dx) (mul_self_nonneg dy)
  obtain ⟨k, hk⟩ := Int.eq_ofNat_of_zero_le hn
  obtain ⟨r, rfl⟩ := Int.eq_ofNat_of_zero_le hr
  rw [hk]
  simp only [Libm.ceil, Int.cast_natCast, Int.floor_natCast, Int.toNat_ofNat]
  rw [Nat.cast_le, ceilSqrt_le]
  constructor
  · intro h; exact_mod_cast h
  · intro h; exact_mod_cast h

theorem ceil_sqrt_zero : Libm.ceil.sqrt 0 = 0 := by
  simp [Libm.ceil, ceilSqrt]

theorem apply_deposit_spec_witness :
    (∀ tx ty : Int,
      ((Grid.ctor 3 3).isValidPosition tx ty = true ∧
          (tx - 1) * (tx - 1) + (ty - 1) * (ty - 1) ≤ 1 * 1 →
        ((Grid.ctor 3 3).applyWaterDrop Libm.ceil 1 1 1 (1 / 2) 10).suppression_effects ty tx =
            { (Grid.ctor 3 3).suppression_effects ty tx with
              water_level := max ((Grid.ctor 3 3).suppression_effects ty tx).water_level
                ((1 / 2) * (1 - Libm.ceil.sqrt
                  (((tx - 1) * (tx - 1) + (ty - 1) * (ty - 1) : Int) : ℚ) / ((1 : Int) : ℚ))),
              remaining_time :=
                max ((Grid.ctor 3 3).suppression_effects ty tx).remaining_time 10 } ∧
        ((Grid.ctor 3 3).applyRetardant Libm.ceil 1 1 1 (1 / 2) 10).suppression_effects ty tx =
            { (Grid.ctor 3 3).suppression_effects ty tx with
              retardant_level := max ((Grid.ctor 3 3).suppression_effects ty tx).retardant_level
                ((1 / 2) * (1 - Libm.ceil.sqrt
                  (((tx - 1) * (tx - 1) + (ty - 1) * (ty - 1) : Int) : ℚ) / ((1 : Int) : ℚ))),
              remaining_time :=
                max ((Grid.ctor 3 3).suppression_effects ty tx).remaining_time 10 }) ∧
      (¬ ((Grid.ctor 3 3).isValidPosition tx ty = true ∧
          (tx - 1) * (tx - 1) + (ty - 1) * (ty - 1) ≤ 1 * 1) →
        ((Grid.ctor 3 3).applyWaterDrop Libm.ceil 1 1 1 (1 / 2) 10).suppression_effects ty tx =
            (Grid.ctor 3 3).suppression_effects ty tx ∧
        ((Grid.ctor 3 3).applyRetardant Libm.ceil 1 1 1 (1 / 2) 10).suppression_effects ty tx =
            (Grid.ctor 3 3).suppression_effects ty tx)) ∧
    ((Grid.ctor 3 3).applyWaterDrop Libm.ceil 1 1 1 (1 / 2) 10).cells = (Grid.ctor 3 3).cells ∧
    ((Grid.ctor 3 3).applyWaterDrop Libm.ceil 1 1 1 (1 / 2) 10).width = (Grid.ctor 3 3).width ∧
    ((Grid.ctor 3 3).applyWaterDrop Libm.ceil 1 1 1 (1 / 2) 10).height = (Grid.ctor 3 3).height ∧
    ((Grid.ctor 3 3).applyRetardant Libm.ceil 1 1 1 (1 / 2) 10).cells = (Grid.ctor 3 3).cells ∧
    ((Grid.ctor 3 3).applyRetardant Libm.ceil 1 1 1 (1 / 2) 10).width = (Grid.ctor 3 3).width ∧
    ((Grid.ctor 3 3).applyRetardant Libm.ceil 1 1 1 (1 / 2) 10).height = (Grid.ctor 3 3).height :=
  apply_deposit_spec Libm.ceil (Grid.ctor 3 3) 1 1 1 (1 / 2) 10 (by norm_num)
    (ceil_sqrt_disc 1 (by norm_num))

/-- After a deposit every level is at least what it was, provided the field writes
`merge` never lower a level. -/
theorem deposit_levels_ge (merge : ℚ → ℚ → SuppressionEffect → SuppressionEffect)
    (hidem : ∀ v t e, merge v t (merge v t e) = merge v t e)
    (hmono : ∀ v t e, e.water_level ≤ (merge v t e).water_level ∧
      e.retardant_level ≤ (merge v t e).retardant_level)
    (m : Libm) (g : Grid) (x y radius : Int) (e t : ℚ) (ty tx : Int) :
    (g.suppression_effects ty tx).water_level ≤
        ((Grid.deposit merge m g x y radius e t).suppression_effects ty tx).water_level ∧
      (g.suppression_effects ty tx).retardant_level ≤
        ((Grid.deposit merge m g x y radius e t).suppression_effects ty tx).retardant_level := by
  have hx : x + (tx - x) = tx := by ring
  have hy : y + (ty - y) = ty := by ring
  have h := deposit_effect merge hidem m g x y radius e t (tx - x) (ty - y)
  rw [hx, hy] at h
  by_cases hf : Grid.depositFires m g x y radius (tx - x) (ty - y)
  · rw [h.1 hf]; exact hmono _ _ _
  · rw [h.2 hf]; exact ⟨le_refl _, le_refl _⟩

theorem mergeWater_mono (v t : ℚ) (e : SuppressionEffect) :
    e.water_level ≤ (mergeWater v t e).water_level ∧
      e.retardant_level ≤ (mergeWater v t e).retardant_level :=
  ⟨le_max_left _ _, le_refl _⟩

theorem mergeRetardant_mono (v t : ℚ) (e : SuppressionEffect) :
    e.water_level ≤ (mergeRetardant v t e).water_level ∧
      e.retardant_level ≤ (mergeRetardant v t e).retardant_level :=
  ⟨le_refl _, le_max_left _ _⟩

/-- A sequence of deposit calls never lowers a level. -/
theorem run_deposits_levels_ge (m : Libm) (ops : List Op) :
    ∀ (s s' : Sim), (∀ op ∈ ops, op.isDeposit = true) → Sim.run m s ops = some s' →
      ∀ ty tx : Int,
        (s.grid.suppression_effects ty tx).water_level ≤
            (s'.grid.suppression_effects ty tx).water_level ∧
          (s.grid.suppression_effects ty tx).retardant_level ≤
            (s'.grid.suppression_effects ty tx).retardant_level := by
  induction ops with
  | nil =>
    intro s s' _ hrun ty tx
    simp only [Sim.run, Option.some.injEq] at hrun
    subst hrun
    exact ⟨le_refl _, le_refl _⟩
  | cons op ops ih =>
    intro s s' hall hrun ty tx
    have hop : op.isDeposit = true := hall op (List.mem_cons_self _ _)
    have hrest : ∀ o ∈ ops, o.isDeposit = true := fun o ho => hall o (List.mem_cons_of_mem _ ho)
    cases op with
    | igniteCell x y => simp [Op.isDeposit] at hop
    | update dt => simp [Op.isDeposit] at hop
    | createFirebreak x1 y1 x2 y2 => simp [Op.isDeposit] at hop
    | applyWaterDrop x y radius e t =>
      simp only [Sim.run, Sim.step, Option.some_bind] at hrun
      have h1 := deposit_levels_ge mergeWater mergeWater_idem mergeWater_mono m s.grid
        x y radius e t ty tx
      have h2 := ih _ s' hrest hrun ty tx
      exact ⟨le_trans h1.1 h2.1, le_trans h1.2 h2.2⟩
    | applyRetardant x y radius e t =>
      simp only [Sim.run, Sim.step, Option.some_bind] at hrun
      have h1 := deposit_levels_ge mergeRetardant mergeRetardant_idem mergeRetardant_mono m
        s.grid x y radius e t ty tx
      have h2 := ih _ s' hrest hrun ty tx
      exact ⟨le_trans h1.1 h2.1, le_trans h1.2 h2.2⟩

/-- C13: after `applyWaterDrop` or `applyRetardant` (any centre, radius, effectiveness
and duration) the water level and the retardant level at every position are at least
their values before the call; hence no sequence of such calls ever lowers a level. -/
theorem deposit_monotone (m : Libm) (g : Grid) (x y radius : Int) (e t : ℚ) :
    (∀ ty tx : Int,
      (g.suppression_effects ty tx).water_level ≤
          ((g.applyWaterDrop m x y radius e t).suppression_effects ty tx).water_level ∧
      (g.suppression_effects ty tx).retardant_level ≤
          ((g.applyWaterDrop m x y radius e t).suppression_effects ty tx).retardant_level ∧
      (g.suppression_effects ty tx).water_level ≤
          ((g.applyRetardant m x y radius e t).suppression_effects ty tx).water_level ∧
      (g.suppression_effects ty tx).retardant_level ≤
          ((g.applyRetardant m x y radius e t).suppression_effects ty tx).retardant_level) ∧
    (∀ (ops : List Op) (gen1 gen2 : Rng) (s' : Sim),
      (∀ op ∈ ops, op.isDeposit = true) →
      Sim.run m { grid := g, gen1 := gen1, gen2 := gen2 } ops = some s' →
      ∀ ty tx : Int,
        (g.suppression_effects ty tx).water_level ≤
            (s'.grid.suppression_effects ty tx).water_level ∧
          (g.suppression_effects ty tx).retardant_level ≤
            (s'.grid.suppression_effects ty tx).retardant_level) := by
  constructor
  · intro ty tx
    have h1 := deposit_levels_ge mergeWater mergeWater_idem mergeWater_mono m g x y radius e t ty tx
    have h2 := deposit_levels_ge mergeRetardant mergeRetardant_idem mergeRetardant_mono m g
      x y radius e t ty tx
    exact ⟨h1.1, h1.2, h2.1, h2.2⟩
  · intro ops gen1 gen2 s' hall hrun
    exact run_deposits_levels_ge m ops _ s' hall hrun

theorem grid_ext (g g' : Grid) (h : g.sameButEffects g')
    (he : g'.suppression_effects = g.suppression_effects) : g' = g := by
  obtain ⟨h1, h2, h3, h4, h5, h6, h7⟩ := h
  cases g
  cases g'
  simp only [Grid.mk.injEq]
  exact ⟨h1, h2, h3, he, h4, h5, h6, h7⟩

/-- Applying the same deposit twice gives the grid of applying it once. -/
theorem deposit_idem (merge : ℚ → ℚ → SuppressionEffect → SuppressionEffect)
    (hidem : ∀ v t e, merge v t (merge v t e) = merge v t e)
    (m : Libm) (g : Grid) (x y radius : Int) (e t : ℚ) :
    Grid.deposit merge m (Grid.deposit merge m g x y radius e t) x y radius e t =
      Grid.deposit merge m g x y radius e t := by
  have hfr := deposit_frame merge m g x y radius e t
  apply grid_ext _ _ (deposit_frame merge m (Grid.deposit merge m g x y radius e t) x y radius e t)
  funext ty tx
  have hx : x + (tx - x) = tx := by ring
  have hy : y + (ty - y) = ty := by ring
  have h1 := deposit_effect merge hidem m g x y radius e t (tx - x) (ty - y)
  have h2 := deposit_effect merge hidem m (Grid.deposit merge m g x y radius e t)
    x y radius e t (tx - x) (ty - y)
  rw [hx, hy] at h1 h2
  have hiff : Grid.depositFires m (Grid.deposit merge m g x y radius e t) x y radius
      (tx - x) (ty - y) ↔ Grid.depositFires m g x y radius (tx - x) (ty - y) := by
    unfold Grid.depositFires
    rw [isValidPosition_congr g _ hfr]
  by_cases hf : Grid.depositFires m g x y radius (tx - x) (ty - y)
  · rw [h2.1 (hiff.2 hf), h1.1 hf, hidem]
  · rw [h2.2 (fun h => hf (hiff.1 h))]

/-- C14: `applyWaterDrop` and `applyRetardant` are idempotent: two calls in a row with
the same arguments leave exactly the grid of one call (deposits are merged by `max`,
never summed). -/
theorem deposit_idempotent (m : Libm) (g : Grid) (x y radius : Int) (e t : ℚ) :
    (g.applyWaterDrop m x y radius e t).applyWaterDrop m x y radius e t =
        g.applyWaterDrop m x y radius e t ∧
      (g.applyRetardant m x y radius e t).applyRetardant m x y radius e t =
        g.applyRetardant m x y radius e t :=
  ⟨deposit_idem mergeWater mergeWater_idem m g x y radius e t,
   deposit_idem mergeRetardant mergeRetardant_idem m g x y radius e t⟩

/-! ## Suppression decay in a tick -/

theorem foldl_pointwise {α β γ : Type} (f : α → β → α) (proj : α → γ) (F : γ → γ) (b0 : β)
    (l : List β) (hnd : l.Nodup)
    (hother : ∀ a b, b ≠ b0 → proj (f a b) = proj a)
    (hself : ∀ a, proj (f a b0) = F (proj a)) (a : α) :
    (b0 ∈ l → proj (l.foldl f a) = F (proj a)) ∧
      (b0 ∉ l → proj (l.foldl f a) = proj a) := by
  induction l generalizing a with
  | nil => exact ⟨fun h => absurd h (List.not_mem_nil _), fun _ => rfl⟩
  | cons b t ih =>
    obtain ⟨hbt, hnt⟩ := List.nodup_cons.1 hnd
    simp only [List.foldl_cons]
    constructor
    · intro hmem
      by_cases hb : b = b0
      · subst hb
        rw [(ih hnt (f a b)).2 hbt, hself]
      · have : b0 ∈ t := by
          rcases List.mem_cons.1 hmem with h | h
          · exact absurd h.symm hb
          · exact h
        rw [(ih hnt (f a b)).1 this, hother a b hb]
    · intro hmem
      have hb : b ≠ b0 := fun h => hmem (h ▸ List.mem_cons_self _ _)
      have : b0 ∉ t := fun h => hmem (List.mem_cons_of_mem _ h)
      rw [(ih hnt (f a b)).2 this, hother a b hb]

theorem positions_nodup (g : Grid) : g.positions.Nodup := by
  unfold Grid.positions
  rw [List.nodup_flatMap]
  constructor
  · intro y _
    refine List.Nodup.map ?_ (List.nodup_range _)
    intro a b h
    simpa using h
  · refine List.Pairwise.imp ?_ (List.nodup_range _)
    intro a b hab
    simp only [Function.onFun, List.disjoint_left, List.mem_map, List.mem_range, not_exists,
      not_and]
    rintro p ⟨x, _, rfl⟩ x' _ h
    simp only [Prod.mk.injEq, Nat.cast_inj] at h
    exact hab h.2.symm

theorem mem_positions_iff (g : Grid) (x y : Int) :
    (x, y) ∈ g.positions ↔ g.isValidPosition x y = true := by
  constructor
  · exact mem_positions g (x, y)
  · intro h
    simp only [Grid.isValidPosition, Bool.and_eq_true, decide_eq_true_eq] at h
    simp only [Grid.positions, List.mem_flatMap, List.mem_map, List.mem_range, Prod.mk.injEq]
    exact ⟨y.toNat, by omega, x.toNat, by omega, by omega, by omega⟩

theorem setCell_effects (g : Grid) (y x : Int) (c : Cell) :
    (g.setCell y x c).suppression_effects = g.suppression_effects := rfl

theorem setEffect_effects_self (g : Grid) (y x : Int) (e : SuppressionEffect) :
    (g.setEffect y x e).suppression_effects y x = e := by
  simp [Grid.setEffect]

theorem setEffect_effects_other (g : Grid) (y x y' x' : Int) (e : SuppressionEffect)
    (h : ¬ (y' = y ∧ x' = x)) :
    (g.setEffect y x e).suppression_effects y' x' = g.suppression_effects y' x' := by
  simp [Grid.setEffect, h]

/-- A step of the second pass writes no suppression entry but its own. -/
theorem updateCell_effects_other (dt : ℚ) (will_ignite : Int → Int → Bool)
    (st : Grid × Rng) (p : Int × Int) (y x : Int) (hp : ¬ (y = p.2 ∧ x = p.1)) :
    (Grid.updateCell dt will_ignite st p).1.suppression_effects y x =
      st.1.suppression_effects y x := by
  simp only [Grid.updateCell]
  split_ifs <;>
    simp only [setCell_effects, setEffect_effects_other _ _ _ _ _ _ hp]

/-- A step of the second pass applies the decay block to its own suppression entry. -/
theorem updateCell_effects_self (dt : ℚ) (will_ignite : Int → Int → Bool)
    (st : Grid × Rng) (p : Int × Int) :
    (Grid.updateCell dt will_ignite st p).1.suppression_effects p.2 p.1 =
      Grid.decay (st.1.suppression_effects p.2 p.1) dt := by
  simp only [Grid.updateCell]
  split_ifs <;>
    simp only [setCell_effects, setEffect_effects_self]

theorem updateCell_size (dt : ℚ) (will_ignite : Int → Int → Bool)
    (st : Grid × Rng) (p : Int × Int) :
    (Grid.updateCell dt will_ignite st p).1.width = st.1.width ∧
      (Grid.updateCell dt will_ignite st p).1.height = st.1.height := by
  simp only [Grid.updateCell]
  split_ifs <;> exact ⟨rfl, rfl⟩

/-- A tick keeps the size of the grid. -/
theorem update_size (m : Libm) (g : Grid) (dt : ℚ) (gen1 gen2 : Rng) :
    (g.update m dt gen1 gen2).1.width = g.width ∧
      (g.update m dt gen1 gen2).1.height = g.height := by
  show (g.writePass dt (g.spreadPass m dt gen1).1 gen2).1.width = g.width ∧
    (g.writePass dt (g.spreadPass m dt gen1).1 gen2).1.height = g.height
  unfold Grid.writePass
  refine foldl_preserves (Grid.updateCell dt (g.spreadPass m dt gen1).1)
    (fun st => st.1.width = g.width ∧ st.1.height = g.height) g.positions ?_ (g, gen2)
    ⟨rfl, rfl⟩
  intro a b _ ha
  have h := updateCell_size dt (g.spreadPass m dt gen1).1 a b
  exact ⟨h.1.trans ha.1, h.2.trans ha.2⟩

/-- A tick applies the decay block exactly once to every entry of the grid and leaves
the entries outside the grid alone. -/
theorem update_effects (m : Libm) (g : Grid) (dt : ℚ) (gen1 gen2 : Rng) (x y : Int) :
    (g.isValidPosition x y = true →
      (g.update m dt gen1 gen2).1.suppression_effects y x =
        Grid.decay (g.suppression_effects y x) dt) ∧
    (¬ g.isValidPosition x y = true →
      (g.update m dt gen1 gen2).1.suppression_effects y x = g.suppression_effects y x) := by
  have h := foldl_pointwise (Grid.updateCell dt (g.spreadPass m dt gen1).1)
    (fun st => st.1.suppression_effects y x) (fun e => Grid.decay e dt) (x, y) g.positions
    (positions_nodup g)
    (fun a b hb => updateCell_effects_other dt _ a b y x (by
      intro hc
      apply hb
      obtain ⟨h1, h2⟩ := hc
      exact Prod.ext h2.symm h1.symm))
    (fun a => updateCell_effects_self dt _ a (x, y)) (g, gen2)
  rw [mem_positions_iff] at h
  exact h

theorem decay_is_firebreak (e : SuppressionEffect) (dt : ℚ) :
    (Grid.decay e dt).is_firebreak = e.is_firebreak := by
  unfold Grid.decay
  dsimp only
  split_ifs <;> rfl

/-- The decay block keeps the property that an elapsed entry has both levels 0. -/
theorem decay_elapsed (e : SuppressionEffect) (dt : ℚ)
    (h : e.remaining_time ≤ 0 → e.water_level = 0 ∧ e.retardant_level = 0) :
    (Grid.decay e dt).remaining_time ≤ 0 →
      (Grid.decay e dt).water_level = 0 ∧ (Grid.decay e dt).retardant_level = 0 := by
  unfold Grid.decay
  dsimp only
  split_ifs with h1 h2
  · intro _; exact ⟨rfl, rfl⟩
  · intro h3; exact absurd h3 h2
  · intro _; exact h (not_lt.1 h1)

theorem decays_elapsed (dts : List ℚ) (e : SuppressionEffect)
    (h : e.remaining_time ≤ 0 → e.water_level = 0 ∧ e.retardant_level = 0) :
    ((Grid.decays e dts).remaining_time ≤ 0 →
      (Grid.decays e dts).water_level = 0 ∧ (Grid.decays e dts).retardant_level = 0) ∧
    (Grid.decays e dts).is_firebreak = e.is_firebreak := by
  unfold Grid.decays
  refine foldl_preserves Grid.decay
    (fun e' => (e'.remaining_time ≤ 0 → e'.water_level = 0 ∧ e'.retardant_level = 0) ∧
      e'.is_firebreak = e.is_firebreak) dts ?_ e ⟨h, rfl⟩
  intro a dt _ ha
  exact ⟨decay_elapsed a dt ha.1, (decay_is_firebreak a dt).trans ha.2⟩

/-- Over several ticks every entry of the grid goes through the decay block once per
tick. -/
theorem ticks_effects (m : Libm) (dts : List ℚ) :
    ∀ (s : Grid × Rng × Rng) (x y : Int), s.1.isValidPosition x y = true →
      (Grid.ticks m dts s).1.suppression_effects y x =
        Grid.decays (s.1.suppression_effects y x) dts := by
  induction dts with
  | nil => intro s x y _; rfl
  | cons dt dts ih =>
    intro s x y hv
    have hsz := update_size m s.1 dt s.2.1 s.2.2
    have hv' : (Grid.update m s.1 dt s.2.1 s.2.2).1.isValidPosition x y = true := by
      simp only [Grid.isValidPosition, hsz.1, hsz.2]
      exact hv
    simp only [Grid.ticks]
    rw [ih _ x y hv', (update_effects m s.1 dt s.2.1 s.2.2 x y).1 hv]
    rfl

/-- C16: in one tick the decay step of an entry of the grid with `remaining_time > 0`
sets `remaining_time` to `remaining_time − dt` and, if that is `≤ 0`, both levels to
0 (else keeps them); an entry with `remaining_time ≤ 0` is unchanged; `is_firebreak`
is never changed. Hence once successive ticks have driven a positive
`remaining_time` to `≤ 0`, both levels are 0 and `is_firebreak` is what it was. -/
theorem decay_in_tick (m : Libm) (g : Grid) (x y : Int) :
    (∀ (dt : ℚ) (gen1 gen2 : Rng), g.isValidPosition x y = true →
      ((g.suppression_effects y x).remaining_time > 0 →
        ((g.update m dt gen1 gen2).1.suppression_effects y x).remaining_time =
            (g.suppression_effects y x).remaining_time - dt ∧
        ((g.suppression_effects y x).remaining_time - dt ≤ 0 →
          ((g.update m dt gen1 gen2).1.suppression_effects y x).water_level = 0 ∧
          ((g.update m dt gen1 gen2).1.suppression_effects y x).retardant_level = 0) ∧
        (¬ (g.suppression_effects y x).remaining_time - dt ≤ 0 →
          ((g.update m dt gen1 gen2).1.suppression_effects y x).water_level =
              (g.suppression_effects y x).water_level ∧
          ((g.update m dt gen1 gen2).1.suppression_effects y x).retardant_level =
              (g.suppression_effects y x).retardant_level)) ∧
      (¬ (g.suppression_effects y x).remaining_time > 0 →
        (g.update m dt gen1 gen2).1.suppression_effects y x = g.suppression_effects y x) ∧
      ((g.update m dt gen1 gen2).1.suppression_effects y x).is_firebreak =
        (g.suppression_effects y x).is_firebreak) ∧
    (∀ (dts : List ℚ) (gen1 gen2 : Rng), g.isValidPosition x y = true →
      (g.suppression_effects y x).remaining_time > 0 →
      ((Grid.ticks m dts (g, gen1, gen2)).1.suppression_effects y x).remaining_time ≤ 0 →
      ((Grid.ticks m dts (g, gen1, gen2)).1.suppression_effects y x).water_level = 0 ∧
      ((Grid.ticks m dts (g, gen1, gen2)).1.suppression_effects y x).retardant_level = 0 ∧
      ((Grid.ticks m dts (g, gen1, gen2)).1.suppression_effects y x).is_firebreak =
        (g.suppression_effects y x).is_firebreak) := by
  constructor
  · intro dt gen1 gen2 hv
    rw [(update_effects m g dt gen1 gen2 x y).1 hv]
    refine ⟨?_, ?_, decay_is_firebreak _ _⟩
    · intro hpos
      unfold Grid.decay
      dsimp only
      rw [if_pos hpos]
      refine ⟨?_, ?_, ?_⟩
      · split_ifs <;> rfl
      · intro hle
        rw [if_pos hle]
        exact ⟨rfl, rfl⟩
      · intro hgt
        rw [if_neg hgt]
        exact ⟨rfl, rfl⟩
    · intro hnp
      unfold Grid.decay
      dsimp only
      rw [if_neg hnp]
  · intro dts gen1 gen2 hv hpos hle
    have h := decays_elapsed dts (g.suppression_effects y x)
      (fun h0 => absurd hpos (not_lt.2 h0))
    rw [ticks_effects m dts (g, gen1, gen2) x y hv] at hle ⊢
    exact ⟨(h.1 hle).1, (h.1 hle).2, h.2⟩

/-! ## createFirebreak -/

/-- The loop of `createFirebreak` runs its body along the trace. -/
theorem firebreakLoop_eq_trace (x2 y2 x_inc y_inc dx dy : Int) (fuel : Nat) :
    ∀ (g : Grid) (x y error : Int),
      Grid.firebreakLoop x2 y2 x_inc y_inc dx dy fuel g x y error =
        (Grid.firebreakTrace x2 y2 x_inc y_inc dx dy fuel x y error).map g.markAll := by
  induction fuel with
  | zero => intro g x y error; rfl
  | succ fuel ih =>
    intro g x y error
    simp only [Grid.firebreakLoop, Grid.firebreakTrace]
    split_ifs with h1 h2
    · rfl
    · rw [ih, Option.map_map]
      rfl
    · rw [ih, Option.map_map]
      rfl

/-- More iterations do not change a result the loop has reached. -/
theorem firebreakTrace_mono (x2 y2 x_inc y_inc dx dy : Int) (fuel : Nat) :
    ∀ (x y error : Int) (ps : List (Int × Int)),
      Grid.firebreakTrace x2 y2 x_inc y_inc dx dy fuel x y error = some ps →
      Grid.firebreakTrace x2 y2 x_inc y_inc dx dy (fuel + 1) x y error = some ps := by
  induction fuel with
  | zero => intro x y error ps h; simp [Grid.firebreakTrace] at h
  | succ fuel ih =>
    intro x y error ps h
    rw [Grid.firebreakTrace] at h ⊢
    split_ifs at h ⊢ with h1 h2
    · exact h
    · cases hrec : Grid.firebreakTrace x2 y2 x_inc y_inc dx dy fuel (x + x_inc) y (error - dy) with
      | none => rw [hrec] at h; simp at h
      | some qs => rw [hrec] at h; rw [ih _ _ _ qs hrec]; exact h
    · cases hrec : Grid.firebreakTrace x2 y2 x_inc y_inc dx dy fuel x (y + y_inc) (error + dx) with
      | none => rw [hrec] at h; simp at h
      | some qs => rw [hrec] at h; rw [ih _ _ _ qs hrec]; exact h

theorem markFirebreak_size (g : Grid) (x y : Int) :
    (g.markFirebreak x y).width = g.width ∧ (g.markFirebreak x y).height = g.height := by
  unfold Grid.markFirebreak
  split_ifs <;> exact ⟨rfl, rfl⟩

theorem markFirebreak_other (g : Grid) (px py y x : Int) (hp : ¬ (y = py ∧ x = px)) :
    (g.markFirebreak px py).cells y x = g.cells y x ∧
      (g.markFirebreak px py).suppression_effects y x = g.suppression_effects y x := by
  unfold Grid.markFirebreak
  split_ifs
  · exact ⟨setCell_cells_other _ _ _ _ _ _ hp,
      by rw [setCell_effects, setEffect_effects_other _ _ _ _ _ _ hp]⟩
  · exact ⟨rfl, rfl⟩

theorem markFirebreak_valid (g : Grid) (x y : Int) (hv : g.isValidPosition x y = true) :
    (g.markFirebreak x y).cells y x = Cell.ctor FuelType.ROCK 0 0 ∧
      (g.markFirebreak x y).suppression_effects y x =
        { g.suppression_effects y x with is_firebreak := true } := by
  unfold Grid.markFirebreak
  rw [if_pos hv]
  exact ⟨setCell_cells_self _ _ _ _, by rw [setCell_effects, setEffect_effects_self]⟩

theorem markFirebreak_invalid (g : Grid) (x y : Int) (hv : ¬ g.isValidPosition x y = true) :
    g.markFirebreak x y = g := by
  unfold Grid.markFirebreak
  rw [if_neg hv]

theorem markAll_size (g : Grid) (ps : List (Int × Int)) :
    (g.markAll ps).width = g.width ∧ (g.markAll ps).height = g.height := by
  unfold Grid.markAll
  refine foldl_preserves (fun (g : Grid) (p : Int × Int) => g.markFirebreak p.1 p.2)
    (fun a => a.width = g.width ∧ a.height = g.height) ps ?_ g ⟨rfl, rfl⟩
  intro a b _ ha
  have h := markFirebreak_size a b.1 b.2
  exact ⟨h.1.trans ha.1, h.2.trans ha.2⟩

theorem isValidPosition_of_size (g a : Grid) (h : a.width = g.width ∧ a.height = g.height)
    (x y : Int) : a.isValidPosition x y = g.isValidPosition x y := by
  simp only [Grid.isValidPosition, h.1, h.2]

/-- The cell and the suppression entry at `(x, y)` after the loop body has run along
`ps`: rock and flagged when `(x, y)` is an in-grid position of `ps`, else untouched. -/
theorem markAll_at (g : Grid) (ps : List (Int × Int)) (x y : Int) :
    ((x, y) ∈ ps ∧ g.isValidPosition x y = true →
      (g.markAll ps).cells y x = Cell.ctor FuelType.ROCK 0 0 ∧
      (g.markAll ps).suppression_effects y x =
        { g.suppression_effects y x with is_firebreak := true }) ∧
    (¬ ((x, y) ∈ ps ∧ g.isValidPosition x y = true) →
      (g.markAll ps).cells y x = g.cells y x ∧
      (g.markAll ps).suppression_effects y x = g.suppression_effects y x) := by
  constructor
  · rintro ⟨hmem, hv⟩
    unfold Grid.markAll
    refine (foldl_establishes (fun (g : Grid) (p : Int × Int) => g.markFirebreak p.1 p.2)
      (fun a => (a.width = g.width ∧ a.height = g.height) ∧
        ((a.cells y x = g.cells y x ∧ a.suppression_effects y x = g.suppression_effects y x) ∨
          (a.cells y x = Cell.ctor FuelType.ROCK 0 0 ∧ a.suppression_effects y x =
            { g.suppression_effects y x with is_firebreak := true })))
      (fun a => (a.width = g.width ∧ a.height = g.height) ∧
        (a.cells y x = Cell.ctor FuelType.ROCK 0 0 ∧ a.suppression_effects y x =
          { g.suppression_effects y x with is_firebreak := true }))
      ps (x, y) hmem ?_ ?_ ?_ g ⟨⟨rfl, rfl⟩, Or.inl ⟨rfl, rfl⟩⟩).2
    · intro a b _ ha
      have hsz := markFirebreak_size a b.1 b.2
      refine ⟨⟨hsz.1.trans ha.1.1, hsz.2.trans ha.1.2⟩, ?_⟩
      by_cases hb : y = b.2 ∧ x = b.1
      · obtain ⟨rfl, rfl⟩ := hb
        have hva : a.isValidPosition b.1 b.2 = true := by
          rw [isValidPosition_of_size g a ha.1]; exact hv
        have hm := markFirebreak_valid a b.1 b.2 hva
        right
        refine ⟨hm.1, ?_⟩
        rw [hm.2]
        rcases ha.2 with h | h
        · rw [h.2]
        · rw [h.2]
      · have hm := markFirebreak_other a b.1 b.2 y x hb
        show ((a.markFirebreak b.1 b.2).cells y x = _ ∧ _) ∨ _
        rw [hm.1, hm.2]
        exact ha.2
    · intro a b _ ha
      have hsz := markFirebreak_size a b.1 b.2
      refine ⟨⟨hsz.1.trans ha.1.1, hsz.2.trans ha.1.2⟩, ?_⟩
      by_cases hb : y = b.2 ∧ x = b.1
      · obtain ⟨rfl, rfl⟩ := hb
        have hva : a.isValidPosition b.1 b.2 = true := by
          rw [isValidPosition_of_size g a ha.1]; exact hv
        have hm := markFirebreak_valid a b.1 b.2 hva
        refine ⟨hm.1, ?_⟩
        rw [hm.2, ha.2.2]
      · have hm := markFirebreak_other a b.1 b.2 y x hb
        show (a.markFirebreak b.1 b.2).cells y x = _ ∧ _
        rw [hm.1, hm.2]
        exact ha.2
    · intro a ha
      have hsz := markFirebreak_size a x y
      refine ⟨⟨hsz.1.trans ha.1.1, hsz.2.trans ha.1.2⟩, ?_⟩
      have hva : a.isValidPosition x y = true := by
        rw [isValidPosition_of_size g a ha.1]; exact hv
      have hm := markFirebreak_valid a x y hva
      refine ⟨hm.1, ?_⟩
      show (a.markFirebreak x y).suppression_effects y x = _
      rw [hm.2]
      rcases ha.2 with h | h
      · rw [h.2]
      · rw [h.2]
  · intro hno
    unfold Grid.markAll
    refine (foldl_preserves (fun (g : Grid) (p : Int × Int) => g.markFirebreak p.1 p.2)
      (fun a => (a.width = g.width ∧ a.height = g.height) ∧
        (a.cells y x = g.cells y x ∧ a.suppression_effects y x = g.suppression_effects y x))
      ps ?_ g ⟨⟨rfl, rfl⟩, rfl, rfl⟩).2
    intro a b hbm ha
    have hsz := markFirebreak_size a b.1 b.2
    refine ⟨⟨hsz.1.trans ha.1.1, hsz.2.trans ha.1.2⟩, ?_⟩
    by_cases hb : y = b.2 ∧ x = b.1
    · obtain ⟨rfl, rfl⟩ := hb
      have hnv : ¬ a.isValidPosition b.1 b.2 = true := by
        rw [isValidPosition_of_size g a ha.1]
        exact fun hv => hno ⟨hbm, hv⟩
      show (a.markFirebreak b.1 b.2).cells b.2 b.1 = g.cells b.2 b.1 ∧
        (a.markFirebreak b.1 b.2).suppression_effects b.2 b.1 = g.suppression_effects b.2 b.1
      rw [markFirebreak_invalid a b.1 b.2 hnv]
      exact ha.2
    · have hm := markFirebreak_other a b.1 b.2 y x hb
      show (a.markFirebreak b.1 b.2).cells y x = _ ∧ _
      rw [hm.1, hm.2]
      exact ha.2

theorem unit_step_eq (x1 xi a DX : Int) (hxi : xi = 1 ∨ xi = -1) :
    x1 + xi * a = x1 + xi * DX ↔ a = DX := by
  rcases hxi with rfl | rfl <;> constructor <;> intro h <;> omega

/-- The loop of `createFirebreak`, started `a` unit steps along x and `b` unit steps
along y from `(x1, y1)` with the error these steps leave, reaches the `break` after
`(DX − a) + (DY − b)` more steps: it never steps past `x2` or `y2`, it visits some
position in every column between the current one and `x2`, and it ends at
`(x2, y2)`. -/
theorem firebreakTrace_from (x1 y1 x2 y2 xi yi DX DY : Int) (hDX : 0 ≤ DX) (hDY : 0 ≤ DY)
    (hx2 : x2 = x1 + xi * DX) (hy2 : y2 = y1 + yi * DY)
    (hxi : xi = 1 ∨ xi = -1) (hyi : yi = 1 ∨ yi = -1) (n : Nat) :
    ∀ (a b : Int) (fuel : Nat), 0 ≤ a → a ≤ DX → 0 ≤ b → b ≤ DY →
      (DX - a) + (DY - b) = (n : Int) → n + 1 ≤ fuel →
      ∃ ps, Grid.firebreakTrace x2 y2 xi yi (DX * 2) (DY * 2) fuel (x1 + xi * a) (y1 + yi * b)
            (DX - DY - DY * 2 * a + DX * 2 * b) = some ps ∧
        ps.length = n + 1 ∧ (x1 + xi * a, y1 + yi * b) ∈ ps ∧ (x2, y2) ∈ ps ∧
        (∀ a', a ≤ a' → a' ≤ DX →
          ∃ b', b ≤ b' ∧ b' ≤ DY ∧ (x1 + xi * a', y1 + yi * b') ∈ ps) ∧
        (∀ p ∈ ps, ∃ a' b', a ≤ a' ∧ a' ≤ DX ∧ b ≤ b' ∧ b' ≤ DY ∧
          p = (x1 + xi * a', y1 + yi * b')) := by
  induction n with
  | zero =>
    intro a b fuel ha0 ha hb0 hb hn hf
    have haD : a = DX := by omega
    have hbD : b = DY := by omega
    obtain ⟨f, rfl⟩ : ∃ f, fuel = f + 1 := ⟨fuel - 1, by omega⟩
    have hxe : x1 + xi * a = x2 := by rw [hx2, haD]
    have hye : y1 + yi * b = y2 := by rw [hy2, hbD]
    rw [Grid.firebreakTrace, if_pos ⟨hxe, hye⟩]
    refine ⟨[(x1 + xi * a, y1 + yi * b)], rfl, rfl, List.mem_singleton.2 rfl, ?_, ?_, ?_⟩
    · rw [hxe, hye]; exact List.mem_singleton.2 rfl
    · intro a' h1 h2
      have : a' = a := by omega
      subst this
      exact ⟨b, le_refl _, hb, List.mem_singleton.2 rfl⟩
    · intro p hp
      rw [List.mem_singleton] at hp
      exact ⟨a, b, le_refl _, ha, le_refl _, hb, hp⟩
  | succ n ih =>
    intro a b fuel ha0 ha hb0 hb hn hf
    obtain ⟨f, rfl⟩ : ∃ f, fuel = f + 1 := ⟨fuel - 1, by omega⟩
    have hne : ¬ (x1 + xi * a = x2 ∧ y1 + yi * b = y2) := by
      rintro ⟨h1, h2⟩
      rw [hx2, unit_step_eq x1 xi a DX hxi] at h1
      rw [hy2, unit_step_eq y1 yi b DY hyi] at h2
      omega
    rw [Grid.firebreakTrace, if_neg hne]
    by_cases herr : DX - DY - DY * 2 * a + DX * 2 * b > 0
    · rw [if_pos herr]
      have haD : a < DX := by
        by_contra hc
        have haD : a = DX := by omega
        have hbD : 0 ≤ DY - 1 - b := by omega
        subst haD
        nlinarith [mul_nonneg ha0 hbD]
      have e1 : x1 + xi * a + xi = x1 + xi * (a + 1) := by ring
      have e2 : DX - DY - DY * 2 * a + DX * 2 * b - DY * 2 =
          DX - DY - DY * 2 * (a + 1) + DX * 2 * b := by ring
      rw [e1, e2]
      obtain ⟨ps, hps, hlen, hcur, hend, hcol, hall⟩ :=
        ih (a + 1) b f (by omega) (by omega) hb0 hb (by omega) (by omega)
      rw [hps]
      refine ⟨(x1 + xi * a, y1 + yi * b) :: ps, rfl, by simp [hlen], List.mem_cons_self _ _,
        List.mem_cons_of_mem _ hend, ?_, ?_⟩
      · intro a' h1 h2
        by_cases h : a' = a
        · subst h
          exact ⟨b, le_refl _, hb, List.mem_cons_self _ _⟩
        · obtain ⟨b', hb1, hb2, hb3⟩ := hcol a' (by omega) h2
          exact ⟨b', hb1, hb2, List.mem_cons_of_mem _ hb3⟩
      · intro p hp
        rcases List.mem_cons.1 hp with h | h
        · exact ⟨a, b, le_refl _, ha, le_refl _, hb, h⟩
        · obtain ⟨a', b', h1, h2, h3, h4, h5⟩ := hall p h
          exact ⟨a', b', by omega, h2, h3, h4, h5⟩
    · rw [if_neg herr]
      have hbD : b < DY := by
        by_contra hc
        have hbD : b = DY := by omega
        have haD : 0 ≤ DX - 1 - a := by omega
        subst hbD
        nlinarith [mul_nonneg hb0 haD]
      have e1 : y1 + yi * b + yi = y1 + yi * (b + 1) := by ring
      have e2 : DX - DY - DY * 2 * a + DX * 2 * b + DX * 2 =
          DX - DY - DY * 2 * a + DX * 2 * (b + 1) := by ring
      rw [e1, e2]
      obtain ⟨ps, hps, hlen, hcur, hend, hcol, hall⟩ :=
        ih a (b + 1) f ha0 ha (by omega) (by omega) (by omega) (by omega)
      rw [hps]
      refine ⟨(x1 + xi * a, y1 + yi * b) :: ps, rfl, by simp [hlen], List.mem_cons_self _ _,
        List.mem_cons_of_mem _ hend, ?_, ?_⟩
      · intro a' h1 h2
        by_cases h : a' = a
        · subst h
          exact ⟨b, le_refl _, hb, List.mem_cons_self _ _⟩
        · obtain ⟨b', hb1, hb2, hb3⟩ := hcol a' h1 h2
          exact ⟨b', by omega, hb2, List.mem_cons_of_mem _ hb3⟩
      · intro p hp
        rcases List.mem_cons.1 hp with h | h
        · exact ⟨a, b, le_refl _, ha, le_refl _, hb, h⟩
        · obtain ⟨a', b', h1, h2, h3, h4, h5⟩ := hall p h
          exact ⟨a', b', h1, h2, by omega, h4, h5⟩

theorem endpoint_eq (x1 x2 : Int) :
    x2 = x1 + (if x1 < x2 then 1 else -1) * |x2 - x1| := by
  split_ifs with h
  · rw [abs_of_pos (by omega)]; ring
  · rw [abs_of_nonpos (by omega)]; ring

theorem unit_inc (x1 x2 : Int) :
    (if x1 < x2 then (1 : Int) else -1) = 1 ∨ (if x1 < x2 then (1 : Int) else -1) = -1 := by
  split_ifs
  · exact Or.inl rfl
  · exact Or.inr rfl

/-- The loop of `createFirebreak` terminates for all endpoints: the line exists, has
`|x2 − x1| + |y2 − y1| + 1` positions, contains both endpoints, meets every column
between them, and stays within the rectangle they span. -/
theorem firebreakLine_spec (x1 y1 x2 y2 : Int) :
    ∃ ps, Grid.firebreakLine x1 y1 x2 y2 = some ps ∧
      ps.length = (|x2 - x1| + |y2 - y1|).toNat + 1 ∧
      (x1, y1) ∈ ps ∧ (x2, y2) ∈ ps ∧
      (∀ a', 0 ≤ a' → a' ≤ |x2 - x1| →
        ∃ b', 0 ≤ b' ∧ b' ≤ |y2 - y1| ∧
          (x1 + (if x1 < x2 then 1 else -1) * a', y1 + (if y1 < y2 then 1 else -1) * b') ∈ ps) ∧
      (∀ p ∈ ps, ∃ a' b', 0 ≤ a' ∧ a' ≤ |x2 - x1| ∧ 0 ≤ b' ∧ b' ≤ |y2 - y1| ∧
        p = (x1 + (if x1 < x2 then 1 else -1) * a', y1 + (if y1 < y2 then 1 else -1) * b')) := by
  have hDX : 0 ≤ |x2 - x1| := abs_nonneg _
  have hDY : 0 ≤ |y2 - y1| := abs_nonneg _
  have h := firebreakTrace_from x1 y1 x2 y2 (if x1 < x2 then 1 else -1)
    (if y1 < y2 then 1 else -1) |x2 - x1| |y2 - y1| hDX hDY (endpoint_eq x1 x2)
    (endpoint_eq y1 y2) (unit_inc x1 x2) (unit_inc y1 y2) (|x2 - x1| + |y2 - y1|).toNat
    0 0 (Grid.firebreakFuel x1 y1 x2 y2) (le_refl _) hDX (le_refl _) hDY
    (by rw [Int.toNat_of_nonneg (add_nonneg hDX hDY)]; ring) (le_refl _)
  simp only [mul_zero, add_zero, sub_zero] at h
  exact h

/-- The method `createFirebreak` returns for all endpoints, with the loop body run
along the line. -/
theorem createFirebreak_eq (g : Grid) (x1 y1 x2 y2 : Int) :
    g.createFirebreak x1 y1 x2 y2 = (Grid.firebreakLine x1 y1 x2 y2).map g.markAll := by
  unfold Grid.createFirebreak Grid.firebreakLine
  exact firebreakLoop_eq_trace _ _ _ _ _ _ _ _ _ _ _

/-- C19: for all endpoints `createFirebreak` returns; every in-grid position on the
traversed line, both endpoints included, then holds a `ROCK` cell in state `EMPTY`
with density 0 and has `is_firebreak = true`; positions of the line outside the grid
are skipped; at every position that is not an in-grid position of the line the cell
and the whole suppression entry are unchanged, and the size is unchanged. -/
theorem createFirebreak_spec (g : Grid) (x1 y1 x2 y2 : Int) :
    ∃ g' ps, g.createFirebreak x1 y1 x2 y2 = some g' ∧
      Grid.firebreakLine x1 y1 x2 y2 = some ps ∧
      (x1, y1) ∈ ps ∧ (x2, y2) ∈ ps ∧
      (∀ x y : Int,
        ((x, y) ∈ ps ∧ g.isValidPosition x y = true →
          (g'.cells y x).fuel_type = FuelType.ROCK ∧ (g'.cells y x).state = CellState.EMPTY ∧
          (g'.cells y x).fuel_density = 0 ∧
          (g'.suppression_effects y x).is_firebreak = true) ∧
        (¬ ((x, y) ∈ ps ∧ g.isValidPosition x y = true) →
          g'.cells y x = g.cells y x ∧
          g'.suppression_effects y x = g.suppression_effects y x)) ∧
      g'.width = g.width ∧ g'.height = g.height := by
  obtain ⟨ps, hps, _, h1, h2, _, _⟩ := firebreakLine_spec x1 y1 x2 y2
  refine ⟨g.markAll ps, ps, ?_, hps, h1, h2, ?_, (markAll_size g ps).1, (markAll_size g ps).2⟩
  · rw [createFirebreak_eq, hps]; rfl
  · intro x y
    have h := markAll_at g ps x y
    constructor
    · intro hin
      obtain ⟨hc, he⟩ := h.1 hin
      rw [hc, he]
      simp [Cell.ctor]
    · exact h.2

/-- Running the loop body of `createFirebreak` along any list of positions leaves the
two levels and the remaining time of every entry as they were. -/
theorem markAll_levels (g : Grid) (ps : List (Int × Int)) (x y : Int) :
    ((g.markAll ps).suppression_effects y x).water_level =
        (g.suppression_effects y x).water_level ∧
      ((g.markAll ps).suppression_effects y x).retardant_level =
        (g.suppression_effects y x).retardant_level ∧
      ((g.markAll ps).suppression_effects y x).remaining_time =
        (g.suppression_effects y x).remaining_time := by
  have h := markAll_at g ps x y
  by_cases hin : (x, y) ∈ ps ∧ g.isValidPosition x y = true
  · rw [(h.1 hin).2]
    exact ⟨rfl, rfl, rfl⟩
  · rw [(h.2 hin).2]
    exact ⟨rfl, rfl, rfl⟩

/-- Running the loop body of `createFirebreak` never clears a firebreak flag. -/
theorem markAll_flag (g : Grid) (ps : List (Int × Int)) (x y : Int)
    (hf : (g.suppression_effects y x).is_firebreak = true) :
    ((g.markAll ps).suppression_effects y x).is_firebreak = true := by
  have h := markAll_at g ps x y
  by_cases hin : (x, y) ∈ ps ∧ g.isValidPosition x y = true
  · rw [(h.1 hin).2]
  · rw [(h.2 hin).2]; exact hf

/-- The entry at the centre of a 1×1 grid after a water drop of radius 1 on it. -/
theorem waterDrop_centre (e t : ℚ) :
    ((Grid.ctor 1 1).applyWaterDrop Libm.ceil 0 0 1 e t).suppression_effects 0 0 =
      { water_level := max 0 e, retardant_level := 0, remaining_time := max 0 t,
        is_firebreak := false } := by
  have hfire : Grid.depositFires Libm.ceil (Grid.ctor 1 1) 0 0 1 0 0 := by
    refine ⟨by simp [Grid.isValidPosition, Grid.ctor], by norm_num, by norm_num, ?_⟩
    simp [ceil_sqrt_zero]
  have h := (deposit_effect mergeWater mergeWater_idem Libm.ceil (Grid.ctor 1 1) 0 0 1 e t
    0 0).1 hfire
  simp only [add_zero] at h
  rw [applyWaterDrop_eq_deposit, h]
  simp [mergeWater, Grid.depositValue, Grid.ctor, ceil_sqrt_zero]

/-- C20 (the claim fails): after `applyWaterDrop(0, 0, 1, 0.5, 10)` on a 1×1 grid,
`createFirebreak(0, 0, 0, 0)` traverses `(0, 0)` and leaves its water level at 0.5
and its remaining time at 10. -/
theorem createFirebreak_keeps_deposit :
    ∃ g' ps, ((Grid.ctor 1 1).applyWaterDrop Libm.ceil 0 0 1 (1 / 2) 10).createFirebreak
        0 0 0 0 = some g' ∧
      Grid.firebreakLine 0 0 0 0 = some ps ∧ (0, 0) ∈ ps ∧
      ((Grid.ctor 1 1).applyWaterDrop Libm.ceil 0 0 1 (1 / 2) 10).isValidPosition 0 0 = true ∧
      (g'.suppression_effects 0 0).water_level = 1 / 2 ∧
      (g'.suppression_effects 0 0).remaining_time = 10 ∧
      ¬ ((g'.suppression_effects 0 0).water_level = 0 ∧
        (g'.suppression_effects 0 0).retardant_level = 0 ∧
        (g'.suppression_effects 0 0).remaining_time = 0) := by
  obtain ⟨ps, hps, _, h1, _, _, _⟩ := firebreakLine_spec 0 0 0 0
  have hl := markAll_levels ((Grid.ctor 1 1).applyWaterDrop Libm.ceil 0 0 1 (1 / 2) 10) ps 0 0
  rw [waterDrop_centre] at hl
  have hw : ((((Grid.ctor 1 1).applyWaterDrop Libm.ceil 0 0 1 (1 / 2) 10).markAll
      ps).suppression_effects 0 0).water_level = 1 / 2 := by
    rw [hl.1]; norm_num
  have ht : ((((Grid.ctor 1 1).applyWaterDrop Libm.ceil 0 0 1 (1 / 2) 10).markAll
      ps).suppression_effects 0 0).remaining_time = 10 := by
    rw [hl.2.2]; norm_num
  refine ⟨_, ps, ?_, hps, h1, ?_, hw, ht, ?_⟩
  · rw [createFirebreak_eq, hps]; rfl
  · have hfr := deposit_frame mergeWater Libm.ceil (Grid.ctor 1 1) 0 0 1 (1 / 2) 10
    rw [applyWaterDrop_eq_deposit, isValidPosition_congr _ _ hfr]
    simp [Grid.isValidPosition, Grid.ctor]
  · rintro ⟨h0, _, _⟩
    rw [hw] at h0
    norm_num at h0

/-- C20 (amended): `createFirebreak` returns for all endpoints; at every in-grid position
of the traversed line it replaces the cell by `Cell(ROCK, 0, 0)` and sets
`is_firebreak`, and it leaves `water_level`, `retardant_level` and `remaining_time`
of every position, traversed or not, exactly as they were. -/
theorem createFirebreak_keeps_levels (g : Grid) (x1 y1 x2 y2 : Int) :
    ∃ g' ps, g.createFirebreak x1 y1 x2 y2 = some g' ∧
      Grid.firebreakLine x1 y1 x2 y2 = some ps ∧
      ∀ x y : Int,
        (g'.suppression_effects y x).water_level = (g.suppression_effects y x).water_level ∧
        (g'.suppression_effects y x).retardant_level =
          (g.suppression_effects y x).retardant_level ∧
        (g'.suppression_effects y x).remaining_time =
          (g.suppression_effects y x).remaining_time ∧
        ((x, y) ∈ ps ∧ g.isValidPosition x y = true →
          g'.cells y x = Cell.ctor FuelType.ROCK 0 0 ∧
          g'.suppression_effects y x =
            { g.suppression_effects y x with is_firebreak := true }) := by
  obtain ⟨ps, hps, _⟩ := firebreakLine_spec x1 y1 x2 y2
  refine ⟨g.markAll ps, ps, ?_, hps, fun x y => ?_⟩
  · rw [createFirebreak_eq, hps]; rfl
  · have h := markAll_levels g ps x y
    exact ⟨h.1, h.2.1, h.2.2, (markAll_at g ps x y).1⟩

theorem igniteCell_effects (g : Grid) (x y : Int) :
    (g.igniteCell x y).suppression_effects = g.suppression_effects := by
  unfold Grid.igniteCell
  split <;> rfl

theorem update_is_firebreak (m : Libm) (g : Grid) (dt : ℚ) (gen1 gen2 : Rng) (x y : Int) :
    ((g.update m dt gen1 gen2).1.suppression_effects y x).is_firebreak =
      (g.suppression_effects y x).is_firebreak := by
  have h := update_effects m g dt gen1 gen2 x y
  by_cases hv : g.isValidPosition x y = true
  · rw [h.1 hv, decay_is_firebreak]
  · rw [h.2 hv]

theorem deposit_is_firebreak (merge : ℚ → ℚ → SuppressionEffect → SuppressionEffect)
    (hidem : ∀ v t e, merge v t (merge v t e) = merge v t e)
    (hflag : ∀ v t e, (merge v t e).is_firebreak = e.is_firebreak)
    (m : Libm) (g : Grid) (cx cy radius : Int) (e t : ℚ) (x y : Int) :
    ((Grid.deposit merge m g cx cy radius e t).suppression_effects y x).is_firebreak =
      (g.suppression_effects y x).is_firebreak := by
  have hx : cx + (x - cx) = x := by ring
  have hy : cy + (y - cy) = y := by ring
  have h := deposit_effect merge hidem m g cx cy radius e t (x - cx) (y - cy)
  rw [hx, hy] at h
  by_cases hf : Grid.depositFires m g cx cy radius (x - cx) (y - cy)
  · rw [h.1 hf, hflag]
  · rw [h.2 hf]

/-- C18: a position whose `is_firebreak` is true keeps it true through any tick of
`Grid::update`, any `applyWaterDrop`, any `applyRetardant`, any `igniteCell` and any
further `createFirebreak` (which returns for all endpoints). -/
theorem firebreak_flag_permanent (m : Libm) (g : Grid) (x y : Int)
    (h : (g.suppression_effects y x).is_firebreak = true) :
    (∀ (dt : ℚ) (gen1 gen2 : Rng),
      ((g.update m dt gen1 gen2).1.suppression_effects y x).is_firebreak = true) ∧
    (∀ (cx cy radius : Int) (e t : ℚ),
      ((g.applyWaterDrop m cx cy radius e t).suppression_effects y x).is_firebreak = true ∧
      ((g.applyRetardant m cx cy radius e t).suppression_effects y x).is_firebreak = true) ∧
    (∀ ix iy : Int, ((g.igniteCell ix iy).suppression_effects y x).is_firebreak = true) ∧
    (∀ x1 y1 x2 y2 : Int, ∃ g', g.createFirebreak x1 y1 x2 y2 = some g' ∧
      (g'.suppression_effects y x).is_firebreak = true) := by
  refine ⟨?_, ?_, ?_, ?_⟩
  · intro dt gen1 gen2
    rw [update_is_firebreak, h]
  · intro cx cy radius e t
    constructor
    · rw [applyWaterDrop_eq_deposit,
        deposit_is_firebreak mergeWater mergeWater_idem (fun _ _ _ => rfl), h]
    · rw [applyRetardant_eq_deposit,
        deposit_is_firebreak mergeRetardant mergeRetardant_idem (fun _ _ _ => rfl), h]
  · intro ix iy
    rw [igniteCell_effects, h]
  · intro x1 y1 x2 y2
    obtain ⟨ps, hps, _⟩ := firebreakLine_spec x1 y1 x2 y2
    refine ⟨g.markAll ps, ?_, markAll_flag g ps x y h⟩
    rw [createFirebreak_eq, hps]; rfl

theorem firebreak_flag_permanent_witness :
    (firebreakGrid.suppression_effects 1 2).is_firebreak = true ∧
    (∀ (dt : ℚ) (gen1 gen2 : Rng),
      ((firebreakGrid.update Libm.ceil dt gen1 gen2).1.suppression_effects 1 2).is_firebreak =
        true) ∧
    (∀ (cx cy radius : Int) (e t : ℚ),
      ((firebreakGrid.applyWaterDrop Libm.ceil cx cy radius e t).suppression_effects
        1 2).is_firebreak = true ∧
      ((firebreakGrid.applyRetardant Libm.ceil cx cy radius e t).suppression_effects
        1 2).is_firebreak = true) ∧
    (∀ ix iy : Int, ((firebreakGrid.igniteCell ix iy).suppression_effects 1 2).is_firebreak =
      true) ∧
    (∀ x1 y1 x2 y2 : Int, ∃ g', firebreakGrid.createFirebreak x1 y1 x2 y2 = some g' ∧
      (g'.suppression_effects 1 2).is_firebreak = true) :=
  have hf : (firebreakGrid.suppression_effects 1 2).is_firebreak = true := by
    simp [firebreakGrid, Grid.setEffect]
  ⟨hf, firebreak_flag_permanent Libm.ceil firebreakGrid 2 1 hf⟩

/-! ## A firebreak row is never crossed -/

/-- One tick keeps a row of `EMPTY` cells at `y = k` and keeps every in-grid cell with
`y > k` from burning, when both hold before the tick. -/
theorem update_below_row (m : Libm) (g : Grid) (k : Int) (dt : ℚ) (gen1 gen2 : Rng)
    (hrow : ∀ x, g.isValidPosition x k = true → (g.cells k x).state = CellState.EMPTY)
    (hbelow : ∀ x y, g.isValidPosition x y = true → y > k →
      (g.cells y x).state ≠ CellState.BURNING) :
    (∀ x, g.isValidPosition x k = true →
      ((g.update m dt gen1 gen2).1.cells k x).state = CellState.EMPTY) ∧
    (∀ x y, g.isValidPosition x y = true → y > k →
      ((g.update m dt gen1 gen2).1.cells y x).state ≠ CellState.BURNING) := by
  constructor
  · intro x hv
    have he := hrow x hv
    show ((g.writePass dt (g.spreadPass m dt gen1).1 gen2).1.cells k x).state = _
    rw [writePass_cell_unchanged g dt _ gen2 k x (by rw [he]; decide)
      (Or.inr (by simp [Cell.canBurn, he]))]
    exact he
  · intro x y hv hy
    have hnb := hbelow x y hv hy
    have hmark : (g.spreadPass m dt gen1).1 y x = false := by
      by_contra hc
      have hc' : (g.spreadPass m dt gen1).1 y x = true := by simpa using hc
      obtain ⟨sx, sy, hsv, hmax, hsb⟩ := spreadPass_marks m g dt gen1 y x hc'
      have hle : |sy - y| ≤ 1 := by rw [← hmax]; exact le_max_right _ _
      have hsy : k ≤ sy := by
        have := (abs_le.1 hle).1
        omega
      rcases eq_or_lt_of_le hsy with h | h
      · subst h
        rw [hrow sx hsv] at hsb
        exact absurd hsb (by decide)
      · exact hbelow sx sy hsv h hsb
    show ((g.writePass dt (g.spreadPass m dt gen1).1 gen2).1.cells y x).state ≠ _
    rw [writePass_cell_unchanged g dt _ gen2 y x hnb (Or.inl hmark)]
    exact hnb

/-- Any number of ticks keeps a row of `EMPTY` cells at `y = k` and keeps every in-grid
cell with `y > k` from burning. -/
theorem ticks_below_row (m : Libm) (k : Int) (dts : List ℚ) :
    ∀ (s : Grid × Rng × Rng),
      (∀ x, s.1.isValidPosition x k = true → (s.1.cells k x).state = CellState.EMPTY) →
      (∀ x y, s.1.isValidPosition x y = true → y > k →
        (s.1.cells y x).state ≠ CellState.BURNING) →
      ∀ x y, s.1.isValidPosition x y = true → y > k →
        ((Grid.ticks m dts s).1.cells y x).state ≠ CellState.BURNING := by
  induction dts with
  | nil => intro s _ hbelow x y hv hy; exact hbelow x y hv hy
  | cons dt dts ih =>
    intro s hrow hbelow x y hv hy
    have hsz := update_size m s.1 dt s.2.1 s.2.2
    have hval : ∀ x y, (Grid.update m s.1 dt s.2.1 s.2.2).1.isValidPosition x y =
        s.1.isValidPosition x y := fun x y => isValidPosition_of_size s.1 _ hsz x y
    have h := update_below_row m s.1 k dt s.2.1 s.2.2 hrow hbelow
    simp only [Grid.ticks]
    exact ih _ (fun x hx => h.1 x (by rw [← hval]; exact hx))
      (fun x y hx hy => h.2 x y (by rw [← hval]; exact hx) hy) x y
      (by rw [hval]; exact hv) hy

/-- The line of `createFirebreak(0, k, width − 1, k)` contains every in-grid position
of the row `y = k`. -/
theorem row_line_covers (g : Grid) (k : Int) (ps : List (Int × Int))
    (hps : ∀ a', 0 ≤ a' → a' ≤ |g.width - 1 - 0| →
      ∃ b', 0 ≤ b' ∧ b' ≤ |k - k| ∧
        (0 + (if 0 < g.width - 1 then 1 else -1) * a', k + (if k < k then 1 else -1) * b') ∈ ps)
    (x : Int) (hv : g.isValidPosition x k = true) : (x, k) ∈ ps := by
  simp only [Grid.isValidPosition, Bool.and_eq_true, decide_eq_true_eq] at hv
  have hw : |g.width - 1 - 0| = g.width - 1 := by
    rw [abs_of_nonneg (by omega)]; ring
  obtain ⟨b', hb0, hb1, hmem⟩ := hps x (by omega) (by rw [hw]; omega)
  have hb : b' = 0 := by
    rw [sub_self, abs_zero] at hb1
    omega
  subst hb
  by_cases h1 : 0 < g.width - 1
  · simpa [h1] using hmem
  · have hx : x = 0 := by omega
    subst hx
    simpa [h1] using hmem

/-- C11: `createFirebreak(0, k, width − 1, k)` returns and turns every in-grid cell of
the row `y = k` into an `EMPTY` rock cell; if then no in-grid cell with `y > k` is
`BURNING`, none is `BURNING` after any number of ticks, whatever the `dt` and the
samples. -/
theorem firebreak_row_never_crossed (m : Libm) (g : Grid) (k : Int) :
    ∃ g1, g.createFirebreak 0 k (g.width - 1) k = some g1 ∧
      (∀ x y, g1.isValidPosition x y = g.isValidPosition x y) ∧
      (∀ x, g1.isValidPosition x k = true → (g1.cells k x).state = CellState.EMPTY) ∧
      ((∀ x y, g1.isValidPosition x y = true → y > k →
          (g1.cells y x).state ≠ CellState.BURNING) →
        ∀ (dts : List ℚ) (gen1 gen2 : Rng) (x y : Int),
          g1.isValidPosition x y = true → y > k →
          ((Grid.ticks m dts (g1, gen1, gen2)).1.cells y x).state ≠ CellState.BURNING) := by
  obtain ⟨ps, hps, _, _, _, hcol, _⟩ := firebreakLine_spec 0 k (g.width - 1) k
  have hval : ∀ x y, (g.markAll ps).isValidPosition x y = g.isValidPosition x y :=
    fun x y => isValidPosition_of_size g _ (markAll_size g ps) x y
  have hrow : ∀ x, (g.markAll ps).isValidPosition x k = true →
      ((g.markAll ps).cells k x).state = CellState.EMPTY := by
    intro x hv
    rw [hval] at hv
    rw [((markAll_at g ps x k).1 ⟨row_line_covers g k ps hcol x hv, hv⟩).1]
    simp [Cell.ctor]
  refine ⟨g.markAll ps, ?_, hval, hrow, ?_⟩
  · rw [createFirebreak_eq, hps]; rfl
  · intro hbelow dts gen1 gen2 x y hv hy
    exact ticks_below_row m k dts (g.markAll ps, gen1, gen2) hrow hbelow x y hv hy

/-! ## Sequences of calls -/

/-- Every sequence of calls returns. -/
theorem run_returns (m : Libm) (ops : List Op) : ∀ s : Sim, ∃ s', Sim.run m s ops = some s' := by
  induction ops with
  | nil => intro s; exact ⟨s, rfl⟩
  | cons op ops ih =>
    intro s
    have hstep : ∃ s1, s.step m op = some s1 := by
      cases op with
      | igniteCell x y => exact ⟨_, rfl⟩
      | update dt => exact ⟨_, rfl⟩
      | applyWaterDrop x y radius e t => exact ⟨_, rfl⟩
      | applyRetardant x y radius e t => exact ⟨_, rfl⟩
      | createFirebreak x1 y1 x2 y2 =>
        obtain ⟨ps, hps, _⟩ := firebreakLine_spec x1 y1 x2 y2
        refine ⟨{ s with grid := s.grid.markAll ps }, ?_⟩
        simp only [Sim.step, createFirebreak_eq, hps, Option.map_some']
    obtain ⟨s1, hs1⟩ := hstep
    obtain ⟨s', hs'⟩ := ih s1
    exact ⟨s', by simp only [Sim.run, hs1, Option.some_bind, hs']⟩

/-- A property of the grid that every admitted call keeps holds after every sequence
of admitted calls. -/
theorem run_invariant (m : Libm) (P : Grid → Prop) (ok : Op → Prop)
    (hstep : ∀ (s s' : Sim) (op : Op), ok op → P s.grid → s.step m op = some s' → P s'.grid)
    (ops : List Op) :
    ∀ (s s' : Sim), (∀ op ∈ ops, ok op) → P s.grid → Sim.run m s ops = some s' →
      P s'.grid := by
  induction ops with
  | nil =>
    intro s s' _ hP hrun
    simp only [Sim.run, Option.some.injEq] at hrun
    subst hrun
    exact hP
  | cons op ops ih =>
    intro s s' hok hP hrun
    simp only [Sim.run] at hrun
    cases hs : s.step m op with
    | none => rw [hs] at hrun; simp at hrun
    | some s1 =>
      rw [hs, Option.some_bind] at hrun
      exact ih s1 s' (fun o ho => hok o (List.mem_cons_of_mem _ ho))
        (hstep s s1 op (hok op (List.mem_cons_self _ _)) hP hs) hrun

/-- What one call does to a suppression entry: it keeps it, or runs the decay block on
it, or merges a deposit into it (under the guard of the deposit loop), or sets its
firebreak flag. -/
theorem step_effect_cases (m : Libm) (s s' : Sim) (op : Op) (h : s.step m op = some s')
    (x y : Int) :
    s'.grid.suppression_effects y x = s.grid.suppression_effects y x ∨
    (∃ dt, s'.grid.suppression_effects y x = Grid.decay (s.grid.suppression_effects y x) dt) ∨
    (∃ cx cy radius t, Grid.depositFires m s.grid cx cy radius (x - cx) (y - cy) ∧
      (s'.grid.suppression_effects y x =
          mergeWater (Grid.depositValue m radius op.effectiveness (x - cx) (y - cy)) t
            (s.grid.suppression_effects y x) ∨
        s'.grid.suppression_effects y x =
          mergeRetardant (Grid.depositValue m radius op.effectiveness (x - cx) (y - cy)) t
            (s.grid.suppression_effects y x)) ∧
      (op = Op.applyWaterDrop cx cy radius op.effectiveness t ∨
        op = Op.applyRetardant cx cy radius op.effectiveness t)) ∨
    s'.grid.suppression_effects y x =
      { s.grid.suppression_effects y x with is_firebreak := true } := by
  cases op with
  | igniteCell ix iy =>
    simp only [Sim.step, Option.some.injEq] at h
    subst h
    left
    show (s.grid.igniteCell ix iy).suppression_effects y x = _
    rw [igniteCell_effects]
  | update dt =>
    simp only [Sim.step, Option.some.injEq] at h
    subst h
    have hu := update_effects m s.grid dt s.gen1 s.gen2 x y
    by_cases hv : s.grid.isValidPosition x y = true
    · right; left
      exact ⟨dt, hu.1 hv⟩
    · left
      exact hu.2 hv
  | applyWaterDrop cx cy radius e t =>
    simp only [Sim.step, Option.some.injEq] at h
    subst h
    have hx : cx + (x - cx) = x := by ring
    have hy : cy + (y - cy) = y := by ring
    have hd := deposit_effect mergeWater mergeWater_idem m s.grid cx cy radius e t
      (x - cx) (y - cy)
    rw [hx, hy] at hd
    by_cases hf : Grid.depositFires m s.grid cx cy radius (x - cx) (y - cy)
    · right; right; left
      exact ⟨cx, cy, radius, t, hf, Or.inl (hd.1 hf), Or.inl rfl⟩
    · left
      exact hd.2 hf
  | applyRetardant cx cy radius e t =>
    simp only [Sim.step, Option.some.injEq] at h
    subst h
    have hx : cx + (x - cx) = x := by ring
    have hy : cy + (y - cy) = y := by ring
    have hd := deposit_effect mergeRetardant mergeRetardant_idem m s.grid cx cy radius e t
      (x - cx) (y - cy)
    rw [hx, hy] at hd
    by_cases hf : Grid.depositFires m s.grid cx cy radius (x - cx) (y - cy)
    · right; right; left
      exact ⟨cx, cy, radius, t, hf, Or.inr (hd.1 hf), Or.inr rfl⟩
    · left
      exact hd.2 hf
  | createFirebreak x1 y1 x2 y2 =>
    obtain ⟨ps, hps, _⟩ := firebreakLine_spec x1 y1 x2 y2
    simp only [Sim.step, createFirebreak_eq, hps, Option.map_some', Option.some.injEq] at h
    subst h
    have hm := markAll_at s.grid ps x y
    by_cases hin : (x, y) ∈ ps ∧ s.grid.isValidPosition x y = true
    · right; right; right
      exact (hm.1 hin).2
    · left
      exact (hm.2 hin).2

/-- Under the guard of the deposit loop, an effectiveness of at most 1 gives a value of
at most 1, provided `sqrt` is never negative. -/
theorem depositValue_le_one (m : Libm) (hsqrt : ∀ q, 0 ≤ m.sqrt q) (g : Grid)
    (cx cy radius : Int) (e : ℚ) (dx dy : Int) (he : e ≤ 1)
    (hf : Grid.depositFires m g cx cy radius dx dy) :
    Grid.depositValue m radius e dx dy ≤ 1 := by
  obtain ⟨_, ⟨hr1, hr2⟩, _, hd⟩ := hf
  have hr0 : (0 : ℚ) ≤ (radius : ℚ) := by
    have : (0 : Int) ≤ radius := by omega
    exact_mod_cast this
  have hd0 := hsqrt ((dx * dx + dy * dy : Int) : ℚ)
  have hfrac0 : 0 ≤ m.sqrt ((dx * dx + dy * dy : Int) : ℚ) / (radius : ℚ) :=
    div_nonneg hd0 hr0
  have hfrac1 : m.sqrt ((dx * dx + dy * dy : Int) : ℚ) / (radius : ℚ) ≤ 1 := by
    rcases eq_or_lt_of_le hr0 with h | h
    · rw [← h, div_zero]; exact zero_le_one
    · exact (div_le_one h).2 hd
  unfold Grid.depositValue
  nlinarith [mul_nonneg (sub_nonneg.2 he) (sub_nonneg.2 hfrac1)]

theorem decay_levels (e : SuppressionEffect) (dt : ℚ) :
    ((Grid.decay e dt).water_level = e.water_level ∧
        (Grid.decay e dt).retardant_level = e.retardant_level) ∨
      ((Grid.decay e dt).water_level = 0 ∧ (Grid.decay e dt).retardant_level = 0) := by
  unfold Grid.decay
  dsimp only
  split_ifs
  · exact Or.inr ⟨rfl, rfl⟩
  · exact Or.inl ⟨rfl, rfl⟩
  · exact Or.inl ⟨rfl, rfl⟩

/-- C15 (the claim fails): `applyWaterDrop(0, 0, 1, 5.0, 10)` on a fresh 1×1 grid
leaves the water level 5 at `(0, 0)`: nothing clamps it. -/
theorem level_not_clamped :
    ∃ s', Sim.run Libm.ceil { grid := Grid.ctor 1 1, gen1 := Rng.zeros, gen2 := Rng.zeros }
        [Op.applyWaterDrop 0 0 1 5 10] = some s' ∧
      (s'.grid.suppression_effects 0 0).water_level = 5 ∧
      ¬ ((s'.grid.suppression_effects 0 0).water_level ≤ 1) := by
  refine ⟨_, rfl, ?_, ?_⟩
  · show (((Grid.ctor 1 1).applyWaterDrop Libm.ceil 0 0 1 5 10).suppression_effects 0 0).water_level = 5
    rw [waterDrop_centre]
    norm_num
  · show ¬ ((((Grid.ctor 1 1).applyWaterDrop Libm.ceil 0 0 1 5 10).suppression_effects
      0 0).water_level ≤ 1)
    rw [waterDrop_centre]
    norm_num

/-- C15 (amended): starting from a freshly constructed grid, after any sequence of
calls in which every `applyWaterDrop` / `applyRetardant` passes an effectiveness of at
most 1 (with a `sqrt` that is never negative), every water level and every retardant
level lies in `[0, 1]`. -/
theorem levels_in_unit_interval (m : Libm) (hsqrt : ∀ q, 0 ≤ m.sqrt q) (w h : Int)
    (gen1 gen2 : Rng) (ops : List Op) (s' : Sim)
    (he : ∀ op ∈ ops, op.effectiveness ≤ 1)
    (hrun : Sim.run m { grid := Grid.ctor w h, gen1 := gen1, gen2 := gen2 } ops = some s') :
    ∀ y x : Int,
      0 ≤ (s'.grid.suppression_effects y x).water_level ∧
      (s'.grid.suppression_effects y x).water_level ≤ 1 ∧
      0 ≤ (s'.grid.suppression_effects y x).retardant_level ∧
      (s'.grid.suppression_effects y x).retardant_level ≤ 1 := by
  refine run_invariant m
    (fun g => ∀ y x : Int,
      0 ≤ (g.suppression_effects y x).water_level ∧
      (g.suppression_effects y x).water_level ≤ 1 ∧
      0 ≤ (g.suppression_effects y x).retardant_level ∧
      (g.suppression_effects y x).retardant_level ≤ 1)
    (fun op => op.effectiveness ≤ 1) ?_ ops _ s' he ?_ hrun
  · intro s s1 op hop hP hs y x
    obtain ⟨p1, p2, p3, p4⟩ := hP y x
    rcases step_effect_cases m s s1 op hs x y with h | ⟨dt, h⟩ | ⟨cx, cy, radius, t, hf, h, _⟩ | h
    · rw [h]; exact ⟨p1, p2, p3, p4⟩
    · rw [h]
      rcases decay_levels (s.grid.suppression_effects y x) dt with ⟨h1, h2⟩ | ⟨h1, h2⟩
      · rw [h1, h2]; exact ⟨p1, p2, p3, p4⟩
      · rw [h1, h2]; exact ⟨le_refl _, zero_le_one, le_refl _, zero_le_one⟩
    · have hv := depositValue_le_one m hsqrt s.grid cx cy radius op.effectiveness
        (x - cx) (y - cy) hop hf
      rcases h with h | h
      · rw [h]
        exact ⟨le_trans p1 (le_max_left _ _), max_le p2 hv, p3, p4⟩
      · rw [h]
        exact ⟨p1, p2, le_trans p3 (le_max_left _ _), max_le p4 hv⟩
    · rw [h]; exact ⟨p1, p2, p3, p4⟩
  · intro y x
    simp [Grid.ctor]

theorem levels_in_unit_interval_witness :
    ∃ s', Sim.run Libm.ceil { grid := Grid.ctor 1 1, gen1 := Rng.zeros, gen2 := Rng.zeros }
        [Op.applyWaterDrop 0 0 1 1 10, Op.update 1, Op.createFirebreak 0 0 0 0,
          Op.applyRetardant 0 0 1 (1 / 2) 5] = some s' ∧
      ∀ y x : Int,
        0 ≤ (s'.grid.suppression_effects y x).water_level ∧
        (s'.grid.suppression_effects y x).water_level ≤ 1 ∧
        0 ≤ (s'.grid.suppression_effects y x).retardant_level ∧
        (s'.grid.suppression_effects y x).retardant_level ≤ 1 := by
  obtain ⟨s', hs'⟩ := run_returns Libm.ceil
    [Op.applyWaterDrop 0 0 1 1 10, Op.update 1, Op.createFirebreak 0 0 0 0,
      Op.applyRetardant 0 0 1 (1 / 2) 5]
    { grid := Grid.ctor 1 1, gen1 := Rng.zeros, gen2 := Rng.zeros }
  refine ⟨s', hs', levels_in_unit_interval Libm.ceil ?_ 1 1 Rng.zeros Rng.zeros _ s' ?_ hs'⟩
  · intro q
    simp [Libm.ceil]
  · intro op hop
    simp only [List.mem_cons, List.mem_singleton, List.not_mem_nil, or_false] at hop
    rcases hop with rfl | rfl | rfl | rfl <;> norm_num [Op.effectiveness]

/-- C17 (the claim fails): `applyWaterDrop(0, 0, 1, 1.0, 0.0)` on a fresh 1×1 grid
leaves at `(0, 0)` an entry with `remaining_time = 0` and `water_level = 1`. -/
theorem elapsed_entry_with_level :
    ∃ s', Sim.run Libm.ceil { grid := Grid.ctor 1 1, gen1 := Rng.zeros, gen2 := Rng.zeros }
        [Op.applyWaterDrop 0 0 1 1 0] = some s' ∧
      (s'.grid.suppression_effects 0 0).remaining_time ≤ 0 ∧
      (s'.grid.suppression_effects 0 0).water_level = 1 ∧
      ¬ ((s'.grid.suppression_effects 0 0).water_level = 0 ∧
        (s'.grid.suppression_effects 0 0).retardant_level = 0) := by
  have h : ((Grid.ctor 1 1).applyWaterDrop Libm.ceil 0 0 1 1 0).suppression_effects 0 0 =
      { water_level := 1, retardant_level := 0, remaining_time := 0, is_firebreak := false } := by
    rw [waterDrop_centre]
    norm_num
  refine ⟨_, rfl, ?_, ?_, ?_⟩
  · show (((Grid.ctor 1 1).applyWaterDrop Libm.ceil 0 0 1 1 0).suppression_effects
      0 0).remaining_time ≤ 0
    rw [h]
  · show (((Grid.ctor 1 1).applyWaterDrop Libm.ceil 0 0 1 1 0).suppression_effects
      0 0).water_level = 1
    rw [h]
  · show ¬ ((((Grid.ctor 1 1).applyWaterDrop Libm.ceil 0 0 1 1 0).suppression_effects
        0 0).water_level = 0 ∧
      (((Grid.ctor 1 1).applyWaterDrop Libm.ceil 0 0 1 1 0).suppression_effects
        0 0).retardant_level = 0)
    rw [h]
    norm_num

/-- C17 (amended): in every grid reached from a freshly constructed grid by a sequence
of calls in which every `applyWaterDrop` / `applyRetardant` passes a duration greater
than 0, every suppression entry whose `remaining_time` is `≤ 0` has both levels 0. -/
theorem elapsed_entries_are_clear (m : Libm) (w h : Int) (gen1 gen2 : Rng) (ops : List Op)
    (s' : Sim) (ht : ∀ op ∈ ops, op.positiveDuration)
    (hrun : Sim.run m { grid := Grid.ctor w h, gen1 := gen1, gen2 := gen2 } ops = some s') :
    ∀ y x : Int, (s'.grid.suppression_effects y x).remaining_time ≤ 0 →
      (s'.grid.suppression_effects y x).water_level = 0 ∧
      (s'.grid.suppression_effects y x).retardant_level = 0 := by
  refine run_invariant m
    (fun g => ∀ y x : Int, (g.suppression_effects y x).remaining_time ≤ 0 →
      (g.suppression_effects y x).water_level = 0 ∧
      (g.suppression_effects y x).retardant_level = 0)
    (fun op => op.positiveDuration) ?_ ops _ s' ht ?_ hrun
  · intro s s1 op hop hP hs y x
    rcases step_effect_cases m s s1 op hs x y with h | ⟨dt, h⟩ | ⟨cx, cy, radius, t, _, h, hopeq⟩ | h
    · rw [h]; exact hP y x
    · rw [h]; exact decay_elapsed _ dt (hP y x)
    · have htpos : 0 < t := by
        rcases hopeq with h1 | h1
        · rw [h1] at hop; exact hop
        · rw [h1] at hop; exact hop
      intro hle
      exfalso
      rcases h with h | h
      · rw [h] at hle
        exact absurd (lt_of_lt_of_le htpos (le_max_right _ _)) (not_lt.2 hle)
      · rw [h] at hle
        exact absurd (lt_of_lt_of_le htpos (le_max_right _ _)) (not_lt.2 hle)
    · rw [h]; exact hP y x
  · intro y x _
    simp [Grid.ctor]

theorem elapsed_entries_are_clear_witness :
    ∃ s', Sim.run Libm.ceil { grid := Grid.ctor 1 1, gen1 := Rng.zeros, gen2 := Rng.zeros }
        [Op.applyWaterDrop 0 0 1 1 10, Op.update 4, Op.update 6,
          Op.createFirebreak 0 0 0 0] = some s' ∧
      ∀ y x : Int, (s'.grid.suppression_effects y x).remaining_time ≤ 0 →
        (s'.grid.suppression_effects y x).water_level = 0 ∧
        (s'.grid.suppression_effects y x).retardant_level = 0 := by
  obtain ⟨s', hs'⟩ := run_returns Libm.ceil
    [Op.applyWaterDrop 0 0 1 1 10, Op.update 4, Op.update 6, Op.createFirebreak 0 0 0 0]
    { grid := Grid.ctor 1 1, gen1 := Rng.zeros, gen2 := Rng.zeros }
  refine ⟨s', hs', elapsed_entries_are_clear Libm.ceil 1 1 Rng.zeros Rng.zeros _ s' ?_ hs'⟩
  intro op hop
  simp only [List.mem_cons, List.mem_singleton, List.not_mem_nil, or_false] at hop
  rcases hop with rfl | rfl | rfl | rfl <;> simp [Op.positiveDuration]

/-! ## igniteCell -/

theorem setCell_same (g : Grid) (y x : Int) : g.setCell y x (g.cells y x) = g := by
  have h : (fun y' x' => if y' = y ∧ x' = x then g.cells y x else g.cells y' x') = g.cells := by
    funext y' x'
    split_ifs with hc
    · rw [hc.1, hc.2]
    · rfl
  cases g
  simp only [Grid.setCell, Grid.mk.injEq, true_and, and_true]
  exact h

/-- C21: `igniteCell(x, y)` leaves the whole grid unchanged when `(x, y)` is outside
the grid or its cell does not satisfy `canBurn()`; otherwise the cell at `(x, y)`
becomes `BURNING` with burn time 0 and temperature 300 (fuel fields kept) and every
other cell, the suppression field, the size and the ambient values are unchanged. -/
theorem igniteCell_spec (g : Grid) (x y : Int) :
    (g.isValidPosition x y = false → g.igniteCell x y = g) ∧
    (g.isValidPosition x y = true → (g.cells y x).canBurn = false → g.igniteCell x y = g) ∧
    (g.isValidPosition x y = true → (g.cells y x).canBurn = true →
      (g.igniteCell x y).cells y x =
        { g.cells y x with state := CellState.BURNING, burn_time := 0, temperature := 300 } ∧
      (∀ y' x' : Int, ¬ (y' = y ∧ x' = x) → (g.igniteCell x y).cells y' x' = g.cells y' x') ∧
      (g.igniteCell x y).suppression_effects = g.suppression_effects ∧
      (g.igniteCell x y).width = g.width ∧ (g.igniteCell x y).height = g.height ∧
      (g.igniteCell x y).wind_speed = g.wind_speed ∧
      (g.igniteCell x y).wind_direction = g.wind_direction ∧
      (g.igniteCell x y).ambient_temp = g.ambient_temp ∧
      (g.igniteCell x y).humidity = g.humidity) := by
  refine ⟨?_, ?_, ?_⟩
  · intro hv
    simp [Grid.igniteCell, hv]
  · intro hv hc
    simp only [Grid.igniteCell, hv, if_true, ignite_of_not_canBurn _ hc]
    exact setCell_same g y x
  · intro hv hc
    simp only [Grid.igniteCell, hv, if_true]
    refine ⟨?_, ?_, rfl, rfl, rfl, rfl, rfl, rfl, rfl⟩
    · rw [setCell_cells_self]
      simp [Cell.ignite, hc]
    · intro y' x' hne
      exact setCell_cells_other _ _ _ _ _ _ hne

/-! ## Ignition probability, display character, non-flammable cells -/

/-- C22: `getIgnitionProbability()` is 0 when `canBurn()` is false and otherwise
`min(1, max(0, density × typeFactor × (1 − 0.8 × moisture) × (1 + max(0, temperature −
50)/100)))` with type factor 1.2 / 1.0 / 0.8 for grass / shrub / tree; it always lies
in `[0, 1]`. -/
theorem getIgnitionProbability_spec (c : Cell) :
    (c.canBurn = false → c.getIgnitionProbability = 0) ∧
    (c.canBurn = true →
      (c.fuel_type = FuelType.GRASS ∨ c.fuel_type = FuelType.SHRUB ∨
        c.fuel_type = FuelType.TREE) ∧
      (c.fuel_type = FuelType.GRASS → c.getIgnitionProbability =
        min 1 (max 0 (c.fuel_density * 1.2 * (1 - 0.8 * c.moisture) *
          (1 + max 0 (c.temperature - 50) / 100)))) ∧
      (c.fuel_type = FuelType.SHRUB → c.getIgnitionProbability =
        min 1 (max 0 (c.fuel_density * 1.0 * (1 - 0.8 * c.moisture) *
          (1 + max 0 (c.temperature - 50) / 100)))) ∧
      (c.fuel_type = FuelType.TREE → c.getIgnitionProbability =
        min 1 (max 0 (c.fuel_density * 0.8 * (1 - 0.8 * c.moisture) *
          (1 + max 0 (c.temperature - 50) / 100))))) ∧
    0 ≤ c.getIgnitionProbability ∧ c.getIgnitionProbability ≤ 1 := by
  have htemp : ∀ b : ℚ, (if c.temperature > 50 then b * (1 + (c.temperature - 50) / 100) else b) =
      b * (1 + max 0 (c.temperature - 50) / 100) := by
    intro b
    split_ifs with h
    · rw [max_eq_right (by linarith)]
    · rw [max_eq_left (by linarith)]
      ring
  refine ⟨?_, ?_, ?_, ?_⟩
  · intro hc
    simp [Cell.getIgnitionProbability, hc]
  · intro hc
    have hc' := hc
    simp only [Cell.canBurn, Bool.and_eq_true, decide_eq_true_eq] at hc'
    obtain ⟨⟨⟨_, hw⟩, hr⟩, _⟩ := hc'
    refine ⟨?_, ?_, ?_, ?_⟩
    · cases hft : c.fuel_type
      · exact Or.inl rfl
      · exact Or.inr (Or.inl rfl)
      · exact Or.inr (Or.inr rfl)
      · exact absurd hft hw
      · exact absurd hft hr
    · intro hft
      simp only [Cell.getIgnitionProbability, hc, Bool.not_true, Bool.false_eq_true, if_false,
        hft, htemp]
      congr 2
      ring
    · intro hft
      simp only [Cell.getIgnitionProbability, hc, Bool.not_true, Bool.false_eq_true, if_false,
        hft, htemp]
      congr 2
      ring
    · intro hft
      simp only [Cell.getIgnitionProbability, hc, Bool.not_true, Bool.false_eq_true, if_false,
        hft, htemp]
      congr 2
      ring
  · unfold Cell.getIgnitionProbability
    dsimp only
    split_ifs
    all_goals first
      | exact le_refl 0
      | exact le_min zero_le_one (le_max_left _ _)
  · unfold Cell.getIgnitionProbability
    dsimp only
    split_ifs
    all_goals first
      | exact zero_le_one
      | exact min_le_left _ _

/-- C23: a cell constructed with fuel type `WATER` or `ROCK` (any density and moisture)
is `EMPTY` with density 0, and after any sequence of `ignite()` and `update(dt)` calls
it is the same cell: still `EMPTY`, with `canBurn()` false and ignition probability 0. -/
theorem nonflammable_forever (ft : FuelType) (d m : ℚ) (ops : List CellOp)
    (hft : ft = FuelType.WATER ∨ ft = FuelType.ROCK) :
    (Cell.ctor ft d m).state = CellState.EMPTY ∧ (Cell.ctor ft d m).fuel_density = 0 ∧
    (Cell.ctor ft d m).applyAll ops = Cell.ctor ft d m ∧
    ((Cell.ctor ft d m).applyAll ops).state = CellState.EMPTY ∧
    ((Cell.ctor ft d m).applyAll ops).canBurn = false ∧
    ((Cell.ctor ft d m).applyAll ops).getIgnitionProbability = 0 := by
  have hs : (Cell.ctor ft d m).state = CellState.EMPTY := by
    simp [Cell.ctor, hft]
  have hd : (Cell.ctor ft d m).fuel_density = 0 := by
    simp [Cell.ctor, hft]
  have hc : (Cell.ctor ft d m).canBurn = false := by
    simp [Cell.canBurn, hs]
  have hall : (Cell.ctor ft d m).applyAll ops = Cell.ctor ft d m := by
    unfold Cell.applyAll
    refine foldl_preserves Cell.apply (fun c => c = Cell.ctor ft d m) ops ?_ _ rfl
    intro a op _ ha
    subst ha
    cases op with
    | ignite => exact ignite_of_not_canBurn _ hc
    | update dt => exact update_of_not_burning _ dt (by rw [hs]; decide)
  refine ⟨hs, hd, hall, ?_, ?_, ?_⟩
  · rw [hall]; exact hs
  · rw [hall]; exact hc
  · rw [hall]; simp [Cell.getIgnitionProbability, hc]

theorem nonflammable_forever_witness :
    (Cell.ctor FuelType.WATER 0.9 0.2).state = CellState.EMPTY ∧
    (Cell.ctor FuelType.WATER 0.9 0.2).fuel_density = 0 ∧
    (Cell.ctor FuelType.WATER 0.9 0.2).applyAll
        [CellOp.ignite, CellOp.update 1, CellOp.ignite, CellOp.update 100] =
      Cell.ctor FuelType.WATER 0.9 0.2 ∧
    ((Cell.ctor FuelType.WATER 0.9 0.2).applyAll
        [CellOp.ignite, CellOp.update 1, CellOp.ignite, CellOp.update 100]).state =
      CellState.EMPTY ∧
    ((Cell.ctor FuelType.WATER 0.9 0.2).applyAll
        [CellOp.ignite, CellOp.update 1, CellOp.ignite, CellOp.update 100]).canBurn = false ∧
    ((Cell.ctor FuelType.WATER 0.9 0.2).applyAll
        [CellOp.ignite, CellOp.update 1, CellOp.ignite,
          CellOp.update 100]).getIgnitionProbability = 0 :=
  nonflammable_forever FuelType.WATER 0.9 0.2
    [CellOp.ignite, CellOp.update 1, CellOp.ignite, CellOp.update 100] (Or.inl rfl)

/-- C28: `getDisplayChar` depends on the state and the fuel type only: `*` for
`BURNING`, `x` for `BURNED`, `~` for `EMPTY` water, `#` for `EMPTY` rock, a blank for
any other `EMPTY` cell, and for `FUEL` cells `.` for grass, `o` for shrub, `T` for
tree; two cells with the same state and fuel type get the same character. -/
theorem getDisplayChar_spec :
    (∀ c : Cell, c.state = CellState.BURNING → c.getDisplayChar = '*') ∧
    (∀ c : Cell, c.state = CellState.BURNED → c.getDisplayChar = 'x') ∧
    (∀ c : Cell, c.state = CellState.EMPTY → c.fuel_type = FuelType.WATER →
      c.getDisplayChar = '~') ∧
    (∀ c : Cell, c.state = CellState.EMPTY → c.fuel_type = FuelType.ROCK →
      c.getDisplayChar = '#') ∧
    (∀ c : Cell, c.state = CellState.EMPTY → c.fuel_type ≠ FuelType.WATER →
      c.fuel_type ≠ FuelType.ROCK → c.getDisplayChar = ' ') ∧
    (∀ c : Cell, c.state = CellState.FUEL → c.fuel_type = FuelType.GRASS →
      c.getDisplayChar = '.') ∧
    (∀ c : Cell, c.state = CellState.FUEL → c.fuel_type = FuelType.SHRUB →
      c.getDisplayChar = 'o') ∧
    (∀ c : Cell, c.state = CellState.FUEL → c.fuel_type = FuelType.TREE →
      c.getDisplayChar = 'T') ∧
    (∀ c c' : Cell, c.state = c'.state → c.fuel_type = c'.fuel_type →
      c.getDisplayChar = c'.getDisplayChar) := by
  refine ⟨?_, ?_, ?_, ?_, ?_, ?_, ?_, ?_, ?_⟩
  · intro c h; simp [Cell.getDisplayChar, h]
  · intro c h; simp [Cell.getDisplayChar, h]
  · intro c h h'; simp [Cell.getDisplayChar, h, h']
  · intro c h h'; simp [Cell.getDisplayChar, h, h']
  · intro c h h1 h2; simp [Cell.getDisplayChar, h, h1, h2]
  · intro c h h'; simp [Cell.getDisplayChar, h, h']
  · intro c h h'; simp [Cell.getDisplayChar, h, h']
  · intro c h h'; simp [Cell.getDisplayChar, h, h']
  · intro c c' h h'
    simp only [Cell.getDisplayChar, h, h']

/-! ## Temperature after ignition -/

/-- C24 (the code at a failing input): a `GRASS` cell with density 1.0 and moisture
0.0 is at 300 after `ignite()`, and one `update(1.0)` later it is still `BURNING`
at `300 × (1 − 1/30) + 20 = 310`: the temperature exceeds 300 and has increased. -/
theorem temperature_rises_after_ignite :
    (Cell.ctor FuelType.GRASS 1 0).canBurn = true ∧
    ((Cell.ctor FuelType.GRASS 1 0).ignite).temperature = 300 ∧
    (((Cell.ctor FuelType.GRASS 1 0).ignite).update 1).state = CellState.BURNING ∧
    (((Cell.ctor FuelType.GRASS 1 0).ignite).update 1).temperature = 310 ∧
    (((Cell.ctor FuelType.GRASS 1 0).ignite).update 1).temperature > 300 ∧
    (((Cell.ctor FuelType.GRASS 1 0).ignite).update 1).temperature >
      ((Cell.ctor FuelType.GRASS 1 0).ignite).temperature := by
  have hi := ignite_ctor FuelType.GRASS 1 0 (by decide) (by norm_num)
  have hc : (Cell.ctor FuelType.GRASS 1 0).canBurn = true := by
    simp [Cell.canBurn, Cell.ctor]; norm_num
  have hu : (((Cell.ctor FuelType.GRASS 1 0).ignite).update 1) =
      { state := CellState.BURNING, fuel_type := FuelType.GRASS, fuel_density := 1,
        moisture := 0, temperature := 310, burn_time := 1 } := by
    rw [hi]
    simp [Cell.update, Cell.baseDuration]
    norm_num
  refine ⟨hc, by rw [hi], by rw [hu], by rw [hu], by rw [hu]; norm_num, ?_⟩
  rw [hu, hi]
  norm_num

/-! ## Wind never decelerates spread -/

theorem getIgnitionProbability_nonneg (c : Cell) : 0 ≤ c.getIgnitionProbability := by
  unfold Cell.getIgnitionProbability
  dsimp only
  split_ifs
  all_goals first
    | exact le_refl 0
    | exact le_min zero_le_one (le_max_left _ _)

/-- Scaling a non-negative base by a factor of at least 1 before the remaining factors
are applied never lowers the clamped value. -/
theorem clamp_scaled (b f c : ℚ) (hb : 0 ≤ b) (hf : 1 ≤ f) :
    min 1 (max 0 (b * c)) ≤ min 1 (max 0 (b * f * c)) := by
  by_cases hc : 0 ≤ c
  · have h : b * c ≤ b * f * c := by nlinarith [mul_nonneg hb hc]
    exact min_le_min (le_refl _) (max_le_max (le_refl _) h)
  · have hneg : b * c ≤ 0 := by nlinarith
    rw [max_eq_left hneg]
    exact le_min (min_le_left _ _ |>.trans' (le_min zero_le_one (le_refl _)))
      ((min_le_right _ _).trans (le_max_left _ _))

theorem clamp_wind (b w we d T S : ℚ) (hb : 0 ≤ b) (hw : 0 ≤ w) (hwe : 0 < we) :
    min 1 (max 0 (b * (1 + 0 * we * 0.1) / d * T * S)) ≤
      min 1 (max 0 (b * (1 + w * we * 0.1) / d * T * S)) := by
  have h1 : b * (1 + 0 * we * 0.1) / d * T * S = b * (d⁻¹ * T * S) := by ring
  have h2 : b * (1 + w * we * 0.1) / d * T * S = b * (1 + w * we * 0.1) * (d⁻¹ * T * S) := by
    ring
  rw [h1, h2]
  exact clamp_scaled b _ _ hb (by nlinarith [mul_nonneg hw (le_of_lt hwe)])

/-- C25: for every grid, every pair of positions, every wind direction and every wind
speed `≥ 0`, the value of `calculateSpreadProbability` is at least the value in the
same grid with the wind speed set to 0. -/
theorem wind_never_decelerates (m : Libm) (g : Grid) (from_x from_y to_x to_y : Int)
    (hws : g.wind_speed ≥ 0) :
    Grid.calculateSpreadProbability m { g with wind_speed := 0 } from_x from_y to_x to_y ≤
      g.calculateSpreadProbability m from_x from_y to_x to_y := by
  have hb : 0 ≤ (g.cells to_y to_x).getIgnitionProbability * 0.1 :=
    mul_nonneg (getIgnitionProbability_nonneg _) (by norm_num)
  simp only [Grid.calculateSpreadProbability, Grid.getSuppressionModifier, Grid.isValidPosition]
  split_ifs with h1 h2 h3 h4
  all_goals first
    | exact le_refl _
    | exact clamp_wind _ _ _ _ _ _ hb hws (by assumption)

theorem wind_never_decelerates_witness :
    Grid.calculateSpreadProbability Libm.standIn { windBiasGrid 0.8 with wind_speed := 0 }
        1 1 1 2 ≤
      (windBiasGrid 0.8).calculateSpreadProbability Libm.standIn 1 1 1 2 :=
  wind_never_decelerates Libm.standIn (windBiasGrid 0.8) 1 1 1 2 (by
    have h : (windBiasGrid 0.8).wind_speed = 10 := by
      unfold windBiasGrid Grid.igniteCell
      split <;> rfl
    rw [h]
    norm_num)

/-! ## getNeighbors -/

theorem ite_singleton_append {α : Type} (c : Prop) [Decidable c] (a : α) (l : List α) :
    (if c then [a] else []) ++ l = if c then a :: l else l := by
  split_ifs <;> rfl

/-- The list built by `getNeighbors` is the list of the eight candidates, in loop
order, filtered by `isValidPosition`. -/
theorem getNeighbors_eq_filter (g : Grid) (x y : Int) :
    g.getNeighbors x y =
      (Grid.neighborOffsets.map fun d => (x + d.1, y + d.2)).filter
        fun p => g.isValidPosition p.1 p.2 := by
  simp only [Grid.getNeighbors, Grid.neighborOffsets, List.flatMap_cons, List.flatMap_nil,
    List.map_cons, List.map_nil, List.filter_cons, List.filter_nil, List.append_nil,
    List.append_assoc]
  norm_num [ite_singleton_append]

theorem mem_getNeighbors_of_adjacent (g : Grid) (x y nx ny : Int)
    (hv : g.isValidPosition nx ny = true) (hd : max |nx - x| |ny - y| = 1) :
    (nx, ny) ∈ g.getNeighbors x y := by
  have hx := abs_le.1 (le_trans (le_max_left |nx - x| |ny - y|) (le_of_eq hd))
  have hy := abs_le.1 (le_trans (le_max_right |nx - x| |ny - y|) (le_of_eq hd))
  have hx3 : nx - x = -1 ∨ nx - x = 0 ∨ nx - x = 1 := by omega
  have hy3 : ny - y = -1 ∨ ny - y = 0 ∨ ny - y = 1 := by omega
  rw [getNeighbors_eq_filter, List.mem_filter]
  refine ⟨List.mem_map.2 ⟨(nx - x, ny - y), ?_, by simp⟩, hv⟩
  rcases hx3 with h1 | h1 | h1 <;> rcases hy3 with h2 | h2 | h2 <;>
    simp [Grid.neighborOffsets, h1, h2] at hd ⊢

/-- C29: `getNeighbors(x, y)` returns, without duplicates, exactly the positions
`(nx, ny)` with `max(|nx − x|, |ny − y|) = 1` that are in the grid; it never contains
`(x, y)`, has at most 8 elements, and exactly 8 for an interior position. -/
theorem getNeighbors_spec (g : Grid) (x y : Int) :
    (∀ nx ny : Int, (nx, ny) ∈ g.getNeighbors x y ↔
      (max |nx - x| |ny - y| = 1 ∧ 0 ≤ nx ∧ nx < g.width ∧ 0 ≤ ny ∧ ny < g.height)) ∧
    (g.getNeighbors x y).Nodup ∧
    (x, y) ∉ g.getNeighbors x y ∧
    (g.getNeighbors x y).length ≤ 8 ∧
    (1 ≤ x ∧ x + 1 < g.width ∧ 1 ≤ y ∧ y + 1 < g.height →
      (g.getNeighbors x y).length = 8) := by
  have hmem : ∀ nx ny : Int, (nx, ny) ∈ g.getNeighbors x y ↔
      (max |nx - x| |ny - y| = 1 ∧ 0 ≤ nx ∧ nx < g.width ∧ 0 ≤ ny ∧ ny < g.height) := by
    intro nx ny
    constructor
    · intro h
      obtain ⟨hv, hd⟩ := mem_getNeighbors g x y nx ny h
      simp only [Grid.isValidPosition, Bool.and_eq_true, decide_eq_true_eq] at hv
      exact ⟨hd, hv.1.1.1, hv.1.1.2, hv.1.2, hv.2⟩
    · rintro ⟨hd, h1, h2, h3, h4⟩
      refine mem_getNeighbors_of_adjacent g x y nx ny ?_ hd
      simp only [Grid.isValidPosition, Bool.and_eq_true, decide_eq_true_eq]
      exact ⟨⟨⟨h1, h2⟩, h3⟩, h4⟩
  refine ⟨hmem, ?_, ?_, ?_, ?_⟩
  · rw [getNeighbors_eq_filter]
    refine List.Nodup.filter _ (List.Nodup.map ?_ (by decide))
    intro a b h
    simp only [Prod.mk.injEq] at h
    exact Prod.ext (by omega) (by omega)
  · intro h
    have := ((hmem x y).1 h).1
    simp at this
  · rw [getNeighbors_eq_filter]
    exact le_trans (List.length_filter_le _ _) (by simp [Grid.neighborOffsets])
  · intro hin
    rw [getNeighbors_eq_filter, List.filter_eq_self.2]
    · simp [Grid.neighborOffsets]
    · intro p hp
      simp only [Grid.neighborOffsets, List.map_cons, List.map_nil, List.mem_cons,
        List.mem_singleton, List.not_mem_nil, or_false] at hp
      simp only [Grid.isValidPosition, Bool.and_eq_true, decide_eq_true_eq]
      rcases hp with rfl | rfl | rfl | rfl | rfl | rfl | rfl | rfl <;>
        exact ⟨⟨⟨by omega, by omega⟩, by omega⟩, by omega⟩

/-! ## The walk of createFirebreak -/

/-- Whenever the loop of `createFirebreak` returns, its trace starts at the start
position, ends at `(x2, y2)`, and each step adds `x_inc` to x or `y_inc` to y. -/
theorem firebreakTrace_chain (x2 y2 x_inc y_inc dx dy : Int) (fuel : Nat) :
    ∀ (x y error : Int) (ps : List (Int × Int)),
      Grid.firebreakTrace x2 y2 x_inc y_inc dx dy fuel x y error = some ps →
      ps.head? = some (x, y) ∧ ps.getLast? = some (x2, y2) ∧
      List.Chain' (fun p q => q = (p.1 + x_inc, p.2) ∨ q = (p.1, p.2 + y_inc)) ps := by
  induction fuel with
  | zero => intro x y error ps h; simp [Grid.firebreakTrace] at h
  | succ fuel ih =>
    intro x y error ps h
    rw [Grid.firebreakTrace] at h
    split_ifs at h with h1 h2
    · simp only [Option.some.injEq] at h
      subst h
      refine ⟨rfl, ?_, List.chain'_singleton _⟩
      rw [h1.1, h1.2]
      rfl
    · cases hrec : Grid.firebreakTrace x2 y2 x_inc y_inc dx dy fuel (x + x_inc) y (error - dy) with
      | none => rw [hrec] at h; simp at h
      | some qs =>
        rw [hrec] at h
        simp only [Option.map_some', Option.some.injEq] at h
        subst h
        obtain ⟨hh, hl, hc⟩ := ih _ _ _ qs hrec
        cases qs with
        | nil => simp at hh
        | cons q rest =>
          simp only [List.head?_cons, Option.some.injEq] at hh
          refine ⟨rfl, ?_, List.chain'_cons.2 ⟨Or.inl hh, hc⟩⟩
          rw [List.getLast?_cons_cons]
          exact hl
    · cases hrec : Grid.firebreakTrace x2 y2 x_inc y_inc dx dy fuel x (y + y_inc) (error + dx) with
      | none => rw [hrec] at h; simp at h
      | some qs =>
        rw [hrec] at h
        simp only [Option.map_some', Option.some.injEq] at h
        subst h
        obtain ⟨hh, hl, hc⟩ := ih _ _ _ qs hrec
        cases qs with
        | nil => simp at hh
        | cons q rest =>
          simp only [List.head?_cons, Option.some.injEq] at hh
          refine ⟨rfl, ?_, List.chain'_cons.2 ⟨Or.inr hh, hc⟩⟩
          rw [List.getLast?_cons_cons]
          exact hl

theorem chain_with_mem {α : Type} (R : α → α → Prop) (S : α → Prop) (l : List α)
    (hc : List.Chain' R l) (hs : ∀ p ∈ l, S p) :
    List.Chain' (fun p q => R p q ∧ S p ∧ S q) l := by
  induction l with
  | nil => exact List.chain'_nil
  | cons a t ih =>
    cases t with
    | nil => exact List.chain'_singleton _
    | cons b t' =>
      obtain ⟨hab, hrest⟩ := List.chain'_cons.1 hc
      exact List.chain'_cons.2
        ⟨⟨hab, hs a (List.mem_cons_self _ _),
          hs b (List.mem_cons_of_mem _ (List.mem_cons_self _ _))⟩,
         ih hrest (fun p hp => hs p (List.mem_cons_of_mem _ hp))⟩

theorem dist_to_end (x1 x2 xi DX a : Int) (hxi : xi = 1 ∨ xi = -1) (hx2 : x2 = x1 + xi * DX)
    (ha : a ≤ DX) : |x2 - (x1 + xi * a)| = DX - a := by
  rcases hxi with rfl | rfl
  · rw [abs_of_nonneg (by omega)]; omega
  · rw [abs_of_nonpos (by omega)]; omega

theorem between_ends (x1 x2 xi DX a : Int) (hxi : xi = 1 ∨ xi = -1) (hx2 : x2 = x1 + xi * DX)
    (ha0 : 0 ≤ a) (ha : a ≤ DX) :
    (x1 ≤ x1 + xi * a ∧ x1 + xi * a ≤ x2) ∨ (x2 ≤ x1 + xi * a ∧ x1 + xi * a ≤ x1) := by
  rcases hxi with rfl | rfl
  · left; constructor <;> omega
  · right; constructor <;> omega

/-- C30: for all endpoints (overflow aside) the loop of `createFirebreak` reaches its
`break`: it visits `|x2 − x1| + |y2 − y1| + 1` positions, that is it takes exactly
`|x2 − x1| + |y2 − y1|` steps, the first position is `(x1, y1)` and the last is
`(x2, y2)`; every step changes exactly one coordinate by exactly one and brings that
coordinate one closer to the endpoint (a 4-connected walk); no position lies beyond
either endpoint coordinate. The method runs its body along this walk. -/
theorem firebreak_walk (x1 y1 x2 y2 : Int) :
    ∃ ps, Grid.firebreakLine x1 y1 x2 y2 = some ps ∧
      (∀ g : Grid, g.createFirebreak x1 y1 x2 y2 = some (g.markAll ps)) ∧
      ps.length = (|x2 - x1| + |y2 - y1|).toNat + 1 ∧
      ps.head? = some (x1, y1) ∧ ps.getLast? = some (x2, y2) ∧
      List.Chain' (fun p q =>
        (q.2 = p.2 ∧ |q.1 - p.1| = 1 ∧ |x2 - q.1| = |x2 - p.1| - 1) ∨
        (q.1 = p.1 ∧ |q.2 - p.2| = 1 ∧ |y2 - q.2| = |y2 - p.2| - 1)) ps ∧
      (∀ p ∈ ps, ((x1 ≤ p.1 ∧ p.1 ≤ x2) ∨ (x2 ≤ p.1 ∧ p.1 ≤ x1)) ∧
        ((y1 ≤ p.2 ∧ p.2 ≤ y2) ∨ (y2 ≤ p.2 ∧ p.2 ≤ y1))) := by
  obtain ⟨ps, hps, hlen, _, _, _, hrect⟩ := firebreakLine_spec x1 y1 x2 y2
  have hxi := unit_inc x1 x2
  have hyi := unit_inc y1 y2
  have hx2 := endpoint_eq x1 x2
  have hy2 := endpoint_eq y1 y2
  have hchain := firebreakTrace_chain x2 y2 (if x1 < x2 then 1 else -1)
    (if y1 < y2 then 1 else -1) (|x2 - x1| * 2) (|y2 - y1| * 2)
    (Grid.firebreakFuel x1 y1 x2 y2) x1 y1 (|x2 - x1| - |y2 - y1|) ps hps
  obtain ⟨hhead, hlast, hc⟩ := hchain
  refine ⟨ps, hps, ?_, hlen, hhead, hlast, ?_, ?_⟩
  · intro g
    rw [createFirebreak_eq, hps]; rfl
  · refine List.Chain'.imp ?_ (chain_with_mem _ _ ps hc hrect)
    rintro p q ⟨hstep, ⟨a, b, ha0, ha, hb0, hb, rfl⟩, ⟨a', b', ha0', ha', hb0', hb', rfl⟩⟩
    simp only [Prod.mk.injEq] at hstep
    rcases hstep with ⟨h1, h2⟩ | ⟨h1, h2⟩
    · left
      have ea : a' = a + 1 := by
        have : x1 + (if x1 < x2 then 1 else -1) * a' =
            x1 + (if x1 < x2 then 1 else -1) * (a + 1) := by rw [h1]; ring
        exact (unit_step_eq x1 _ a' (a + 1) hxi).1 this
      subst ea
      refine ⟨h2, ?_, ?_⟩
      · show |x1 + (if x1 < x2 then 1 else -1) * (a + 1) -
          (x1 + (if x1 < x2 then 1 else -1) * a)| = 1
        rcases hxi with h | h <;> rw [h] <;> norm_num
      · show |x2 - (x1 + (if x1 < x2 then 1 else -1) * (a + 1))| =
          |x2 - (x1 + (if x1 < x2 then 1 else -1) * a)| - 1
        rw [dist_to_end x1 x2 _ _ (a + 1) hxi hx2 ha', dist_to_end x1 x2 _ _ a hxi hx2 ha]
        ring
    · right
      have eb : b' = b + 1 := by
        have : y1 + (if y1 < y2 then 1 else -1) * b' =
            y1 + (if y1 < y2 then 1 else -1) * (b + 1) := by rw [h2]; ring
        exact (unit_step_eq y1 _ b' (b + 1) hyi).1 this
      subst eb
      refine ⟨h1, ?_, ?_⟩
      · show |y1 + (if y1 < y2 then 1 else -1) * (b + 1) -
          (y1 + (if y1 < y2 then 1 else -1) * b)| = 1
        rcases hyi with h | h <;> rw [h] <;> norm_num
      · show |y2 - (y1 + (if y1 < y2 then 1 else -1) * (b + 1))| =
          |y2 - (y1 + (if y1 < y2 then 1 else -1) * b)| - 1
        rw [dist_to_end y1 y2 _ _ (b + 1) hyi hy2 hb', dist_to_end y1 y2 _ _ b hyi hy2 hb]
        ring
  · intro p hp
    obtain ⟨a, b, ha0, ha, hb0, hb, rfl⟩ := hrect p hp
    exact ⟨between_ends x1 x2 _ _ a hxi hx2 ha0 ha, between_ends y1 y2 _ _ b hyi hy2 hb0 hb⟩

/-! ## The extinguishing roll -/

/-- Two folds of the same list whose states are related stay related. -/
theorem foldl_rel {α α' β : Type} (f : α → β → α) (f' : α' → β → α') (R : α → α' → Prop)
    (h : ∀ a a' b, R a a' → R (f a b) (f' a' b)) (l : List β) (a : α) (a' : α')
    (ha : R a a') : R (l.foldl f a) (l.foldl f' a') := by
  induction l generalizing a a' with
  | nil => exact ha
  | cons b l ih => exact ih _ _ (h a a' b ha)

/-- Agreeing generators deliver the same sample and agree afterwards. -/
theorem draw_agree (r r' : Rng) (h : r.agree r') :
    r.draw.1 = r'.draw.1 ∧ r.draw.2.agree r'.draw.2 := by
  constructor
  · exact h 0
  · intro i
    show r.samples (r.pos + 1 + i) = r'.samples (r'.pos + 1 + i)
    rw [Nat.add_assoc, Nat.add_assoc]
    exact h (1 + i)

theorem spreadNeighbor_agree (m : Libm) (g : Grid) (dt : ℚ) (x y : Int)
    (st st' : (Int → Int → Bool) × Rng) (n : Int × Int)
    (h : st.1 = st'.1 ∧ st.2.agree st'.2) :
    (Grid.spreadNeighbor m g dt x y st n).1 = (Grid.spreadNeighbor m g dt x y st' n).1 ∧
      (Grid.spreadNeighbor m g dt x y st n).2.agree (Grid.spreadNeighbor m g dt x y st' n).2 := by
  have hd := draw_agree st.2 st'.2 h.2
  dsimp only [Grid.spreadNeighbor]
  by_cases hc : (g.cells n.2 n.1).canBurn = true
  · rw [if_pos hc, if_pos hc, ← hd.1]
    by_cases hp : st.2.draw.1 < g.calculateSpreadProbability m x y n.1 n.2 * dt
    · rw [if_pos hp, if_pos hp]
      exact ⟨by rw [h.1], hd.2⟩
    · rw [if_neg hp, if_neg hp]
      exact ⟨h.1, hd.2⟩
  · rw [if_neg hc, if_neg hc]
    exact h

theorem spreadCell_agree (m : Libm) (g : Grid) (dt : ℚ)
    (st st' : (Int → Int → Bool) × Rng) (p : Int × Int)
    (h : st.1 = st'.1 ∧ st.2.agree st'.2) :
    (Grid.spreadCell m g dt st p).1 = (Grid.spreadCell m g dt st' p).1 ∧
      (Grid.spreadCell m g dt st p).2.agree (Grid.spreadCell m g dt st' p).2 := by
  dsimp only [Grid.spreadCell]
  by_cases hb : (g.cells p.2 p.1).state = CellState.BURNING
  · rw [if_pos hb, if_pos hb]
    exact foldl_rel (Grid.spreadNeighbor m g dt p.1 p.2) (Grid.spreadNeighbor m g dt p.1 p.2)
      (fun a a' => a.1 = a'.1 ∧ a.2.agree a'.2)
      (fun a a' b hab => spreadNeighbor_agree m g dt p.1 p.2 a a' b hab) _ st st' h
  · rw [if_neg hb, if_neg hb]
    exact h

/-- The first pass marks the same cells under agreeing generators. -/
theorem spreadPass_agree (m : Libm) (g : Grid) (dt : ℚ) (gen gen' : Rng)
    (h : gen.agree gen') :
    (g.spreadPass m dt gen).1 = (g.spreadPass m dt gen').1 ∧
      (g.spreadPass m dt gen).2.agree (g.spreadPass m dt gen').2 :=
  foldl_rel (Grid.spreadCell m g dt) (Grid.spreadCell m g dt)
    (fun a a' => a.1 = a'.1 ∧ a.2.agree a'.2)
    (fun a a' b hab => spreadCell_agree m g dt a a' b hab) g.positions
    (fun _ _ => false, gen) (fun _ _ => false, gen') ⟨rfl, h⟩

theorem updateCell_agree (dt : ℚ) (will_ignite : Int → Int → Bool) (st st' : Grid × Rng)
    (p : Int × Int) (h : st.1 = st'.1 ∧ st.2.agree st'.2) :
    (Grid.updateCell dt will_ignite st p).1 = (Grid.updateCell dt will_ignite st' p).1 ∧
      (Grid.updateCell dt will_ignite st p).2.agree (Grid.updateCell dt will_ignite st' p).2 := by
  have hd := draw_agree st.2 st'.2 h.2
  have h2 := h.2
  dsimp only [Grid.updateCell]
  rw [← hd.1, ← h.1]
  split_ifs
  · exact ⟨rfl, hd.2⟩
  · exact ⟨rfl, hd.2⟩
  · exact ⟨rfl, h2⟩
  · exact ⟨rfl, h2⟩
  · exact ⟨rfl, hd.2⟩
  · exact ⟨rfl, hd.2⟩
  · exact ⟨rfl, h2⟩
  · exact ⟨rfl, h2⟩

/-- One tick gives the same grid under agreeing generators, and the generators agree
after it. -/
theorem update_agree (m : Libm) (g : Grid) (dt : ℚ) (gen1 gen1' gen2 gen2' : Rng)
    (h1 : gen1.agree gen1') (h2 : gen2.agree gen2') :
    (g.update m dt gen1 gen2).1 = (g.update m dt gen1' gen2').1 ∧
      (g.update m dt gen1 gen2).2.1.agree (g.update m dt gen1' gen2').2.1 ∧
      (g.update m dt gen1 gen2).2.2.agree (g.update m dt gen1' gen2').2.2 := by
  have hs := spreadPass_agree m g dt gen1 gen1' h1
  have hw := foldl_rel (Grid.updateCell dt (g.spreadPass m dt gen1).1)
    (Grid.updateCell dt (g.spreadPass m dt gen1).1)
    (fun a a' => a.1 = a'.1 ∧ a.2.agree a'.2)
    (fun a a' b hab => updateCell_agree dt (g.spreadPass m dt gen1).1 a a' b hab) g.positions
    (g, gen2) (g, gen2') ⟨rfl, h2⟩
  show (g.writePass dt (g.spreadPass m dt gen1).1 gen2).1 =
      (g.writePass dt (g.spreadPass m dt gen1').1 gen2').1 ∧
    (g.spreadPass m dt gen1).2.agree (g.spreadPass m dt gen1').2 ∧
    (g.writePass dt (g.spreadPass m dt gen1).1 gen2).2.agree
      (g.writePass dt (g.spreadPass m dt gen1').1 gen2').2
  rw [← hs.1]
  exact ⟨hw.1, hs.2, hw.2⟩

/-- Any sequence of ticks gives the same grid under agreeing generators. -/
theorem ticks_agree (m : Libm) (dts : List ℚ) (s s' : Grid × Rng × Rng)
    (hg : s.1 = s'.1) (h1 : s.2.1.agree s'.2.1) (h2 : s.2.2.agree s'.2.2) :
    (Grid.ticks m dts s).1 = (Grid.ticks m dts s').1 ∧
      (Grid.ticks m dts s).2.1.agree (Grid.ticks m dts s').2.1 ∧
      (Grid.ticks m dts s).2.2.agree (Grid.ticks m dts s').2.2 := by
  induction dts generalizing s s' with
  | nil => exact ⟨hg, h1, h2⟩
  | cons dt dts ih =>
    have hu := update_agree m s.1 dt s.2.1 s'.2.1 s.2.2 s'.2.2 h1 h2
    rw [hg] at hu
    exact ih _ _ (by rw [hg]; exact hu.1) (by rw [hg]; exact hu.2.1) (by rw [hg]; exact hu.2.2)

/-- C27 (the claim fails): `Grid::update` takes no seed; its two static generators are
seeded from `std::random_device`, so the samples of a run are not fixed by the lattice
and `dt`. Two runs of one call `update(1.0)` on the same 2×1 lattice: where the first
generator delivers 0 the fresh cell `(1, 0)` is ignited, where it delivers 1/2 the
cell is still `FUEL`; the final grids differ. -/
theorem update_differs_with_samples :
    ((Grid.ticks Libm.standIn (List.replicate 1 1)
      (twoCellGrid, Rng.zeros, Rng.zeros)).1.cells 0 1).state ≠ CellState.FUEL ∧
    ((Grid.ticks Libm.standIn (List.replicate 1 1)
      (twoCellGrid, Rng.halves, Rng.zeros)).1.cells 0 1).state = CellState.FUEL ∧
    (Grid.ticks Libm.standIn (List.replicate 1 1) (twoCellGrid, Rng.zeros, Rng.zeros)).1 ≠
      (Grid.ticks Libm.standIn (List.replicate 1 1) (twoCellGrid, Rng.halves, Rng.zeros)).1 := by
  have hpos : twoCellGrid.positions = [(0, 0), (1, 0)] := by
    simp [Grid.positions, twoCellGrid, (by decide : List.range 2 = [0, 1]),
      (by decide : List.range 1 = [0])]
  have hn : twoCellGrid.getNeighbors 0 0 = [(1, 0)] := by
    simp [Grid.getNeighbors, Grid.isValidPosition, twoCellGrid]
  have hn1 : twoCellGrid.getNeighbors 1 0 = [(0, 0)] := by
    simp [Grid.getNeighbors, Grid.isValidPosition, twoCellGrid]
  have hc01 : twoCellGrid.cells 0 1 = Cell.ctor FuelType.GRASS 0.8 0 := by
    simp [twoCellGrid]
  have hcb : (Cell.ctor FuelType.GRASS 0.8 0).canBurn = true := by
    simp [Cell.canBurn, Cell.ctor]; norm_num
  have hp : 0 < twoCellGrid.calculateSpreadProbability Libm.standIn 0 0 1 0 := by
    simp [Grid.calculateSpreadProbability, Grid.getSuppressionModifier, Grid.isValidPosition,
      twoCellGrid, Cell.getIgnitionProbability, hcb, Libm.standIn]
    simp [Cell.ctor]
    norm_num
  have hp2 : ¬ (1 / 2 < twoCellGrid.calculateSpreadProbability Libm.standIn 0 0 1 0) := by
    simp [Grid.calculateSpreadProbability, Grid.getSuppressionModifier, Grid.isValidPosition,
      twoCellGrid, Cell.getIgnitionProbability, hcb, Libm.standIn]
    simp [Cell.ctor]
    norm_num
  have hmark : (twoCellGrid.spreadPass Libm.standIn 1 Rng.zeros).1 0 1 = true := by
    simp [Grid.spreadPass, hpos, Grid.spreadCell, hn, hn1, Grid.spreadNeighbor, hc01, hcb,
      Rng.draw, Rng.zeros, hp, Grid.setMark]
    simp [twoCellGrid, Cell.ctor, Grid.setMark]
  have hnomark : (twoCellGrid.spreadPass Libm.standIn 1 Rng.halves).1 0 1 = false := by
    have hp2' : ¬ ((2 : ℚ)⁻¹ < twoCellGrid.calculateSpreadProbability Libm.standIn 0 0 1 0) := by
      rw [← one_div]
      exact hp2
    have hb0 : (twoCellGrid.cells 0 0).state = CellState.BURNING := by
      simp [twoCellGrid]
    have hf1 : ¬ (Cell.ctor FuelType.GRASS 0.8 0).state = CellState.BURNING := by
      simp [Cell.ctor]
    simp only [Grid.spreadPass, hpos, List.foldl_cons, List.foldl_nil, Grid.spreadCell, hb0,
      if_true, hn, Grid.spreadNeighbor, hc01, hcb, hf1, if_false, Rng.draw, Rng.halves, mul_one,
      one_div, hp2']
  have hA : ((Grid.ticks Libm.standIn (List.replicate 1 1)
      (twoCellGrid, Rng.zeros, Rng.zeros)).1.cells 0 1).state ≠ CellState.FUEL := by
    show ((twoCellGrid.writePass 1 (twoCellGrid.spreadPass Libm.standIn 1 Rng.zeros).1
      Rng.zeros).1.cells 0 1).state ≠ _
    simp only [Grid.writePass, hpos, List.foldl_cons, List.foldl_nil]
    refine updateCell_marked 1 _ _ (1, 0) hmark ?_
    rw [updateCell_cells_other 1 _ _ (0, 0) 0 1 (by simp), hc01]
    exact hcb
  have hB : ((Grid.ticks Libm.standIn (List.replicate 1 1)
      (twoCellGrid, Rng.halves, Rng.zeros)).1.cells 0 1).state = CellState.FUEL := by
    show ((twoCellGrid.writePass 1 (twoCellGrid.spreadPass Libm.standIn 1 Rng.halves).1
      Rng.zeros).1.cells 0 1).state = _
    rw [writePass_cell_unchanged twoCellGrid 1 _ Rng.zeros 0 1 (by rw [hc01]; simp [Cell.ctor])
      (Or.inl hnomark), hc01]
    simp [Cell.ctor]
  refine ⟨hA, hB, ?_⟩
  intro heq
  rw [heq] at hA
  exact hA hB

/-- C27 (amended): two runs of `N` calls `update(dt)` from the same initial grid, with
generators that deliver the same sequences of samples, end in the same grid, in
particular in the same state for every cell, and their generators deliver the same
samples afterwards: the result of a tick is a function of the grid, `dt` and the
samples the two generators deliver, and of nothing else. -/
theorem update_deterministic (m : Libm) (g : Grid) (dt : ℚ) (N : Nat)
    (gen1 gen1' gen2 gen2' : Rng) (h1 : gen1.agree gen1') (h2 : gen2.agree gen2') :
    (Grid.ticks m (List.replicate N dt) (g, gen1, gen2)).1 =
        (Grid.ticks m (List.replicate N dt) (g, gen1', gen2')).1 ∧
      (∀ x y : Int,
        ((Grid.ticks m (List.replicate N dt) (g, gen1, gen2)).1.cells y x).state =
          ((Grid.ticks m (List.replicate N dt) (g, gen1', gen2')).1.cells y x).state) ∧
      (Grid.ticks m (List.replicate N dt) (g, gen1, gen2)).2.1.agree
        (Grid.ticks m (List.replicate N dt) (g, gen1', gen2')).2.1 ∧
      (Grid.ticks m (List.replicate N dt) (g, gen1, gen2)).2.2.agree
        (Grid.ticks m (List.replicate N dt) (g, gen1', gen2')).2.2 := by
  have h := ticks_agree m (List.replicate N dt) (g, gen1, gen2) (g, gen1', gen2') rfl h1 h2
  refine ⟨h.1, ?_, h.2.1, h.2.2⟩
  intro x y
  rw [h.1]

/-- Witness for C27: three ticks of `twoCellGrid`, once with fresh generators and once
with generators that stand three samples further in a stream with another past. -/
theorem update_deterministic_witness :
    Rng.zeros.agree Rng.used ∧
    (Grid.ticks Libm.standIn (List.replicate 3 1) (twoCellGrid, Rng.zeros, Rng.zeros)).1 =
      (Grid.ticks Libm.standIn (List.replicate 3 1) (twoCellGrid, Rng.used, Rng.used)).1 := by
  have ha : Rng.zeros.agree Rng.used := by
    intro i
    simp [Rng.zeros, Rng.used]
  exact ⟨ha,
    (update_deterministic Libm.standIn twoCellGrid 1 3 Rng.zeros Rng.used Rng.zeros Rng.used
      ha ha).1⟩

/-! ## orderSuppression -/

/-- The deploy call of `orderSuppression` keeps the id of the crew. -/
theorem deploy_id (crew : FirefightingCrew) (type : SuppressionType) (x y radius : Int)
    (uninit : SuppressionAction) :
    (HumanFactorManager.deploy crew type x y radius uninit).2.id = crew.id := by
  cases type <;> rfl

/-- When no crew still to visit has the id and can deploy, the loop of
`orderSuppression` visits them all, changes nothing and returns no action. -/
theorem orderLoop_none (mgr : HumanFactorManager) (crew_id : Int) (type : SuppressionType)
    (x y radius : Int) (uninit : SuppressionAction) :
    ∀ (rest done : List FirefightingCrew),
      (∀ c ∈ rest, ¬ (c.id = crew_id ∧ c.canDeploy type = true)) →
      HumanFactorManager.orderLoop mgr crew_id type x y radius uninit done rest =
        ({ mgr with crews := done ++ rest }, none) := by
  intro rest
  induction rest with
  | nil =>
    intro done _
    simp only [HumanFactorManager.orderLoop, List.append_nil]
  | cons crew rest ih =>
    intro done h
    rw [HumanFactorManager.orderLoop, if_neg (h crew (List.mem_cons_self _ _)),
      ih (done ++ [crew]) (fun c hc => h c (List.mem_cons_of_mem _ hc)),
      List.append_assoc, List.singleton_append]

/-- The loop of `orderSuppression`: the budget grows by the cost of the action it
returns, if any; the other manager fields are kept; the visited crews stay in `done`,
and each crew still to visit keeps its id and is unchanged unless it has the id and
can deploy. -/
theorem orderLoop_spec (mgr : HumanFactorManager) (crew_id : Int) (type : SuppressionType)
    (x y radius : Int) (uninit : SuppressionAction) :
    ∀ (rest done : List FirefightingCrew),
      (HumanFactorManager.orderLoop mgr crew_id type x y radius uninit done rest).1.spent_budget =
        mgr.spent_budget +
          ((HumanFactorManager.orderLoop mgr crew_id type x y radius uninit done rest).2.map
            SuppressionAction.cost).getD 0 ∧
      (HumanFactorManager.orderLoop mgr crew_id type x y radius uninit done rest).1.total_budget =
        mgr.total_budget ∧
      (HumanFactorManager.orderLoop mgr crew_id type x y radius uninit done
        rest).1.evacuation_zones = mgr.evacuation_zones ∧
      (HumanFactorManager.orderLoop mgr crew_id type x y radius uninit done rest).1.next_crew_id =
        mgr.next_crew_id ∧
      ∃ rest', (HumanFactorManager.orderLoop mgr crew_id type x y radius uninit done
          rest).1.crews = done ++ rest' ∧
        List.Forall₂
          (fun c c' => c'.id = c.id ∧ (¬ (c.id = crew_id ∧ c.canDeploy type = true) → c' = c))
          rest rest' := by
  have hrefl : ∀ l : List FirefightingCrew, List.Forall₂
      (fun c c' => c'.id = c.id ∧ (¬ (c.id = crew_id ∧ c.canDeploy type = true) → c' = c))
      l l := by
    intro l
    induction l with
    | nil => exact List.Forall₂.nil
    | cons a l ih => exact List.Forall₂.cons ⟨rfl, fun _ => rfl⟩ ih
  intro rest
  induction rest with
  | nil =>
    intro done
    simp only [HumanFactorManager.orderLoop, Option.map_none', Option.getD_none, add_zero,
      true_and]
    exact ⟨[], by rw [List.append_nil], List.Forall₂.nil⟩
  | cons crew rest ih =>
    intro done
    rw [HumanFactorManager.orderLoop]
    by_cases hm : crew.id = crew_id ∧ crew.canDeploy type = true
    · rw [if_pos hm]
      dsimp only
      by_cases ha : mgr.canAfford (HumanFactorManager.deploy crew type x y radius uninit).1.cost
          = true
      · rw [if_pos ha]
        refine ⟨rfl, rfl, rfl, rfl, _, rfl, List.Forall₂.cons ⟨deploy_id _ _ _ _ _ _, ?_⟩
          (hrefl rest)⟩
        intro hn
        exact absurd hm hn
      · rw [if_neg ha]
        obtain ⟨h1, h2, h3, h4, rest', h5, h6⟩ :=
          ih (done ++ [(HumanFactorManager.deploy crew type x y radius uninit).2])
        refine ⟨h1, h2, h3, h4,
          (HumanFactorManager.deploy crew type x y radius uninit).2 :: rest', ?_,
          List.Forall₂.cons ⟨deploy_id _ _ _ _ _ _, fun hn => absurd hm hn⟩ h6⟩
        rw [h5, List.append_assoc, List.singleton_append]
    · rw [if_neg hm]
      obtain ⟨h1, h2, h3, h4, rest', h5, h6⟩ := ih (done ++ [crew])
      refine ⟨h1, h2, h3, h4, crew :: rest', ?_, List.Forall₂.cons ⟨rfl, fun _ => rfl⟩ h6⟩
      rw [h5, List.append_assoc, List.singleton_append]

/-- C35 (the code at a failing input): a manager with budget 100 and one fresh water
tanker, id 1. `orderSuppression(1, WATER, 0, 0, 1)` passes `canDeploy`, runs `deployWater` (cost 500),
finds the cost not affordable and returns the failed action, effectiveness 0 and cost
0, with the spent budget still 0; but the tanker's water has gone from 3000 to 2100
and its fatigue from 0 to 0.1. -/
theorem order_failure_consumes_water :
    (smallBudgetManager.orderSuppression 1 SuppressionType.WATER 0 0 1
        staleAction).2.effectiveness = 0 ∧
    (smallBudgetManager.orderSuppression 1 SuppressionType.WATER 0 0 1 staleAction).2.cost = 0 ∧
    (smallBudgetManager.orderSuppression 1 SuppressionType.WATER 0 0 1
        staleAction).1.spent_budget = smallBudgetManager.spent_budget ∧
    smallBudgetManager.crews.map FirefightingCrew.current_water = [3000] ∧
    smallBudgetManager.crews.map FirefightingCrew.fatigue = [0] ∧
    (smallBudgetManager.orderSuppression 1 SuppressionType.WATER 0 0 1
        staleAction).1.crews.map FirefightingCrew.current_water = [2100] ∧
    (smallBudgetManager.orderSuppression 1 SuppressionType.WATER 0 0 1
        staleAction).1.crews.map FirefightingCrew.fatigue = [1 / 10] ∧
    (smallBudgetManager.orderSuppression 1 SuppressionType.WATER 0 0 1
        staleAction).1.crews ≠ smallBudgetManager.crews := by
  have hc : smallBudgetManager.crews =
      [FirefightingCrew.ctor 1 "Tanker" CrewType.WATER_TANKER 0 0] := rfl
  have hd : (FirefightingCrew.ctor 1 "Tanker" CrewType.WATER_TANKER 0 0).canDeploy
      SuppressionType.WATER = true := by
    simp [FirefightingCrew.canDeploy, FirefightingCrew.ctor]
    norm_num
  have ha : smallBudgetManager.canAfford (HumanFactorManager.deploy
      (FirefightingCrew.ctor 1 "Tanker" CrewType.WATER_TANKER 0 0) SuppressionType.WATER 0 0 1
      staleAction).1.cost = false := by
    simp [HumanFactorManager.canAfford, HumanFactorManager.deploy,
      FirefightingCrew.deployWater, smallBudgetManager, HumanFactorManager.addCrew,
      HumanFactorManager.ctor]
    norm_num
  have hr : smallBudgetManager.orderSuppression 1 SuppressionType.WATER 0 0 1 staleAction =
      ({ smallBudgetManager with
          crews := [(HumanFactorManager.deploy
            (FirefightingCrew.ctor 1 "Tanker" CrewType.WATER_TANKER 0 0) SuppressionType.WATER
            0 0 1 staleAction).2] },
        { staleAction with effectiveness := 0, cost := 0 }) := by
    have hid : (FirefightingCrew.ctor 1 "Tanker" CrewType.WATER_TANKER 0 0).id = 1 := rfl
    have hloop : HumanFactorManager.orderLoop smallBudgetManager 1 SuppressionType.WATER 0 0 1
        staleAction [] smallBudgetManager.crews =
        ({ smallBudgetManager with
            crews := [(HumanFactorManager.deploy
              (FirefightingCrew.ctor 1 "Tanker" CrewType.WATER_TANKER 0 0) SuppressionType.WATER
              0 0 1 staleAction).2] }, none) := by
      rw [hc, HumanFactorManager.orderLoop, if_pos ⟨hid, hd⟩]
      dsimp only
      rw [if_neg (by rw [ha]; decide), HumanFactorManager.orderLoop]
      rfl
    unfold HumanFactorManager.orderSuppression
    rw [hloop]
  have hw : ((HumanFactorManager.deploy
      (FirefightingCrew.ctor 1 "Tanker" CrewType.WATER_TANKER 0 0) SuppressionType.WATER
      0 0 1 staleAction).2).current_water = 2100 := by
    simp [HumanFactorManager.deploy, FirefightingCrew.deployWater, FirefightingCrew.ctor]
    norm_num
  have hf : ((HumanFactorManager.deploy
      (FirefightingCrew.ctor 1 "Tanker" CrewType.WATER_TANKER 0 0) SuppressionType.WATER
      0 0 1 staleAction).2).fatigue = 1 / 10 := by
    simp [HumanFactorManager.deploy, FirefightingCrew.deployWater, FirefightingCrew.ctor]
    norm_num
  have hw0 : (FirefightingCrew.ctor 1 "Tanker" CrewType.WATER_TANKER 0 0).current_water =
      3000 := rfl
  rw [hr]
  refine ⟨rfl, rfl, rfl, ?_, ?_, ?_, ?_, ?_⟩
  · rw [hc]; rfl
  · rw [hc]; rfl
  · simp only [List.map_cons, List.map_nil, hw]
  · simp only [List.map_cons, List.map_nil, hf]
  · intro h
    have h' := congrArg (List.map FirefightingCrew.current_water) h
    simp only [List.map_cons, List.map_nil, hw, hc, hw0, List.cons.injEq, and_true] at h'
    norm_num at h'

/-- What does hold of `orderSuppression` for every manager state and all arguments:
the spent budget after the call is the spent budget before plus the cost of the
returned action, so a returned action of cost 0 (the failed action) leaves it unchanged;
the total budget, the evacuation zones and the next crew id are unchanged; every crew
keeps its place and its id, and a crew is unchanged unless it has the given id and
passes `canDeploy(type)`; and when no crew has the id and passes `canDeploy(type)`, the
call returns the failed action and the whole manager state is unchanged. -/
theorem orderSuppression_failure (mgr : HumanFactorManager) (crew_id : Int)
    (type : SuppressionType) (x y radius : Int) (uninit : SuppressionAction) :
    (mgr.orderSuppression crew_id type x y radius uninit).1.spent_budget =
      mgr.spent_budget + (mgr.orderSuppression crew_id type x y radius uninit).2.cost ∧
    ((mgr.orderSuppression crew_id type x y radius uninit).2.cost = 0 →
      (mgr.orderSuppression crew_id type x y radius uninit).1.spent_budget =
        mgr.spent_budget) ∧
    (mgr.orderSuppression crew_id type x y radius uninit).1.total_budget = mgr.total_budget ∧
    (mgr.orderSuppression crew_id type x y radius uninit).1.evacuation_zones =
      mgr.evacuation_zones ∧
    (mgr.orderSuppression crew_id type x y radius uninit).1.next_crew_id = mgr.next_crew_id ∧
    List.Forall₂
      (fun c c' => c'.id = c.id ∧ (¬ (c.id = crew_id ∧ c.canDeploy type = true) → c' = c))
      mgr.crews (mgr.orderSuppression crew_id type x y radius uninit).1.crews ∧
    ((∀ c ∈ mgr.crews, ¬ (c.id = crew_id ∧ c.canDeploy type = true)) →
      mgr.orderSuppression crew_id type x y radius uninit =
        (mgr, { uninit with effectiveness := 0, cost := 0 })) := by
  obtain ⟨h1, h2, h3, h4, rest', h5, h6⟩ :=
    orderLoop_spec mgr crew_id type x y radius uninit mgr.crews []
  rw [List.nil_append] at h5
  rw [← h5] at h6
  have hcost : (mgr.orderSuppression crew_id type x y radius uninit).1.spent_budget =
      mgr.spent_budget + (mgr.orderSuppression crew_id type x y radius uninit).2.cost := by
    unfold HumanFactorManager.orderSuppression
    cases hr : HumanFactorManager.orderLoop mgr crew_id type x y radius uninit [] mgr.crews with
    | mk mgr' res =>
      rw [hr] at h1
      cases res with
      | none => simpa using h1
      | some action => simpa using h1
  have hfst : (mgr.orderSuppression crew_id type x y radius uninit).1 =
      (HumanFactorManager.orderLoop mgr crew_id type x y radius uninit [] mgr.crews).1 := by
    unfold HumanFactorManager.orderSuppression
    cases hr : HumanFactorManager.orderLoop mgr crew_id type x y radius uninit [] mgr.crews with
    | mk mgr' res => cases res <;> rfl
  refine ⟨hcost, ?_, ?_, ?_, ?_, ?_, ?_⟩
  · intro h0
    rw [hcost, h0, add_zero]
  · rw [hfst]; exact h2
  · rw [hfst]; exact h3
  · rw [hfst]; exact h4
  · rw [hfst]; exact h6
  · intro hno
    unfold HumanFactorManager.orderSuppression
    rw [orderLoop_none mgr crew_id type x y radius uninit mgr.crews [] hno, List.nil_append]

/-! ## addFirebreak and createFirebreak -/

/-- The loops of `FireSimulation::addFirebreak` and `Grid::createFirebreak` visit the
same positions in the same order. -/
theorem addFirebreakTrace_eq (x2 y2 x_inc y_inc dx dy : Int) (fuel : Nat) :
    ∀ (x y error : Int),
      FireSimulation.addFirebreakTrace x2 y2 x_inc y_inc dx dy fuel x y error =
        Grid.firebreakTrace x2 y2 x_inc y_inc dx dy fuel x y error := by
  induction fuel with
  | zero => intro x y error; rfl
  | succ fuel ih =>
    intro x y error
    simp only [FireSimulation.addFirebreakTrace, Grid.firebreakTrace, ih]

/-- The loop of `addFirebreak` runs its body along its trace. -/
theorem addFirebreakLoop_eq_trace (x2 y2 x_inc y_inc dx dy : Int) (fuel : Nat) :
    ∀ (g : Grid) (x y error : Int),
      FireSimulation.addFirebreakLoop x2 y2 x_inc y_inc dx dy fuel g x y error =
        (FireSimulation.addFirebreakTrace x2 y2 x_inc y_inc dx dy fuel x y error).map
          g.rockAll := by
  induction fuel with
  | zero => intro g x y error; rfl
  | succ fuel ih =>
    intro g x y error
    simp only [FireSimulation.addFirebreakLoop, FireSimulation.addFirebreakTrace]
    split_ifs with h1 h2
    · rfl
    · rw [ih, Option.map_map]
      rfl
    · rw [ih, Option.map_map]
      rfl

/-- The body of `addFirebreak` is the body of `createFirebreak` without the write to
the suppression field. -/
theorem placeRock_eq (c : Grid) (e0 : Int → Int → SuppressionEffect) (x y : Int) :
    Grid.placeRock { c with suppression_effects := e0 } x y =
      { c.markFirebreak x y with suppression_effects := e0 } := by
  have hv : Grid.isValidPosition { c with suppression_effects := e0 } x y =
      c.isValidPosition x y := rfl
  unfold Grid.placeRock Grid.markFirebreak
  rw [hv]
  by_cases h : c.isValidPosition x y = true
  · rw [if_pos h, if_pos h]
    rfl
  · rw [if_neg h, if_neg h]

/-- Run along the same positions, the body of `addFirebreak` gives the grid of the body
of `createFirebreak` with the suppression field it started from. -/
theorem rockAll_eq (g : Grid) (ps : List (Int × Int)) :
    g.rockAll ps = { g.markAll ps with suppression_effects := g.suppression_effects } := by
  unfold Grid.rockAll Grid.markAll
  refine foldl_rel (fun (a : Grid) (p : Int × Int) => a.placeRock p.1 p.2)
    (fun (c : Grid) (p : Int × Int) => c.markFirebreak p.1 p.2)
    (fun a c => a = { c with suppression_effects := g.suppression_effects }) ?_ ps g g rfl
  intro a c p hac
  rw [hac]
  exact placeRock_eq c g.suppression_effects p.1 p.2

/-- C34: for every simulation and all endpoints, `FireSimulation::addFirebreak` and
`Grid::createFirebreak` (on the simulation's grid) both return and traverse the same
sequence of positions `ps`; the two resulting grids have the same cell array, in which
every traversed in-grid position holds `Cell(ROCK, 0, 0)` (state `EMPTY`, density 0)
and every other position its old cell; `addFirebreak` leaves the suppression field and
the other members of the simulation untouched, and the grid after `createFirebreak`
is the grid after `addFirebreak` except for the suppression field, where it differs
from the old one only by `is_firebreak = true` at the traversed in-grid positions. -/
theorem addFirebreak_vs_createFirebreak (s : FireSimulation) (x1 y1 x2 y2 : Int) :
    ∃ ps s' g',
      FireSimulation.addFirebreakLine x1 y1 x2 y2 = some ps ∧
      Grid.firebreakLine x1 y1 x2 y2 = some ps ∧
      s.addFirebreak x1 y1 x2 y2 = some s' ∧
      s.grid.createFirebreak x1 y1 x2 y2 = some g' ∧
      s' = { s with grid := s'.grid } ∧
      s'.grid.cells = g'.cells ∧
      (∀ x y : Int, (x, y) ∈ ps ∧ s.grid.isValidPosition x y = true →
        s'.grid.cells y x = Cell.ctor FuelType.ROCK 0 0 ∧
        (s'.grid.cells y x).state = CellState.EMPTY ∧
        (s'.grid.cells y x).fuel_type = FuelType.ROCK ∧
        (s'.grid.cells y x).fuel_density = 0) ∧
      (∀ x y : Int, ¬ ((x, y) ∈ ps ∧ s.grid.isValidPosition x y = true) →
        s'.grid.cells y x = s.grid.cells y x) ∧
      s'.grid.suppression_effects = s.grid.suppression_effects ∧
      s'.grid = { g' with suppression_effects := s.grid.suppression_effects } ∧
      (∀ x y : Int, (x, y) ∈ ps ∧ s.grid.isValidPosition x y = true →
        g'.suppression_effects y x =
          { s.grid.suppression_effects y x with is_firebreak := true }) ∧
      (∀ x y : Int, ¬ ((x, y) ∈ ps ∧ s.grid.isValidPosition x y = true) →
        g'.suppression_effects y x = s.grid.suppression_effects y x) := by
  obtain ⟨ps, hps, _⟩ := firebreakLine_spec x1 y1 x2 y2
  have hline : FireSimulation.addFirebreakLine x1 y1 x2 y2 = some ps := by
    rw [← hps]
    unfold FireSimulation.addFirebreakLine Grid.firebreakLine
    exact addFirebreakTrace_eq _ _ _ _ _ _ _ _ _ _
  have hadd : s.addFirebreak x1 y1 x2 y2 = some { s with grid := s.grid.rockAll ps } := by
    have h : s.addFirebreak x1 y1 x2 y2 =
        ((FireSimulation.addFirebreakLine x1 y1 x2 y2).map s.grid.rockAll).map
          fun g => { s with grid := g } := by
      unfold FireSimulation.addFirebreak FireSimulation.addFirebreakLine
      dsimp only
      rw [addFirebreakLoop_eq_trace]
    rw [h, hline]
    rfl
  have hcreate : s.grid.createFirebreak x1 y1 x2 y2 = some (s.grid.markAll ps) := by
    rw [createFirebreak_eq, hps]
    rfl
  have hrock := rockAll_eq s.grid ps
  refine ⟨ps, { s with grid := s.grid.rockAll ps }, s.grid.markAll ps, hline, hps, hadd,
    hcreate, rfl, ?_, ?_, ?_, ?_, hrock, ?_, ?_⟩
  · show (s.grid.rockAll ps).cells = _
    rw [hrock]
  · intro x y hin
    have hc : (s.grid.rockAll ps).cells y x = Cell.ctor FuelType.ROCK 0 0 := by
      rw [hrock]
      exact ((markAll_at s.grid ps x y).1 hin).1
    show (s.grid.rockAll ps).cells y x = _ ∧ ((s.grid.rockAll ps).cells y x).state = _ ∧
      ((s.grid.rockAll ps).cells y x).fuel_type = _ ∧
      ((s.grid.rockAll ps).cells y x).fuel_density = _
    rw [hc]
    exact ⟨rfl, rfl, rfl, rfl⟩
  · intro x y hin
    show (s.grid.rockAll ps).cells y x = _
    rw [hrock]
    exact ((markAll_at s.grid ps x y).2 hin).1
  · show (s.grid.rockAll ps).suppression_effects = _
    rw [hrock]
  · intro x y hin
    exact ((markAll_at s.grid ps x y).1 hin).2
  · intro x y hin
    exact ((markAll_at s.grid ps x y).2 hin).2

/-! ## The axis of the wind boost -/

/-- Past its early returns, `calculateSpreadProbability` is the clamp of `spreadBase`. -/
theorem calculateSpreadProbability_eq (m : Libm) (g : Grid) (from_x from_y to_x to_y : Int) :
    g.calculateSpreadProbability m from_x from_y to_x to_y =
      if (g.cells from_y from_x).state ≠ CellState.BURNING ∨
          (!(g.cells to_y to_x).canBurn) = true then 0
      else if (g.suppression_effects to_y to_x).is_firebreak = true then 0
      else min 1 (max 0 (g.spreadBase m from_x from_y to_x to_y)) := rfl

/-- The value before the clamp towards a target at offset `(dx, dy)` whose wind effect
is `we`, in terms of the target cell and entry. -/
theorem spreadBase_at (m : Libm) (g : Grid) (x y tx ty : Int) (c : Cell)
    (e : SuppressionEffect) (dx dy : Int) (hdx : tx - x = dx) (hdy : ty - y = dy)
    (hc : g.cells ty tx = c) (he : g.suppression_effects ty tx = e)
    (hv : g.isValidPosition tx ty = true) :
    g.spreadBase m x y tx ty =
      (if m.cos ((m.atan2 (dy : ℚ) (dx : ℚ) * 180 / m.pi - g.wind_direction) * m.pi / 180) > 0
        then c.getIgnitionProbability * 0.1 *
          (1 + g.wind_speed *
            m.cos ((m.atan2 (dy : ℚ) (dx : ℚ) * 180 / m.pi - g.wind_direction) * m.pi / 180) *
            0.1)
        else c.getIgnitionProbability * 0.1) /
        m.sqrt ((dx : ℚ) * (dx : ℚ) + (dy : ℚ) * (dy : ℚ)) *
        (1 + ((g.cells y x).temperature - g.ambient_temp) / 100 * 0.2) *
        (1 - min 1 (e.water_level * 0.8 + e.retardant_level * 0.9)) := by
  simp only [Grid.spreadBase, Grid.getSuppressionModifier, hv, Bool.not_true,
    Bool.false_eq_true, if_false, hdx, hdy, hc, he]

/-- C33: with wind direction 90 and any wind speed `w`, for a source `(x, y)` whose
four orthogonal neighbours are in the grid and hold the same cell `c` with the same
suppression entry `e`: the spread probabilities towards `(x+1, y)` and `(x−1, y)` are
equal (as are the values before the clamp), and the value before the clamp towards
`(x, y+1)` is `(1 + 0.1 × w)` times the value towards `(x, y−1)`; with a burning
source, a burnable `c` and no firebreak flag the returned probabilities are the clamps
of these values. The `<cmath>` functions enter through their values on the axes:
`cos` is even, `cos 0 = 1`, `cos M_PI ≤ 0`, and `atan2` gives 0, `M_PI`, `±M_PI/2`. -/
theorem wind_boost_along_y (m : Libm) (g : Grid) (x y : Int) (c : Cell)
    (e : SuppressionEffect)
    (hcos : ∀ a, m.cos (-a) = m.cos a) (hc0 : m.cos 0 = 1) (hcpi : m.cos m.pi ≤ 0)
    (hE : m.atan2 0 1 = 0) (hW : m.atan2 0 (-1) = m.pi)
    (hN : m.atan2 1 0 = m.pi / 2) (hS : m.atan2 (-1) 0 = -(m.pi / 2)) (hpi : m.pi ≠ 0)
    (hdir : g.wind_direction = 90)
    (hcE : g.cells y (x + 1) = c) (hcW : g.cells y (x - 1) = c)
    (hcN : g.cells (y + 1) x = c) (hcS : g.cells (y - 1) x = c)
    (heE : g.suppression_effects y (x + 1) = e) (heW : g.suppression_effects y (x - 1) = e)
    (heN : g.suppression_effects (y + 1) x = e) (heS : g.suppression_effects (y - 1) x = e)
    (hvE : g.isValidPosition (x + 1) y = true) (hvW : g.isValidPosition (x - 1) y = true)
    (hvN : g.isValidPosition x (y + 1) = true) (hvS : g.isValidPosition x (y - 1) = true) :
    g.calculateSpreadProbability m x y (x + 1) y =
        g.calculateSpreadProbability m x y (x - 1) y ∧
      g.spreadBase m x y (x + 1) y = g.spreadBase m x y (x - 1) y ∧
      g.spreadBase m x y x (y + 1) =
        (1 + 0.1 * g.wind_speed) * g.spreadBase m x y x (y - 1) ∧
      ((g.cells y x).state = CellState.BURNING → c.canBurn = true → e.is_firebreak = false →
        g.calculateSpreadProbability m x y x (y + 1) =
            min 1 (max 0 (g.spreadBase m x y x (y + 1))) ∧
          g.calculateSpreadProbability m x y x (y - 1) =
            min 1 (max 0 (g.spreadBase m x y x (y - 1)))) := by
  have h180 : m.pi * 180 / m.pi = 180 := by field_simp
  have h90 : m.pi / 2 * 180 / m.pi = 90 := by
    field_simp
    ring
  have aE : (m.atan2 0 1 * 180 / m.pi - 90) * m.pi / 180 = -(90 * m.pi / 180) := by
    rw [hE]; ring
  have aW : (m.atan2 0 (-1) * 180 / m.pi - 90) * m.pi / 180 = 90 * m.pi / 180 := by
    rw [hW, h180]; ring
  have aN : (m.atan2 1 0 * 180 / m.pi - 90) * m.pi / 180 = 0 := by
    rw [hN, h90]; ring
  have aS : (m.atan2 (-1) 0 * 180 / m.pi - 90) * m.pi / 180 = -m.pi := by
    have h : -(m.pi / 2) * 180 / m.pi = -(m.pi / 2 * 180 / m.pi) := by ring
    rw [hS, h, h90]; ring
  have bE := spreadBase_at m g x y (x + 1) y c e 1 0 (by ring) (by ring) hcE heE hvE
  have bW := spreadBase_at m g x y (x - 1) y c e (-1) 0 (by ring) (by ring) hcW heW hvW
  have bN := spreadBase_at m g x y x (y + 1) c e 0 1 (by ring) (by ring) hcN heN hvN
  have bS := spreadBase_at m g x y x (y - 1) c e 0 (-1) (by ring) (by ring) hcS heS hvS
  simp only [Int.cast_one, Int.cast_zero, Int.cast_neg, hdir, aE, aW, aN, aS, hcos, hc0,
    mul_zero, mul_one, zero_add, add_zero, neg_mul, mul_neg, neg_neg] at bE bW bN bS
  have hEW : g.spreadBase m x y (x + 1) y = g.spreadBase m x y (x - 1) y := by
    rw [bE, bW]
  have hnot : ¬ m.cos m.pi > 0 := not_lt.2 hcpi
  rw [if_pos (by norm_num : (1 : ℚ) > 0)] at bN
  rw [if_neg hnot] at bS
  refine ⟨?_, hEW, ?_, ?_⟩
  · rw [calculateSpreadProbability_eq, calculateSpreadProbability_eq, hEW, hcE, hcW, heE, heW]
  · rw [bN, bS]
    ring
  · intro hb hcan hfb
    rw [calculateSpreadProbability_eq, calculateSpreadProbability_eq, hcN, hcS, heN, heS]
    simp only [hb, hcan, hfb, ne_eq, not_true_eq_false, Bool.not_true, Bool.false_eq_true,
      or_self, if_false, and_self]

/-- Witness for C33: the centre `(1, 1)` of the 3×3 wind-bias lattice (wind direction
90, wind speed 10), with the sixth-order Taylor `cos`. -/
theorem wind_boost_along_y_witness :
    (windBiasGrid 0.8).wind_direction = 90 ∧
    (windBiasGrid 0.8).calculateSpreadProbability Libm.taylor6 1 1 (1 + 1) 1 =
      (windBiasGrid 0.8).calculateSpreadProbability Libm.taylor6 1 1 (1 - 1) 1 ∧
    (windBiasGrid 0.8).spreadBase Libm.taylor6 1 1 1 (1 + 1) =
      (1 + 0.1 * (windBiasGrid 0.8).wind_speed) *
        (windBiasGrid 0.8).spreadBase Libm.taylor6 1 1 1 (1 - 1) := by
  have hdir : (windBiasGrid 0.8).wind_direction = 90 := by
    unfold windBiasGrid Grid.igniteCell
    split <;> rfl
  have hcell : ∀ y x : Int, ¬ (y = 1 ∧ x = 1) →
      (windBiasGrid 0.8).cells y x = Cell.ctor FuelType.GRASS 0.8 0 := by
    intro y x hne
    simp [windBiasGrid, Grid.igniteCell, Grid.setCell, Grid.isValidPosition, Grid.ctor, hne]
  have heff : ∀ y x : Int, (windBiasGrid 0.8).suppression_effects y x =
      { water_level := 0, retardant_level := 0, remaining_time := 0, is_firebreak := false } := by
    intro y x
    simp [windBiasGrid, Grid.igniteCell, Grid.setCell, Grid.isValidPosition, Grid.ctor]
  have hval : ∀ x y : Int, 0 ≤ x → x < 3 → 0 ≤ y → y < 3 →
      (windBiasGrid 0.8).isValidPosition x y = true := by
    intro x y h1 h2 h3 h4
    simp [windBiasGrid, Grid.igniteCell, Grid.setCell, Grid.isValidPosition, Grid.ctor, h1, h2,
      h3, h4]
  have h := wind_boost_along_y Libm.taylor6 (windBiasGrid 0.8) 1 1
    (Cell.ctor FuelType.GRASS 0.8 0)
    { water_level := 0, retardant_level := 0, remaining_time := 0, is_firebreak := false }
    (by intro a; simp only [Libm.taylor6]; ring)
    (by norm_num [Libm.taylor6])
    (by norm_num [Libm.taylor6, Libm.standIn])
    (by simp [Libm.taylor6, Libm.standIn])
    (by norm_num [Libm.taylor6, Libm.standIn])
    (by norm_num [Libm.taylor6, Libm.standIn])
    (by norm_num [Libm.taylor6, Libm.standIn])
    (by norm_num [Libm.taylor6, Libm.standIn])
    hdir
    (hcell _ _ (by norm_num)) (hcell _ _ (by norm_num))
    (hcell _ _ (by norm_num)) (hcell _ _ (by norm_num))
    (heff _ _) (heff _ _) (heff _ _) (heff _ _)
    (hval _ _ (by norm_num) (by norm_num) (by norm_num) (by norm_num))
    (hval _ _ (by norm_num) (by norm_num) (by norm_num) (by norm_num))
    (hval _ _ (by norm_num) (by norm_num) (by norm_num) (by norm_num))
    (hval _ _ (by norm_num) (by norm_num) (by norm_num) (by norm_num))
  exact ⟨hdir, h.1, h.2.2.1⟩

/-! ## The calls of calculateSpreadProbability in a tick -/

theorem spreadNeighborLog_fst (m : Libm) (g : Grid) (dt : ℚ) (x y : Int)
    (st : ((Int → Int → Bool) × Rng) × List (Int × Int × Int × Int)) (n : Int × Int) :
    (Grid.spreadNeighborLog m g dt x y st n).1 = Grid.spreadNeighbor m g dt x y st.1 n := by
  simp only [Grid.spreadNeighborLog, Grid.spreadNeighbor]
  split_ifs <;> rfl

theorem spreadCellLog_fst (m : Libm) (g : Grid) (dt : ℚ)
    (st : ((Int → Int → Bool) × Rng) × List (Int × Int × Int × Int)) (p : Int × Int) :
    (Grid.spreadCellLog m g dt st p).1 = Grid.spreadCell m g dt st.1 p := by
  simp only [Grid.spreadCellLog, Grid.spreadCell]
  split_ifs
  · exact foldl_rel (Grid.spreadNeighborLog m g dt p.1 p.2) (Grid.spreadNeighbor m g dt p.1 p.2)
      (fun a b => a.1 = b)
      (fun a b n hab => by
        show (Grid.spreadNeighborLog m g dt p.1 p.2 a n).1 = _
        have hab' : a.1 = b := hab
        rw [spreadNeighborLog_fst, hab']) _ st st.1 rfl
  · rfl

/-- The logged first pass computes the marks and the generator of the first pass. -/
theorem spreadPassLog_fst (m : Libm) (g : Grid) (dt : ℚ) (gen : Rng) :
    (g.spreadPassLog m dt gen).1 = g.spreadPass m dt gen :=
  foldl_rel (Grid.spreadCellLog m g dt) (Grid.spreadCell m g dt) (fun a b => a.1 = b)
    (fun a b p hab => by
      show (Grid.spreadCellLog m g dt a p).1 = _
      have hab' : a.1 = b := hab
      rw [spreadCellLog_fst, hab']) g.positions
    ((fun _ _ => false, gen), []) (fun _ _ => false, gen) rfl

/-- Every logged call has a burning in-grid source and a burnable target among the
neighbours of the source. -/
theorem spreadPassLog_calls (m : Libm) (g : Grid) (dt : ℚ) (gen : Rng) :
    ∀ c ∈ (g.spreadPassLog m dt gen).2,
      g.isValidPosition c.1 c.2.1 = true ∧
      (g.cells c.2.1 c.1).state = CellState.BURNING ∧
      (c.2.2.1, c.2.2.2) ∈ g.getNeighbors c.1 c.2.1 ∧
      (g.cells c.2.2.2 c.2.2.1).canBurn = true := by
  unfold Grid.spreadPassLog
  refine foldl_preserves (Grid.spreadCellLog m g dt)
    (fun a => ∀ c ∈ a.2,
      g.isValidPosition c.1 c.2.1 = true ∧
      (g.cells c.2.1 c.1).state = CellState.BURNING ∧
      (c.2.2.1, c.2.2.2) ∈ g.getNeighbors c.1 c.2.1 ∧
      (g.cells c.2.2.2 c.2.2.1).canBurn = true) g.positions ?_ _ ?_
  · intro a p hp ha
    have hv := mem_positions g p hp
    simp only [Grid.spreadCellLog]
    split_ifs with hb
    · refine foldl_preserves (Grid.spreadNeighborLog m g dt p.1 p.2)
        (fun a => ∀ c ∈ a.2,
          g.isValidPosition c.1 c.2.1 = true ∧
          (g.cells c.2.1 c.1).state = CellState.BURNING ∧
          (c.2.2.1, c.2.2.2) ∈ g.getNeighbors c.1 c.2.1 ∧
          (g.cells c.2.2.2 c.2.2.1).canBurn = true) (g.getNeighbors p.1 p.2) ?_ a ha
      intro a' n hn ha'
      simp only [Grid.spreadNeighborLog]
      split_ifs with hc hd
      · intro c hcm
        rcases List.mem_append.1 hcm with h | h
        · exact ha' c h
        · rw [List.mem_singleton] at h
          subst h
          exact ⟨hv, hb, hn, hc⟩
      · intro c hcm
        rcases List.mem_append.1 hcm with h | h
        · exact ha' c h
        · rw [List.mem_singleton] at h
          subst h
          exact ⟨hv, hb, hn, hc⟩
      · exact ha'
    · exact ha
  · intro c hc
    simp at hc

/-- Two positions at Chebyshev distance 1 differ, and the squared Euclidean distance
between them is at least 1. -/
theorem adjacent_dist (x y nx ny : Int) (h : max |nx - x| |ny - y| = 1) :
    (nx, ny) ≠ (x, y) ∧
      (1 : ℚ) ≤ ((nx - x : Int) : ℚ) * ((nx - x : Int) : ℚ) +
        ((ny - y : Int) : ℚ) * ((ny - y : Int) : ℚ) := by
  have hx := abs_le.1 (le_trans (le_max_left |nx - x| |ny - y|) (le_of_eq h))
  have hy := abs_le.1 (le_trans (le_max_right |nx - x| |ny - y|) (le_of_eq h))
  have hx3 : nx - x = -1 ∨ nx - x = 0 ∨ nx - x = 1 := by omega
  have hy3 : ny - y = -1 ∨ ny - y = 0 ∨ ny - y = 1 := by omega
  constructor
  · intro heq
    simp only [Prod.mk.injEq] at heq
    rw [heq.1, heq.2] at h
    simp at h
  · rcases hx3 with h1 | h1 | h1 <;> rcases hy3 with h2 | h2 | h2 <;>
      simp [h1, h2] at h ⊢

/-- C32: in a tick, every call `calculateSpreadProbability(x, y, nx, ny)` (the logged
first pass, which computes what the first pass computes) has both positions inside the
grid and `(nx, ny) ≠ (x, y)`; the squared distance under the `sqrt` is at least 1, so
with a `sqrt` that maps `[1, ∞)` into `[1, ∞)` the divisor `distance` is at least 1 and
not zero. The positions scanned by both passes, and the neighbours read for them, are
inside the grid, whose size the tick does not change. -/
theorem spread_calls_in_range (m : Libm) (g : Grid) (dt : ℚ) (gen1 gen2 : Rng)
    (hsqrt : ∀ t : ℚ, 1 ≤ t → 1 ≤ m.sqrt t) :
    (g.spreadPassLog m dt gen1).1 = g.spreadPass m dt gen1 ∧
    (∀ x y nx ny : Int, (x, y, nx, ny) ∈ (g.spreadPassLog m dt gen1).2 →
      g.isValidPosition x y = true ∧ g.isValidPosition nx ny = true ∧
      (nx, ny) ≠ (x, y) ∧
      (1 : ℚ) ≤ ((nx - x : Int) : ℚ) * ((nx - x : Int) : ℚ) +
        ((ny - y : Int) : ℚ) * ((ny - y : Int) : ℚ) ∧
      1 ≤ m.sqrt (((nx - x : Int) : ℚ) * ((nx - x : Int) : ℚ) +
        ((ny - y : Int) : ℚ) * ((ny - y : Int) : ℚ)) ∧
      m.sqrt (((nx - x : Int) : ℚ) * ((nx - x : Int) : ℚ) +
        ((ny - y : Int) : ℚ) * ((ny - y : Int) : ℚ)) ≠ 0) ∧
    (∀ p ∈ g.positions, g.isValidPosition p.1 p.2 = true ∧
      ∀ n ∈ g.getNeighbors p.1 p.2, g.isValidPosition n.1 n.2 = true) ∧
    (g.update m dt gen1 gen2).1.width = g.width ∧
    (g.update m dt gen1 gen2).1.height = g.height := by
  refine ⟨spreadPassLog_fst m g dt gen1, ?_, ?_, update_size m g dt gen1 gen2⟩
  · intro x y nx ny hmem
    obtain ⟨hv, _, hn, _⟩ := spreadPassLog_calls m g dt gen1 (x, y, nx, ny) hmem
    obtain ⟨hvn, hd⟩ := mem_getNeighbors g x y nx ny hn
    obtain ⟨hne, h1⟩ := adjacent_dist x y nx ny hd
    have h2 := hsqrt _ h1
    refine ⟨hv, hvn, hne, h1, h2, ?_⟩
    intro h0
    rw [h0] at h2
    norm_num at h2
  · intro p hp
    refine ⟨mem_positions g p hp, ?_⟩
    intro n hn
    exact (mem_getNeighbors g p.1 p.2 n.1 n.2 hn).1

/-- Witness for C32: a tick of `twoCellGrid` makes exactly one call, from the burning
cell `(0, 0)` to its neighbour `(1, 0)`, at distance `sqrt 1`. -/
theorem spread_calls_in_range_witness :
    (∀ t : ℚ, 1 ≤ t → 1 ≤ Libm.standIn.sqrt t) ∧
    (twoCellGrid.spreadPassLog Libm.standIn 1 Rng.zeros).2 = [(0, 0, 1, 0)] ∧
    twoCellGrid.isValidPosition 0 0 = true ∧ twoCellGrid.isValidPosition 1 0 = true ∧
    ((1 : Int), (0 : Int)) ≠ (0, 0) ∧
    1 ≤ Libm.standIn.sqrt (((1 - 0 : Int) : ℚ) * ((1 - 0 : Int) : ℚ) +
      ((0 - 0 : Int) : ℚ) * ((0 - 0 : Int) : ℚ)) := by
  have hs : ∀ t : ℚ, 1 ≤ t → 1 ≤ Libm.standIn.sqrt t := by
    intro t ht
    simp only [Libm.standIn]
    linarith
  have hpos : twoCellGrid.positions = [(0, 0), (1, 0)] := by
    simp [Grid.positions, twoCellGrid, (by decide : List.range 2 = [0, 1]),
      (by decide : List.range 1 = [0])]
  have hn : twoCellGrid.getNeighbors 0 0 = [(1, 0)] := by
    simp [Grid.getNeighbors, Grid.isValidPosition, twoCellGrid]
  have hc01 : twoCellGrid.cells 0 1 = Cell.ctor FuelType.GRASS 0.8 0 := by
    simp [twoCellGrid]
  have hcb : (Cell.ctor FuelType.GRASS 0.8 0).canBurn = true := by
    simp [Cell.canBurn, Cell.ctor]; norm_num
  have hb0 : (twoCellGrid.cells 0 0).state = CellState.BURNING := by
    simp [twoCellGrid]
  have hf1 : ¬ (Cell.ctor FuelType.GRASS 0.8 0).state = CellState.BURNING := by
    simp [Cell.ctor]
  have hlog : (twoCellGrid.spreadPassLog Libm.standIn 1 Rng.zeros).2 = [(0, 0, 1, 0)] := by
    simp only [Grid.spreadPassLog, hpos, List.foldl_cons, List.foldl_nil, Grid.spreadCellLog,
      hb0, if_true, hn, Grid.spreadNeighborLog, hc01, hcb, hf1, if_false, List.nil_append]
    split_ifs <;> rfl
  have h := (spread_calls_in_range Libm.standIn twoCellGrid 1 Rng.zeros Rng.zeros hs).2.1
    0 0 1 0 (by rw [hlog]; exact List.mem_singleton.2 rfl)
  exact ⟨hs, hlog, h.1, h.2.1, h.2.2.1, h.2.2.2.2.1⟩

/-! ## Burned cells -/

/-- The cell at its own position after a step of the second pass: the old cell,
ignited or not, then updated, then possibly forced to `BURNED` by the extinguishing
roll, which only applies to a cell that is `BURNING` after its update. -/
theorem updateCell_cell_self (dt : ℚ) (will_ignite : Int → Int → Bool) (st : Grid × Rng)
    (p : Int × Int) :
    ∃ c1, (c1 = st.1.cells p.2 p.1 ∨ c1 = (st.1.cells p.2 p.1).ignite) ∧
      ((Grid.updateCell dt will_ignite st p).1.cells p.2 p.1 = c1.update dt ∨
        ((c1.update dt).state = CellState.BURNING ∧
          (Grid.updateCell dt will_ignite st p).1.cells p.2 p.1 =
            { c1.update dt with state := CellState.BURNED })) := by
  by_cases hw : will_ignite p.2 p.1 = true
  · refine ⟨(st.1.cells p.2 p.1).ignite, Or.inr rfl, ?_⟩
    simp only [Grid.updateCell, hw, if_true, setEffect_cells, setCell_cells_self]
    split_ifs with h1 h2 h3
    · exact Or.inr ⟨h1, by simp only [setCell_cells_self]⟩
    · exact Or.inl (by simp only [setEffect_cells, setCell_cells_self])
    · exact Or.inl (by simp only [setEffect_cells, setCell_cells_self])
    · exact Or.inl (by simp only [setEffect_cells, setCell_cells_self])
  · refine ⟨st.1.cells p.2 p.1, Or.inl rfl, ?_⟩
    simp only [Grid.updateCell, hw, Bool.false_eq_true, if_false, setEffect_cells,
      setCell_cells_self]
    split_ifs with h1 h2 h3
    · exact Or.inr ⟨h1, by simp only [setCell_cells_self]⟩
    · exact Or.inl (by simp only [setEffect_cells, setCell_cells_self])
    · exact Or.inl (by simp only [setEffect_cells, setCell_cells_self])
    · exact Or.inl (by simp only [setEffect_cells, setCell_cells_self])

/-- A burning cell has the density it was ignited with, above 0.1; a burned cell
either burned out (temperature 20, density 0) or has the values of a burning cell
after an update. This holds of constructed cells and is kept by `ignite`. -/
theorem burned_inv_ignite (c : Cell)
    (h : (c.state = CellState.BURNING → c.fuel_density > 0.1) ∧
      (c.state = CellState.BURNED →
        (c.temperature = 20 ∧ c.fuel_density = 0) ∨
        (c.fuel_density > 0.1 ∧
          c.burn_time < Cell.baseDuration c.fuel_type * c.fuel_density * (1 + c.moisture) ∧
          c.temperature = 300 * (1 - c.burn_time /
            (Cell.baseDuration c.fuel_type * c.fuel_density * (1 + c.moisture))) + 20))) :
    (c.ignite.state = CellState.BURNING → c.ignite.fuel_density > 0.1) ∧
      (c.ignite.state = CellState.BURNED →
        (c.ignite.temperature = 20 ∧ c.ignite.fuel_density = 0) ∨
        (c.ignite.fuel_density > 0.1 ∧
          c.ignite.burn_time <
            Cell.baseDuration c.ignite.fuel_type * c.ignite.fuel_density *
              (1 + c.ignite.moisture) ∧
          c.ignite.temperature = 300 * (1 - c.ignite.burn_time /
            (Cell.baseDuration c.ignite.fuel_type * c.ignite.fuel_density *
              (1 + c.ignite.moisture))) + 20)) := by
  by_cases hc : c.canBurn = true
  · have hd : c.fuel_density > 0.1 := by
      simp only [Cell.canBurn, Bool.and_eq_true, decide_eq_true_eq] at hc
      exact hc.2
    simp only [Cell.ignite, hc, if_true]
    exact ⟨fun _ => hd, fun hb => absurd hb (by decide)⟩
  · rw [ignite_of_not_canBurn c (by simpa using hc)]
    exact h

/-- The values of a cell that is `BURNING` after `update(dt)`. -/
theorem update_burning_values (c : Cell) (dt : ℚ)
    (h : c.state = CellState.BURNING → c.fuel_density > 0.1)
    (hb : (c.update dt).state = CellState.BURNING) :
    (c.update dt).fuel_density > 0.1 ∧
      (c.update dt).burn_time <
        Cell.baseDuration (c.update dt).fuel_type * (c.update dt).fuel_density *
          (1 + (c.update dt).moisture) ∧
      (c.update dt).temperature = 300 * (1 - (c.update dt).burn_time /
        (Cell.baseDuration (c.update dt).fuel_type * (c.update dt).fuel_density *
          (1 + (c.update dt).moisture))) + 20 := by
  by_cases hs : c.state = CellState.BURNING
  · by_cases hd : c.burn_time + dt ≥
        Cell.baseDuration c.fuel_type * c.fuel_density * (1 + c.moisture)
    · simp only [Cell.update, hs, if_true, hd] at hb
      exact absurd hb (by decide)
    · simp only [Cell.update, hs, if_true, hd, if_false]
      exact ⟨h hs, not_le.1 hd, by trivial⟩
  · rw [update_of_not_burning c dt hs] at hb
    exact absurd hb hs

theorem burned_inv_update (c : Cell) (dt : ℚ)
    (h : (c.state = CellState.BURNING → c.fuel_density > 0.1) ∧
      (c.state = CellState.BURNED →
        (c.temperature = 20 ∧ c.fuel_density = 0) ∨
        (c.fuel_density > 0.1 ∧
          c.burn_time < Cell.baseDuration c.fuel_type * c.fuel_density * (1 + c.moisture) ∧
          c.temperature = 300 * (1 - c.burn_time /
            (Cell.baseDuration c.fuel_type * c.fuel_density * (1 + c.moisture))) + 20))) :
    ((c.update dt).state = CellState.BURNING → (c.update dt).fuel_density > 0.1) ∧
      ((c.update dt).state = CellState.BURNED →
        ((c.update dt).temperature = 20 ∧ (c.update dt).fuel_density = 0) ∨
        ((c.update dt).fuel_density > 0.1 ∧
          (c.update dt).burn_time <
            Cell.baseDuration (c.update dt).fuel_type * (c.update dt).fuel_density *
              (1 + (c.update dt).moisture) ∧
          (c.update dt).temperature = 300 * (1 - (c.update dt).burn_time /
            (Cell.baseDuration (c.update dt).fuel_type * (c.update dt).fuel_density *
              (1 + (c.update dt).moisture))) + 20)) := by
  refine ⟨fun hb => (update_burning_values c dt h.1 hb).1, ?_⟩
  by_cases hs : c.state = CellState.BURNING
  · by_cases hd : c.burn_time + dt ≥
        Cell.baseDuration c.fuel_type * c.fuel_density * (1 + c.moisture)
    · simp only [Cell.update, hs, if_true, hd]
      exact fun _ => Or.inl ⟨by trivial, by trivial⟩
    · simp only [Cell.update, hs, if_true, hd, if_false]
      exact fun hb => absurd hb (by decide)
  · rw [update_of_not_burning c dt hs]
    exact h.2

theorem burnInvariant_ctor (ft : FuelType) (d m : ℚ) : (Cell.ctor ft d m).burnInvariant := by
  have h : (Cell.ctor ft d m).state = CellState.EMPTY ∨
      (Cell.ctor ft d m).state = CellState.FUEL := by
    unfold Cell.ctor
    split_ifs
    · exact Or.inl rfl
    · exact Or.inr rfl
  constructor
  · intro hb
    rcases h with h | h <;> rw [h] at hb <;> exact absurd hb (by decide)
  · intro hb
    rcases h with h | h <;> rw [h] at hb <;> exact absurd hb (by decide)

/-- A step of the second pass keeps the invariant of every cell. -/
theorem updateCell_burnInvariant (dt : ℚ) (will_ignite : Int → Int → Bool) (st : Grid × Rng)
    (p : Int × Int) (h : ∀ y x : Int, (st.1.cells y x).burnInvariant) :
    ∀ y x : Int, ((Grid.updateCell dt will_ignite st p).1.cells y x).burnInvariant := by
  intro y x
  by_cases hp : y = p.2 ∧ x = p.1
  · obtain ⟨rfl, rfl⟩ := hp
    obtain ⟨c1, hc1, hres⟩ := updateCell_cell_self dt will_ignite st p
    have h1 : c1.burnInvariant := by
      rcases hc1 with rfl | rfl
      · exact h _ _
      · exact burned_inv_ignite _ (h _ _)
    rcases hres with hres | ⟨hb, hres⟩
    · rw [hres]
      exact burned_inv_update c1 dt h1
    · rw [hres]
      have hv := update_burning_values c1 dt h1.1 hb
      exact ⟨fun hs => absurd (show CellState.BURNED = CellState.BURNING from hs) (by decide),
        fun _ => Or.inr hv⟩
  · rw [updateCell_cells_other dt will_ignite st p y x hp]
    exact h y x

/-- Every call of `Sim.step` keeps the invariant of every cell. -/
theorem step_burnInvariant (m : Libm) (s s' : Sim) (op : Op)
    (h : ∀ y x : Int, (s.grid.cells y x).burnInvariant) (hs : s.step m op = some s') :
    ∀ y x : Int, (s'.grid.cells y x).burnInvariant := by
  cases op with
  | igniteCell ix iy =>
    simp only [Sim.step, Option.some.injEq] at hs
    subst hs
    intro y x
    show ((s.grid.igniteCell ix iy).cells y x).burnInvariant
    unfold Grid.igniteCell
    split
    · by_cases hp : y = iy ∧ x = ix
      · obtain ⟨rfl, rfl⟩ := hp
        rw [setCell_cells_self]
        exact burned_inv_ignite _ (h _ _)
      · rw [setCell_cells_other _ _ _ _ _ _ hp]
        exact h y x
    · exact h y x
  | update dt =>
    simp only [Sim.step, Option.some.injEq] at hs
    subst hs
    show ∀ y x : Int, ((s.grid.writePass dt (s.grid.spreadPass m dt s.gen1).1
      s.gen2).1.cells y x).burnInvariant
    unfold Grid.writePass
    exact foldl_preserves (Grid.updateCell dt (s.grid.spreadPass m dt s.gen1).1)
      (fun st => ∀ y x : Int, (st.1.cells y x).burnInvariant) s.grid.positions
      (fun a b _ ha => updateCell_burnInvariant dt _ a b ha) (s.grid, s.gen2) h
  | applyWaterDrop cx cy radius e t =>
    simp only [Sim.step, Option.some.injEq] at hs
    subst hs
    intro y x
    show ((s.grid.applyWaterDrop m cx cy radius e t).cells y x).burnInvariant
    rw [applyWaterDrop_eq_deposit, (deposit_frame mergeWater m s.grid cx cy radius e t).2.2.1]
    exact h y x
  | applyRetardant cx cy radius e t =>
    simp only [Sim.step, Option.some.injEq] at hs
    subst hs
    intro y x
    show ((s.grid.applyRetardant m cx cy radius e t).cells y x).burnInvariant
    rw [applyRetardant_eq_deposit,
      (deposit_frame mergeRetardant m s.grid cx cy radius e t).2.2.1]
    exact h y x
  | createFirebreak x1 y1 x2 y2 =>
    obtain ⟨ps, hps, _⟩ := firebreakLine_spec x1 y1 x2 y2
    simp only [Sim.step, createFirebreak_eq, hps, Option.map_some', Option.some.injEq] at hs
    subst hs
    intro y x
    have hm := markAll_at s.grid ps x y
    by_cases hin : (x, y) ∈ ps ∧ s.grid.isValidPosition x y = true
    · show ((s.grid.markAll ps).cells y x).burnInvariant
      rw [(hm.1 hin).1]
      exact burnInvariant_ctor _ _ _
    · show ((s.grid.markAll ps).cells y x).burnInvariant
      rw [(hm.2 hin).1]
      exact h y x

/-- The second-pass step at a burning cell that does not burn out, under a modifier
above 0.5 and a sample below `modifier × dt × 2.0`: the updated cell with its state
set to `BURNED`, every other field as the update left it. -/
theorem updateCell_extinguished (dt : ℚ) (will_ignite : Int → Int → Bool) (st : Grid × Rng)
    (p : Int × Int) (hv : st.1.isValidPosition p.1 p.2 = true)
    (hb : (st.1.cells p.2 p.1).state = CellState.BURNING)
    (hlt : (st.1.cells p.2 p.1).burn_time + dt <
      Cell.baseDuration (st.1.cells p.2 p.1).fuel_type * (st.1.cells p.2 p.1).fuel_density *
        (1 + (st.1.cells p.2 p.1).moisture))
    (hgt : min 1 ((Grid.decay (st.1.suppression_effects p.2 p.1) dt).water_level * 0.8 +
        (Grid.decay (st.1.suppression_effects p.2 p.1) dt).retardant_level * 0.9) > 0.5)
    (hu : st.2.draw.1 <
      min 1 ((Grid.decay (st.1.suppression_effects p.2 p.1) dt).water_level * 0.8 +
        (Grid.decay (st.1.suppression_effects p.2 p.1) dt).retardant_level * 0.9) * dt * 2.0) :
    (Grid.updateCell dt will_ignite st p).1.cells p.2 p.1 =
      { (st.1.cells p.2 p.1).update dt with state := CellState.BURNED } := by
  have hcb : (st.1.cells p.2 p.1).canBurn = false := by
    simp [Cell.canBurn, hb]
  have hign : (if will_ignite p.2 p.1 = true
      then st.1.setCell p.2 p.1 (st.1.cells p.2 p.1).ignite else st.1) = st.1 := by
    split_ifs
    · rw [ignite_of_not_canBurn _ hcb, setCell_same]
    · rfl
  have hupd : ((st.1.cells p.2 p.1).update dt).state = CellState.BURNING := by
    simp only [Cell.update, hb, if_true, if_neg (not_le.2 hlt)]
  have hmod : ((st.1.setCell p.2 p.1 ((st.1.cells p.2 p.1).update dt)).setEffect p.2 p.1
      (Grid.decay (st.1.suppression_effects p.2 p.1) dt)).getSuppressionModifier p.1 p.2 =
      min 1 ((Grid.decay (st.1.suppression_effects p.2 p.1) dt).water_level * 0.8 +
        (Grid.decay (st.1.suppression_effects p.2 p.1) dt).retardant_level * 0.9) := by
    have hv' : ((st.1.setCell p.2 p.1 ((st.1.cells p.2 p.1).update dt)).setEffect p.2 p.1
        (Grid.decay (st.1.suppression_effects p.2 p.1) dt)).isValidPosition p.1 p.2 = true := hv
    simp only [Grid.getSuppressionModifier, hv', Bool.not_true, Bool.false_eq_true, if_false,
      setEffect_effects_self]
  simp only [Grid.updateCell, hign, setCell_effects, setEffect_cells, setCell_cells_self, hupd,
    if_true, hmod]
  rw [if_pos hgt, if_pos hu]
  simp only [setCell_cells_self]

/-- C31 (the code at a failing input): on a fresh 1×1 grid,
`applyWaterDrop(0, 0, 1, 1.0, 10)`, `igniteCell(0, 0)` and `update(1.0)` with the sample 0: the cell burns, its modifier
after decay is 0.8, the extinguishing roll succeeds and forces `BURNED`; the cell keeps
its fuel density 0.8 and the temperature `300 × (1 − 1/31.2) + 20 = 4035/13` of its
update. -/
theorem extinguished_cell_keeps_values :
    ∃ s', Sim.run Libm.ceil { grid := Grid.ctor 1 1, gen1 := Rng.zeros, gen2 := Rng.zeros }
        [Op.applyWaterDrop 0 0 1 1 10, Op.igniteCell 0 0, Op.update 1] = some s' ∧
      (∀ y x : Int, (Grid.ctor 1 1).cells y x = Cell.ctor FuelType.GRASS 0.8 0.3) ∧
      (s'.grid.cells 0 0).state = CellState.BURNED ∧
      (s'.grid.cells 0 0).fuel_density = 4 / 5 ∧
      (s'.grid.cells 0 0).temperature = 4035 / 13 ∧
      ¬ ((s'.grid.cells 0 0).temperature = 20 ∧ (s'.grid.cells 0 0).fuel_density = 0) := by
  have hfr := deposit_frame mergeWater Libm.ceil (Grid.ctor 1 1) 0 0 1 1 10
  rw [← applyWaterDrop_eq_deposit] at hfr
  obtain ⟨hw0, hh0, hc1, _⟩ := hfr
  have hw1 : ((Grid.ctor 1 1).applyWaterDrop Libm.ceil 0 0 1 1 10).width = 1 := hw0
  have hh1 : ((Grid.ctor 1 1).applyWaterDrop Libm.ceil 0 0 1 1 10).height = 1 := hh0
  have hv1 : ((Grid.ctor 1 1).applyWaterDrop Libm.ceil 0 0 1 1 10).isValidPosition 0 0 = true := by
    simp [Grid.isValidPosition, hw1, hh1]
  have hG2 : ((Grid.ctor 1 1).applyWaterDrop Libm.ceil 0 0 1 1 10).igniteCell 0 0 =
      ((Grid.ctor 1 1).applyWaterDrop Libm.ceil 0 0 1 1 10).setCell 0 0
        { state := CellState.BURNING, fuel_type := FuelType.GRASS, fuel_density := 0.8,
          moisture := 0.3, temperature := 300, burn_time := 0 } := by
    have hc : (Cell.ctor FuelType.GRASS 0.8 0.3).ignite =
        { state := CellState.BURNING, fuel_type := FuelType.GRASS, fuel_density := 0.8,
          moisture := 0.3, temperature := 300, burn_time := 0 } := by
      simp [Cell.ignite, Cell.canBurn, Cell.ctor]
      norm_num
    unfold Grid.igniteCell
    rw [if_pos hv1, hc1]
    show Grid.setCell _ 0 0 (Cell.ctor FuelType.GRASS 0.8 0.3).ignite = _
    rw [hc]
  have hpos : (((Grid.ctor 1 1).applyWaterDrop Libm.ceil 0 0 1 1 10).igniteCell 0 0).positions =
      [(0, 0)] := by
    rw [hG2]
    simp [Grid.positions, Grid.setCell, hw1, hh1, (by decide : List.range 1 = [0])]
  have hv2 : (((Grid.ctor 1 1).applyWaterDrop Libm.ceil 0 0 1 1 10).igniteCell
      0 0).isValidPosition 0 0 = true := by
    rw [hG2]
    exact hv1
  have hcell : (((Grid.ctor 1 1).applyWaterDrop Libm.ceil 0 0 1 1 10).igniteCell 0 0).cells 0 0 =
      { state := CellState.BURNING, fuel_type := FuelType.GRASS, fuel_density := 0.8,
        moisture := 0.3, temperature := 300, burn_time := 0 } := by
    rw [hG2, setCell_cells_self]
  have heff : (((Grid.ctor 1 1).applyWaterDrop Libm.ceil 0 0 1 1 10).igniteCell
      0 0).suppression_effects 0 0 =
      { water_level := 1, retardant_level := 0, remaining_time := 10, is_firebreak := false } := by
    rw [igniteCell_effects, waterDrop_centre]
    norm_num
  have hres := updateCell_extinguished 1
    ((((Grid.ctor 1 1).applyWaterDrop Libm.ceil 0 0 1 1 10).igniteCell 0 0).spreadPass
      Libm.ceil 1 Rng.zeros).1
    ((((Grid.ctor 1 1).applyWaterDrop Libm.ceil 0 0 1 1 10).igniteCell 0 0), Rng.zeros) (0, 0)
    hv2 (by rw [hcell])
    (by rw [hcell]; simp [Cell.baseDuration]; norm_num)
    (by rw [heff]; simp [Grid.decay]; norm_num)
    (by rw [heff]; simp [Grid.decay, Rng.draw, Rng.zeros]; norm_num)
  have hfinal : ((((Grid.ctor 1 1).applyWaterDrop Libm.ceil 0 0 1 1 10).igniteCell 0 0).update
      Libm.ceil 1 Rng.zeros Rng.zeros).1.cells 0 0 =
      { state := CellState.BURNED, fuel_type := FuelType.GRASS, fuel_density := 4 / 5,
        moisture := 3 / 10, temperature := 4035 / 13, burn_time := 1 } := by
    show ((((Grid.ctor 1 1).applyWaterDrop Libm.ceil 0 0 1 1 10).igniteCell 0 0).writePass 1
      ((((Grid.ctor 1 1).applyWaterDrop Libm.ceil 0 0 1 1 10).igniteCell 0 0).spreadPass
        Libm.ceil 1 Rng.zeros).1 Rng.zeros).1.cells 0 0 = _
    unfold Grid.writePass
    rw [hpos, List.foldl_cons, List.foldl_nil]
    exact hres.trans (by
      show ({ Cell.update ((((Grid.ctor 1 1).applyWaterDrop Libm.ceil 0 0 1 1 10).igniteCell
        0 0).cells 0 0) 1 with state := CellState.BURNED } : Cell) = _
      rw [hcell]
      simp [Cell.update, Cell.baseDuration]
      norm_num)
  refine ⟨_, rfl, fun _ _ => rfl, ?_, ?_, ?_, ?_⟩
  · show (((((Grid.ctor 1 1).applyWaterDrop Libm.ceil 0 0 1 1 10).igniteCell 0 0).update
      Libm.ceil 1 Rng.zeros Rng.zeros).1.cells 0 0).state = _
    rw [hfinal]
  · show (((((Grid.ctor 1 1).applyWaterDrop Libm.ceil 0 0 1 1 10).igniteCell 0 0).update
      Libm.ceil 1 Rng.zeros Rng.zeros).1.cells 0 0).fuel_density = _
    rw [hfinal]
  · show (((((Grid.ctor 1 1).applyWaterDrop Libm.ceil 0 0 1 1 10).igniteCell 0 0).update
      Libm.ceil 1 Rng.zeros Rng.zeros).1.cells 0 0).temperature = _
    rw [hfinal]
  · show ¬ ((((((Grid.ctor 1 1).applyWaterDrop Libm.ceil 0 0 1 1 10).igniteCell 0 0).update
      Libm.ceil 1 Rng.zeros Rng.zeros).1.cells 0 0).temperature = 20 ∧
      (((((Grid.ctor 1 1).applyWaterDrop Libm.ceil 0 0 1 1 10).igniteCell 0 0).update
      Libm.ceil 1 Rng.zeros Rng.zeros).1.cells 0 0).fuel_density = 0)
    rw [hfinal]
    norm_num

/-- What does hold of burned cells: starting from a grid whose every cell was produced
by the `Cell` constructor, every sequence of `igniteCell`, `applyWaterDrop`, `applyRetardant`,
`createFirebreak` and `update` calls (any `dt`, any samples) returns, and afterwards
every cell in state `BURNED` either has temperature 20 and fuel density 0, or has the
values of a burning cell after an update: fuel density above 0.1, burn time below its
burn duration, and temperature `300 × (1 − burn_time / duration) + 20`. -/
theorem burned_cells_values (m : Libm) (g0 : Grid) (gen1 gen2 : Rng) (ops : List Op)
    (hinit : ∀ y x : Int, ∃ ft d mo, g0.cells y x = Cell.ctor ft d mo) :
    ∃ s', Sim.run m { grid := g0, gen1 := gen1, gen2 := gen2 } ops = some s' ∧
      ∀ y x : Int, (s'.grid.cells y x).state = CellState.BURNED →
        ((s'.grid.cells y x).temperature = 20 ∧ (s'.grid.cells y x).fuel_density = 0) ∨
        ((s'.grid.cells y x).fuel_density > 0.1 ∧
          (s'.grid.cells y x).burn_time <
            Cell.baseDuration (s'.grid.cells y x).fuel_type * (s'.grid.cells y x).fuel_density *
              (1 + (s'.grid.cells y x).moisture) ∧
          (s'.grid.cells y x).temperature = 300 * (1 - (s'.grid.cells y x).burn_time /
            (Cell.baseDuration (s'.grid.cells y x).fuel_type *
              (s'.grid.cells y x).fuel_density * (1 + (s'.grid.cells y x).moisture))) + 20) := by
  obtain ⟨s', hrun⟩ := run_returns m ops { grid := g0, gen1 := gen1, gen2 := gen2 }
  refine ⟨s', hrun, ?_⟩
  have h0 : ∀ y x : Int, (g0.cells y x).burnInvariant := by
    intro y x
    obtain ⟨ft, d, mo, hc⟩ := hinit y x
    rw [hc]
    exact burnInvariant_ctor ft d mo
  have hall := run_invariant m (fun g => ∀ y x : Int, (g.cells y x).burnInvariant)
    (fun _ => True) (fun s s1 op _ hP hs => step_burnInvariant m s s1 op hP hs) ops
    { grid := g0, gen1 := gen1, gen2 := gen2 } s' (fun _ _ => trivial) h0 hrun
  intro y x hb
  exact (hall y x).2 hb

/-- The statement `burned_cells_values` on the fresh 1×1 grid with a water drop, an
ignition and a tick, after which the burned cell is of the second kind. -/
theorem burned_cells_values_witness :
    (∀ y x : Int, ∃ ft d mo, (Grid.ctor 1 1).cells y x = Cell.ctor ft d mo) ∧
    ∃ s', Sim.run Libm.ceil { grid := Grid.ctor 1 1, gen1 := Rng.zeros, gen2 := Rng.zeros }
        [Op.applyWaterDrop 0 0 1 1 10, Op.igniteCell 0 0, Op.update 1] = some s' ∧
      ∀ y x : Int, (s'.grid.cells y x).state = CellState.BURNED →
        ((s'.grid.cells y x).temperature = 20 ∧ (s'.grid.cells y x).fuel_density = 0) ∨
        ((s'.grid.cells y x).fuel_density > 0.1 ∧
          (s'.grid.cells y x).burn_time <
            Cell.baseDuration (s'.grid.cells y x).fuel_type * (s'.grid.cells y x).fuel_density *
              (1 + (s'.grid.cells y x).moisture) ∧
          (s'.grid.cells y x).temperature = 300 * (1 - (s'.grid.cells y x).burn_time /
            (Cell.baseDuration (s'.grid.cells y x).fuel_type *
              (s'.grid.cells y x).fuel_density * (1 + (s'.grid.cells y x).moisture))) + 20) :=
  ⟨fun _ _ => ⟨FuelType.GRASS, 0.8, 0.3, rfl⟩,
    burned_cells_values Libm.ceil (Grid.ctor 1 1) Rng.zeros Rng.zeros
      [Op.applyWaterDrop 0 0 1 1 10, Op.igniteCell 0 0, Op.update 1]
      (fun _ _ => ⟨FuelType.GRASS, 0.8, 0.3, rfl⟩)⟩

end Wildfire
